import Mathlib

/-!
# Transform hierarchy and entity container of the Directus3D / Spartan engine

A shallow embedding of `Directus3D/Components/Transform.cpp` and
`Runtime/Core/GameObject.cpp`.

* A `Transform*` is an index (`Ptr`) into the pool of game objects, in the
  order `GameObjectPool::GetAllGameObjects()` returns them; every game object
  owns exactly one transform.
* The mutable object graph is an explicit `Pool` that every operation takes
  and returns.
* Recursive member functions whose recursion follows the object graph
  (`FindChildren`, `GetDescendants`, `SetParent`) carry a fuel argument; the
  result `none` means that the fuel ran out.
* Scalars of `Vector3`, `Quaternion` and `Matrix` are exact integers.
-/

namespace Directus

/-! ## Math value types -/

/-- Three-component vector (`Math::Vector3`). -/
structure Vector3 where
  x : Int
  y : Int
  z : Int
deriving DecidableEq, Repr

/-- Rotation quaternion (`Math::Quaternion`). -/
structure Quaternion where
  x : Int
  y : Int
  z : Int
  w : Int
deriving DecidableEq, Repr

/-- Row-major 4x4 matrix (`Math::Matrix`), one row per field. -/
structure Matrix where
  r0 : Int × Int × Int × Int
  r1 : Int × Int × Int × Int
  r2 : Int × Int × Int × Int
  r3 : Int × Int × Int × Int
deriving DecidableEq, Repr

/-- Constant `Vector3::Zero`. -/
def Vector3.Zero : Vector3 := ⟨0, 0, 0⟩

/-- Constant `Vector3::One`. -/
def Vector3.One : Vector3 := ⟨1, 1, 1⟩

/-- Constant `Quaternion::Identity`. -/
def Quaternion.Identity : Quaternion := ⟨0, 0, 0, 1⟩

/-- Modelled from the spec: `Matrix::Identity` of the math library, which is
not among the sources. -/
def Matrix.Identity : Matrix :=
  ⟨(1, 0, 0, 0), (0, 1, 0, 0), (0, 0, 1, 0), (0, 0, 0, 1)⟩

/-- Dot product of a row with the column `j` of a matrix given by its four
entries. -/
def Matrix.dot (r : Int × Int × Int × Int) (c0 c1 c2 c3 : Int) : Int :=
  r.1 * c0 + r.2.1 * c1 + r.2.2.1 * c2 + r.2.2.2 * c3

/-- Row `r` times the matrix `b`. -/
def Matrix.rowMul (r : Int × Int × Int × Int) (b : Matrix) : Int × Int × Int × Int :=
  (Matrix.dot r b.r0.1 b.r1.1 b.r2.1 b.r3.1,
   Matrix.dot r b.r0.2.1 b.r1.2.1 b.r2.2.1 b.r3.2.1,
   Matrix.dot r b.r0.2.2.1 b.r1.2.2.1 b.r2.2.2.1 b.r3.2.2.1,
   Matrix.dot r b.r0.2.2.2 b.r1.2.2.2 b.r2.2.2.2 b.r3.2.2.2)

/-- Modelled from the spec: `Matrix::operator*`, the matrix product, of the
math library, which is not among the sources. -/
def Matrix.mul (a b : Matrix) : Matrix :=
  ⟨Matrix.rowMul a.r0 b, Matrix.rowMul a.r1 b, Matrix.rowMul a.r2 b, Matrix.rowMul a.r3 b⟩

/-- Modelled from the spec: `Matrix::CreateTranslation` of the math library,
which is not among the sources; row-vector convention, the translation is the
last row. -/
def Matrix.CreateTranslation (v : Vector3) : Matrix :=
  ⟨(1, 0, 0, 0), (0, 1, 0, 0), (0, 0, 1, 0), (v.x, v.y, v.z, 1)⟩

/-- Modelled from the spec: `Matrix::CreateScale` of the math library, which
is not among the sources. -/
def Matrix.CreateScale (v : Vector3) : Matrix :=
  ⟨(v.x, 0, 0, 0), (0, v.y, 0, 0), (0, 0, v.z, 0), (0, 0, 0, 1)⟩

/-- Modelled from the spec: `Quaternion::RotationMatrix` of the math library,
which is not among the sources; the rotation matrix of a unit quaternion. -/
def Quaternion.RotationMatrix (q : Quaternion) : Matrix :=
  ⟨(1 - 2 * (q.y * q.y + q.z * q.z), 2 * (q.x * q.y + q.z * q.w),
      2 * (q.x * q.z - q.y * q.w), 0),
   (2 * (q.x * q.y - q.z * q.w), 1 - 2 * (q.x * q.x + q.z * q.z),
      2 * (q.y * q.z + q.x * q.w), 0),
   (2 * (q.x * q.z + q.y * q.w), 2 * (q.y * q.z - q.x * q.w),
      1 - 2 * (q.x * q.x + q.y * q.y), 0),
   (0, 0, 0, 1)⟩

/-- The operations of the math library that `Transform.cpp` calls in
`Update`, the world-space setters, `Translate` and `Rotate`, and that are
not among the sources. They are parameters of the model. -/
structure MathLib where
  /-- Method `Matrix::Decompose(scale, rotation, position)`. -/
  decompose : Matrix → Vector3 × Quaternion × Vector3
  /-- Method `Matrix::Inverse()`. -/
  inverse : Matrix → Matrix
  /-- Function `Vector3::Transform(v, m)`. -/
  transform : Vector3 → Matrix → Vector3
  /-- Method `Quaternion::Conjugate()`. -/
  conjugate : Quaternion → Quaternion
  /-- Product `Quaternion * Quaternion`. -/
  qmul : Quaternion → Quaternion → Quaternion
  /-- Method `Quaternion::Normalize()`. -/
  normalize : Quaternion → Quaternion
  /-- Product `Quaternion * Vector3`. -/
  rotate : Quaternion → Vector3 → Vector3
  /-- Method `Vector3::Reciprocal()`. -/
  reciprocal : Vector3 → Vector3
  /-- Product `Vector3 * Vector3`. -/
  vmul : Vector3 → Vector3 → Vector3
  /-- Sum `Vector3 + Vector3`. -/
  vadd : Vector3 → Vector3 → Vector3

/-! ## Transform and pool -/

/-- A `Transform*`: the index of the owning game object in the pool. -/
abbrev Ptr := Nat

/-- The data members of `Transform`, with `id` the value `GetID()` returns
(the ID of the owning game object). -/
structure Transform where
  id : String
  positionLocal : Vector3
  rotationLocal : Quaternion
  scaleLocal : Vector3
  position : Vector3
  rotation : Quaternion
  scale : Vector3
  worldMatrix : Matrix
  lookAt : Vector3
  parent : Option Ptr
  children : List Ptr
  isDirty : Bool
deriving DecidableEq, Repr

/-- Constructor `Transform::Transform()` for the game object with the given
ID. -/
def Transform.new (id : String) : Transform where
  id := id
  positionLocal := Vector3.Zero
  rotationLocal := Quaternion.Identity
  scaleLocal := Vector3.One
  position := Vector3.Zero
  rotation := Quaternion.Identity
  scale := Vector3.One
  worldMatrix := Matrix.Identity
  lookAt := Vector3.Zero
  parent := none
  children := []
  isDirty := true

/-- The transforms of all game objects, in the order of
`GameObjectPool::GetAllGameObjects()`. -/
structure Pool where
  transforms : List Transform
deriving DecidableEq, Repr

/-- Number of game objects in the pool. -/
def Pool.size (s : Pool) : Nat := s.transforms.length

/-- Dereference a transform pointer. A pointer outside the pool is outside the
model: it reads as a freshly constructed transform. -/
def Pool.get (s : Pool) (p : Ptr) : Transform :=
  (s.transforms[p]?).getD (Transform.new "")

/-- Store a transform through a pointer (dropped outside the pool). -/
def Pool.put (s : Pool) (p : Ptr) (t : Transform) : Pool :=
  ⟨s.transforms.set p t⟩

/-- Assignment `p->m_parent = q`. -/
def Pool.setParentPtr (s : Pool) (p : Ptr) (q : Option Ptr) : Pool :=
  s.put p { s.get p with parent := q }

/-- Assignment of the whole vector `p->m_children`. -/
def Pool.setChildren (s : Pool) (p : Ptr) (cs : List Ptr) : Pool :=
  s.put p { s.get p with children := cs }

/-- Call `p->m_children.push_back(c)`. -/
def Pool.pushChild (s : Pool) (p : Ptr) (c : Ptr) : Pool :=
  s.put p { s.get p with children := (s.get p).children ++ [c] }

/-- Method `Transform::GetID`. -/
def GetID (s : Pool) (self : Ptr) : String := (s.get self).id

/-- Method `Transform::GetParent`. -/
def GetParent (s : Pool) (self : Ptr) : Option Ptr := (s.get self).parent

/-- Method `Transform::HasParent`. -/
def HasParent (s : Pool) (self : Ptr) : Bool := (GetParent s self).isSome

/-- Method `Transform::IsRoot`. -/
def IsRoot (s : Pool) (self : Ptr) : Bool := !HasParent s self

/-- Method `Transform::GetChildren`. -/
def GetChildren (s : Pool) (self : Ptr) : List Ptr := (s.get self).children

/-- Method `Transform::MakeDirty`. -/
def MakeDirty (s : Pool) (self : Ptr) : Pool :=
  s.put self { s.get self with isDirty := true }

/-- Method `Transform::GetWorldMatrix`. -/
def GetWorldMatrix (s : Pool) (self : Ptr) : Matrix := (s.get self).worldMatrix

/-- Method `Transform::GetParentMatrix`. -/
def GetParentMatrix (s : Pool) (self : Ptr) : Matrix :=
  match GetParent s self with
  | none => Matrix.Identity
  | some p => GetWorldMatrix s p

/-! ## Hierarchy -/

/-- Body of the scan loop of `Transform::FindChildren` for the pool entry
`possibleChild`: an entry without parent is skipped; an entry whose parent has
the ID of `self` is appended to `m_children` of `self` and then finds its own
children through `findChildren`, the recursive call. -/
def findChildrenStep (findChildren : Pool → Ptr → Option Pool) (self : Ptr)
    (acc : Pool) (possibleChild : Ptr) : Option Pool :=
  match GetParent acc possibleChild with
  | none => some acc
  | some p =>
    if GetID acc p = GetID acc self then
      findChildren (acc.pushChild self possibleChild) possibleChild
    else some acc

/-- Method `Transform::FindChildren`: clear `m_children`, scan the whole pool
and, for every transform whose parent has this transform's ID, append it and
let it find its own children. -/
def FindChildren : Nat → Pool → Ptr → Option Pool
  | 0, _, _ => none
  | fuel + 1, s, self =>
    (List.range s.size).foldlM (findChildrenStep (FindChildren fuel) self)
      (s.setChildren self [])

/-- Private helper `Transform::GetDescendants(vector<Transform*>&)`: append
every child, each followed by its own descendants. -/
def GetDescendantsInto : Nat → Pool → Ptr → List Ptr → Option (List Ptr)
  | 0, _, _, _ => none
  | fuel + 1, s, self, descendants =>
    (GetChildren s self).foldlM
      (fun acc child => GetDescendantsInto fuel s child (acc ++ [child]))
      descendants

/-- Method `Transform::GetDescendants`. -/
def GetDescendants (fuel : Nat) (s : Pool) (self : Ptr) : Option (List Ptr) :=
  GetDescendantsInto fuel s self []

/-- Method `Transform::IsDescendantOf`: some descendant of `transform` has the
ID of this transform. -/
def IsDescendantOf (fuel : Nat) (s : Pool) (self transform : Ptr) : Option Bool :=
  (GetDescendants fuel s transform).map
    (fun descendants => descendants.any (fun d => decide (GetID s self = GetID s d)))

/-- Method `Transform::BecomeOrphan`. -/
def BecomeOrphan (fuel : Nat) (s : Pool) (self : Ptr) : Option Pool :=
  match GetParent s self with
  | none => some s
  | some tempRef => FindChildren fuel (s.setParentPtr self none) tempRef

/-- The loop `for (i; i < m_children.size(); i++) m_children[i]->BecomeOrphan()`
of `SetParent`, from index `i` on; the bound and the element are read from the
current pool at every iteration. -/
def orphanChildren : Nat → Pool → Ptr → Nat → Option Pool
  | 0, _, _, _ => none
  | fuel + 1, s, self, i =>
    match (GetChildren s self)[i]? with
    | none => some s
    | some child =>
      match BecomeOrphan fuel s child with
      | none => none
      | some s1 => orphanChildren fuel s1 self (i + 1)

mutual

/-- Method `Transform::SetParent`. -/
def SetParent : Nat → Pool → Ptr → Option Ptr → Option Pool
  | 0, _, _, _ => none
  | fuel + 1, s, self, none => BecomeOrphan fuel s self
  | fuel + 1, s, self, some newParent =>
    if GetID s newParent = GetID s self then some s
    else if (match GetParent s self with
             | some p => decide (GetID s p = GetID s newParent)
             | none => false) then some s
    else
      match IsDescendantOf fuel s newParent self with
      | none => none
      | some isDescendant =>
        match (if isDescendant then
                 (if HasParent s self then reparentChildren fuel s self 0
                  else orphanChildren fuel s self 0)
               else some s) with
        | none => none
        | some s1 =>
          match (match GetParent s1 self with
                 | some p => FindChildren fuel s1 p
                 | none => some s1) with
          | none => none
          | some s2 =>
            match FindChildren fuel (s2.setParentPtr self (some newParent)) newParent with
            | none => none
            | some s4 => some (MakeDirty s4 self)

/-- The loop `for (i; i < m_children.size(); i++) m_children[i]->SetParent(GetParent())`
of `SetParent`, from index `i` on; the bound, the element and the parent are
read from the current pool at every iteration. -/
def reparentChildren : Nat → Pool → Ptr → Nat → Option Pool
  | 0, _, _, _ => none
  | fuel + 1, s, self, i =>
    match (GetChildren s self)[i]? with
    | none => some s
    | some child =>
      match SetParent fuel s child (GetParent s self) with
      | none => none
      | some s1 => reparentChildren fuel s1 self (i + 1)

end

/-! ## Well-formed pools -/

/-- Follow parent pointers from `x` for fewer than `n` steps and reach a
transform without parent. -/
def reachesRoot : Nat → Pool → Ptr → Bool
  | 0, _, _ => false
  | n + 1, s, x =>
    match GetParent s x with
    | none => true
    | some p => reachesRoot n s p

/-- The parent relation is a forest: following parent pointers from any
transform of the pool reaches a transform with no parent. -/
def Acyclic (s : Pool) : Prop :=
  ∀ x, x < s.size → ∃ n, reachesRoot n s x = true

/-- Parent pointers point into the pool and game-object IDs are unique. -/
structure WellFormed (s : Pool) : Prop where
  parent_lt : ∀ x p, GetParent s x = some p → p < s.size
  id_inj : ∀ x y, x < s.size → y < s.size → GetID s x = GetID s y → x = y

/-- The cached children lists agree with the parent pointers: the children
list of a transform holds exactly the pool transforms whose parent it is. -/
def Consistent (s : Pool) : Prop :=
  ∀ t c, t < s.size → (c ∈ GetChildren s t ↔ c < s.size ∧ GetParent s c = some t)

/-- The pool transforms whose parent pointer is `x`, in pool order. -/
def childrenOf (s : Pool) (x : Ptr) : List Ptr :=
  (List.range s.size).filter (fun c => decide (GetParent s c = some x))

/-- Ancestor-or-self relation of the parent pointers: `Anc s a y` when `a` is
reached from `y` by following parent pointers zero or more times. -/
inductive Anc (s : Pool) (a : Ptr) : Ptr → Prop
  | refl : Anc s a a
  | step {p y : Ptr} : GetParent s y = some p → Anc s a p → Anc s a y

/-- A rank that strictly decreases along parent pointers. -/
def Ranked (s : Pool) (d : Ptr → Nat) : Prop :=
  ∀ x p, GetParent s x = some p → d p < d x

/-- Everything of a transform but its cached children list. -/
def Transform.core (t : Transform) : Transform := { t with children := [] }

/-- Two pools that differ at most in cached children lists. -/
def SameCore (s t : Pool) : Prop :=
  s.size = t.size ∧ ∀ p, (s.get p).core = (t.get p).core

/-- The local position, rotation and scale of a transform. -/
def Transform.locals (t : Transform) : Vector3 × Quaternion × Vector3 :=
  (t.positionLocal, t.rotationLocal, t.scaleLocal)

/-! ## Executable checks and sample pools -/

/-- Executable check of `WellFormed`. -/
def Pool.wellFormedB (s : Pool) : Bool :=
  (List.range s.size).all (fun x =>
    (match GetParent s x with
     | none => true
     | some p => decide (p < s.size)) &&
    (List.range s.size).all (fun y => decide (GetID s x = GetID s y → x = y)))

/-- Executable check of `Acyclic`: the root is reached within as many steps as
the pool has transforms. -/
def Pool.acyclicB (s : Pool) : Bool :=
  (List.range s.size).all (fun x => reachesRoot s.size s x)

/-- Executable check of `Consistent`. -/
def Pool.consistentB (s : Pool) : Bool :=
  (List.range s.size).all (fun t =>
    (GetChildren s t).all (fun c => decide (c < s.size ∧ GetParent s c = some t)) &&
    (List.range s.size).all (fun c =>
      decide (GetParent s c = some t → c ∈ GetChildren s t)))

/-- A transform as constructed for the game object `id`, then linked to the
given parent and cached children. -/
def Transform.linked (id : String) (parent : Option Ptr) (children : List Ptr) : Transform :=
  { Transform.new id with parent := parent, children := children }

/-- Sample pool: root `A` (0) with the two children `B` (1) and `C` (2). -/
def poolFork : Pool :=
  ⟨[Transform.linked "A" none [1, 2], Transform.linked "B" (some 0) [],
    Transform.linked "C" (some 0) []]⟩

/-- The pool `poolFork` after the orphaning loop of `A.SetParent(C)`: only `B`
has been made a root. -/
def poolForkRescued : Pool :=
  ⟨[Transform.linked "A" none [2], Transform.linked "B" none [],
    Transform.linked "C" (some 0) []]⟩

/-- Sample pool: root `A` (0) with the children `B` (1) and `C` (2), and `D` (3)
a child of `B`. -/
def poolForkDeep : Pool :=
  ⟨[Transform.linked "A" none [1, 2], Transform.linked "B" (some 0) [3],
    Transform.linked "C" (some 0) [], Transform.linked "D" (some 1) []]⟩

/-- Sample pool: the chain `A` (0, root), `B` (1, child of `A`), `C` (2, child
of `B`). -/
def poolChain : Pool :=
  ⟨[Transform.linked "A" none [1], Transform.linked "B" (some 0) [2],
    Transform.linked "C" (some 1) []]⟩

/-- Sample pool: root `O` (0) with the child `X` (1), and a second root `P` (2). -/
def poolOXP : Pool :=
  ⟨[Transform.linked "O" none [1], Transform.linked "X" (some 0) [],
    Transform.linked "P" none []]⟩

/-! ## Update, setters and (de)serialization of a transform -/

/-- The local matrix `scale * rotation * translation` that `Transform::Update`
builds from the local values. -/
def Transform.localMatrix (t : Transform) : Matrix :=
  ((Matrix.CreateScale t.scaleLocal).mul t.rotationLocal.RotationMatrix).mul
    (Matrix.CreateTranslation t.positionLocal)

/-- Method `Transform::Update`. The children loop calls `MakeDirty` on every
entry of `m_children`; the cached list holds pool transforms only, so the null
test of the loop always passes. -/
def Update (m : MathLib) (s : Pool) (self : Ptr) : Pool :=
  if (s.get self).isDirty = false then s
  else
    let worldMatrix := (s.get self).localMatrix.mul (GetParentMatrix s self)
    let srp := m.decompose worldMatrix
    let s1 := s.put self { s.get self with
      worldMatrix := worldMatrix, scale := srp.1, rotation := srp.2.1, position := srp.2.2 }
    let s2 := (GetChildren s1 self).foldl (fun acc child => MakeDirty acc child) s1
    s2.put self { s2.get self with isDirty := false }

/-- Method `Transform::SetPositionLocal`. -/
def SetPositionLocal (s : Pool) (self : Ptr) (position : Vector3) : Pool :=
  if (s.get self).positionLocal = position then s
  else MakeDirty (s.put self { s.get self with positionLocal := position }) self

/-- Method `Transform::SetRotationLocal`. -/
def SetRotationLocal (s : Pool) (self : Ptr) (rotation : Quaternion) : Pool :=
  if (s.get self).rotationLocal = rotation then s
  else MakeDirty (s.put self { s.get self with rotationLocal := rotation }) self

/-- Method `Transform::SetScaleLocal`. -/
def SetScaleLocal (s : Pool) (self : Ptr) (scale : Vector3) : Pool :=
  if (s.get self).scaleLocal = scale then s
  else MakeDirty (s.put self { s.get self with scaleLocal := scale }) self

/-- Method `Transform::SetPosition`. -/
def SetPosition (m : MathLib) (s : Pool) (self : Ptr) (position : Vector3) : Pool :=
  match GetParent s self with
  | some p => SetPositionLocal s self (m.transform position (m.inverse (GetWorldMatrix s p)))
  | none => SetPositionLocal s self position

/-- Method `Transform::SetRotation`. -/
def SetRotation (m : MathLib) (s : Pool) (self : Ptr) (rotation : Quaternion) : Pool :=
  match GetParent s self with
  | none => SetRotationLocal s self rotation
  | some p => SetRotationLocal s self (m.qmul (m.conjugate (s.get p).rotation) rotation)

/-- Method `Transform::SetScale`. -/
def SetScale (m : MathLib) (s : Pool) (self : Ptr) (scale : Vector3) : Pool :=
  match GetParent s self with
  | some p => SetScaleLocal s self (m.vmul scale (m.reciprocal (s.get p).scale))
  | none => SetScaleLocal s self scale

/-- Method `Transform::Translate`. -/
def Translate (m : MathLib) (s : Pool) (self : Ptr) (delta : Vector3) : Pool :=
  if HasParent s self then
    SetPositionLocal s self
      (m.vadd (s.get self).positionLocal (m.rotate (s.get self).rotationLocal delta))
  else SetPositionLocal s self (m.vadd (s.get self).positionLocal delta)

/-- Method `Transform::Rotate`. -/
def Rotate (m : MathLib) (s : Pool) (self : Ptr) (delta : Quaternion) : Pool :=
  if HasParent s self then
    SetRotationLocal s self (m.normalize (m.qmul delta (s.get self).rotationLocal))
  else SetRotationLocal s self (m.normalize (m.qmul (s.get self).rotationLocal delta))

/-- The values `Transform::Serialize` saves and `Transform::Deserialize`
loads, in stream order. -/
structure TransformBody where
  positionLocal : Vector3
  rotationLocal : Quaternion
  scaleLocal : Vector3
  lookAt : Vector3
  parentGameObjectID : String
deriving DecidableEq, Repr

/-- Modelled from the spec: `GameObjectPool::GetGameObjectByID`, which is not
among the sources; the game object of the pool with the given ID, if any
(`lookup_entity_by_id(id) -> optional<Entity>`). -/
def GetGameObjectByID (s : Pool) (id : String) : Option Ptr :=
  (List.range s.size).find? (fun p => decide (GetID s p = id))

/-- Method `Transform::Serialize`; `nullID` is the constant
`NULL_GAMEOBJECT_ID`, which is not among the sources. -/
def Serialize (nullID : String) (s : Pool) (self : Ptr) : TransformBody where
  positionLocal := (s.get self).positionLocal
  rotationLocal := (s.get self).rotationLocal
  scaleLocal := (s.get self).scaleLocal
  lookAt := (s.get self).lookAt
  parentGameObjectID :=
    match GetParent s self with
    | some p => GetID s p
    | none => nullID

/-- Method `Transform::Deserialize`; `nullID` is the constant
`NULL_GAMEOBJECT_ID`, which is not among the sources. -/
def Deserialize (nullID : String) (s : Pool) (self : Ptr) (b : TransformBody) : Pool :=
  let s1 := s.put self { s.get self with
    positionLocal := b.positionLocal, rotationLocal := b.rotationLocal,
    scaleLocal := b.scaleLocal, lookAt := b.lookAt }
  let s2 :=
    if b.parentGameObjectID ≠ nullID then
      match GetGameObjectByID s1 b.parentGameObjectID with
      | some parent => s1.setParentPtr self (some parent)
      | none => s1
    else s1
  MakeDirty s2 self

/-- A call of a public operation of `Transform` on the transform `self`. -/
inductive Op where
  | SetPositionLocal (self : Ptr) (v : Vector3)
  | SetRotationLocal (self : Ptr) (q : Quaternion)
  | SetScaleLocal (self : Ptr) (v : Vector3)
  | SetPosition (self : Ptr) (v : Vector3)
  | SetRotation (self : Ptr) (q : Quaternion)
  | SetScale (self : Ptr) (v : Vector3)
  | Translate (self : Ptr) (delta : Vector3)
  | Rotate (self : Ptr) (delta : Quaternion)
  | SetParent (self : Ptr) (newParent : Option Ptr)
  | BecomeOrphan (self : Ptr)
  | Update (self : Ptr)
  | Deserialize (self : Ptr) (b : TransformBody)

/-- Run one call; `none` when the call does not return within the fuel. -/
def Op.apply (m : MathLib) (nullID : String) (fuel : Nat) (s : Pool) : Op → Option Pool
  | Op.SetPositionLocal self v => some (Directus.SetPositionLocal s self v)
  | Op.SetRotationLocal self q => some (Directus.SetRotationLocal s self q)
  | Op.SetScaleLocal self v => some (Directus.SetScaleLocal s self v)
  | Op.SetPosition self v => some (Directus.SetPosition m s self v)
  | Op.SetRotation self q => some (Directus.SetRotation m s self q)
  | Op.SetScale self v => some (Directus.SetScale m s self v)
  | Op.Translate self delta => some (Directus.Translate m s self delta)
  | Op.Rotate self delta => some (Directus.Rotate m s self delta)
  | Op.SetParent self newParent => Directus.SetParent fuel s self newParent
  | Op.BecomeOrphan self => Directus.BecomeOrphan fuel s self
  | Op.Update self => some (Directus.Update m s self)
  | Op.Deserialize self b => some (Directus.Deserialize nullID s self b)

/-- Run a sequence of calls, one after the other. -/
def runOps (m : MathLib) (nullID : String) (fuel : Nat) (s : Pool) (ops : List Op) :
    Option Pool :=
  ops.foldlM (fun acc op => op.apply m nullID fuel acc) s

/-- A pool of freshly constructed transforms, one per game-object ID. -/
def Pool.fresh (ids : List String) : Pool := ⟨ids.map Transform.new⟩

/-- The states reachable from freshly constructed transforms by calls of the
public operations on transforms of the pool. -/
def Reachable (m : MathLib) (nullID : String) (s : Pool) : Prop :=
  ∃ (ids : List String) (ops : List Op) (fuel : Nat),
    runOps m nullID fuel (Pool.fresh ids) ops = some s

/-- The clean-implies-current property of one transform: when it is not dirty,
its cached world matrix is its local matrix times the cached world matrix of
its parent (the identity for a root). -/
def CleanIsCurrent (s : Pool) (x : Ptr) : Prop :=
  (s.get x).isDirty = false →
    (s.get x).worldMatrix = (s.get x).localMatrix.mul (GetParentMatrix s x)

/-- A math library for the sample pools, on the integer model. The polynomial
operations are exact; `decompose` and `inverse` are exact on matrices without
rotation and with unit scale (scale read from the diagonal, position from the
last row, the inverse negating the translation), `normalize` on unit
quaternions and `reciprocal` on vectors with components `1` or `-1`. -/
def sampleMath : MathLib where
  decompose := fun a =>
    (⟨a.r0.1, a.r1.2.1, a.r2.2.2.1⟩, Quaternion.Identity, ⟨a.r3.1, a.r3.2.1, a.r3.2.2.1⟩)
  inverse := fun a => ⟨a.r0, a.r1, a.r2, (-a.r3.1, -a.r3.2.1, -a.r3.2.2.1, a.r3.2.2.2)⟩
  transform := fun v a =>
    ⟨v.x * a.r0.1 + v.y * a.r1.1 + v.z * a.r2.1 + a.r3.1,
     v.x * a.r0.2.1 + v.y * a.r1.2.1 + v.z * a.r2.2.1 + a.r3.2.1,
     v.x * a.r0.2.2.1 + v.y * a.r1.2.2.1 + v.z * a.r2.2.2.1 + a.r3.2.2.1⟩
  conjugate := fun q => ⟨-q.x, -q.y, -q.z, q.w⟩
  qmul := fun a b =>
    ⟨a.w * b.x + a.x * b.w + a.y * b.z - a.z * b.y,
     a.w * b.y - a.x * b.z + a.y * b.w + a.z * b.x,
     a.w * b.z + a.x * b.y - a.y * b.x + a.z * b.w,
     a.w * b.w - a.x * b.x - a.y * b.y - a.z * b.z⟩
  normalize := fun q => q
  rotate := fun q v =>
    ⟨v.x + 2 * (q.w * (q.y * v.z - q.z * v.y)
        + (q.y * (q.x * v.y - q.y * v.x) - q.z * (q.z * v.x - q.x * v.z))),
     v.y + 2 * (q.w * (q.z * v.x - q.x * v.z)
        + (q.z * (q.y * v.z - q.z * v.y) - q.x * (q.x * v.y - q.y * v.x))),
     v.z + 2 * (q.w * (q.x * v.y - q.y * v.x)
        + (q.x * (q.z * v.x - q.x * v.z) - q.y * (q.y * v.z - q.z * v.y)))⟩
  reciprocal := fun v => v
  vmul := fun a b => ⟨a.x * b.x, a.y * b.y, a.z * b.z⟩
  vadd := fun a b => ⟨a.x + b.x, a.y + b.y, a.z + b.z⟩

/-! ## The failing run of the clean-implies-current property -/

/-- The calls of the run: `X` (1) becomes a child of `P` (0), `P` is moved to
`(1, 0, 0)` and updated, `X` is updated, and `X` is orphaned. -/
def staleWorldOps : List Op :=
  [Op.SetParent 1 (some 0), Op.SetPositionLocal 0 ⟨1, 0, 0⟩, Op.Update 0, Op.Update 1,
    Op.BecomeOrphan 1]

/-- The transform `P` of the run after its `Update`. -/
def movedP (m : MathLib) (children : List Ptr) : Transform :=
  { Transform.new "P" with
    children := children
    positionLocal := ⟨1, 0, 0⟩
    worldMatrix := Matrix.CreateTranslation ⟨1, 0, 0⟩
    scale := (m.decompose (Matrix.CreateTranslation ⟨1, 0, 0⟩)).1
    rotation := (m.decompose (Matrix.CreateTranslation ⟨1, 0, 0⟩)).2.1
    position := (m.decompose (Matrix.CreateTranslation ⟨1, 0, 0⟩)).2.2
    isDirty := false }

/-- The transform `X` of the run after its `Update`. -/
def cleanX (m : MathLib) (parent : Option Ptr) : Transform :=
  { Transform.new "X" with
    parent := parent
    worldMatrix := Matrix.CreateTranslation ⟨1, 0, 0⟩
    scale := (m.decompose (Matrix.CreateTranslation ⟨1, 0, 0⟩)).1
    rotation := (m.decompose (Matrix.CreateTranslation ⟨1, 0, 0⟩)).2.1
    position := (m.decompose (Matrix.CreateTranslation ⟨1, 0, 0⟩)).2.2
    isDirty := false }

/-- The pool of the run after `X.SetParent(P)`. -/
def staleWorldPool1 : Pool :=
  ⟨[Transform.linked "P" none [1], Transform.linked "X" (some 0) []]⟩

/-- The pool of the run after `P.SetPositionLocal((1, 0, 0))`. -/
def staleWorldPool2 : Pool :=
  ⟨[{ Transform.linked "P" none [1] with positionLocal := ⟨1, 0, 0⟩ },
    Transform.linked "X" (some 0) []]⟩

/-- The pool of the run after `P.Update()`. -/
def staleWorldPool3 (m : MathLib) : Pool :=
  ⟨[movedP m [1], Transform.linked "X" (some 0) []]⟩

/-- The pool of the run after `X.Update()`. -/
def staleWorldPool4 (m : MathLib) : Pool := ⟨[movedP m [1], cleanX m (some 0)]⟩

/-- The pool at the end of the run, after `X.BecomeOrphan()`. -/
def staleWorldPool (m : MathLib) : Pool := ⟨[movedP m [], cleanX m none]⟩

/-! ## Entities (`Runtime/Core/GameObject.cpp`)

A game object and the game objects below it are a tree: the children of a game
object are the entries of `GetTransform()->GetChildren()`, each a child
transform with its ID and its weak reference to the owning game object. The
stream is the list of the values written, in order. -/

/-- A value in a `StreamIO` stream. -/
inductive Token where
  | bool (b : Bool)
  | int (i : Int)
  | uint (n : Nat)
  | str (s : String)
  | vector3 (v : Vector3)
  | quaternion (q : Quaternion)
deriving DecidableEq, Repr

/-- A component: its type tag `g_typeStr`, its ID `g_ID`, and the members of
its variant, kept as a list of values. -/
structure Component where
  g_typeStr : String
  g_ID : Nat
  members : List Token
deriving DecidableEq, Repr

/-- The component variants, which are not among the sources (only the header
of `Skybox` is): how a variant is constructed and how it writes and reads its
body. They are parameters of the model. -/
structure ComponentLib where
  /-- The members of a newly constructed component of the variant. -/
  Construct : String → List Token
  /-- The ID `AddComponent` gives a new component of the variant. -/
  GenerateID : String → Nat
  /-- Method `Component::Serialize(stream)` of the variant: the values written. -/
  Serialize : Component → List Token
  /-- Method `Component::Deserialize(stream)` of the variant: the component
  after reading its body from the front of the stream, and the rest. -/
  Deserialize : Component → List Token → Option (Component × List Token)

mutual

/-- A game object: `m_isPrefab`, `m_isActive`, `m_hierarchyVisibility`,
`m_ID`, `m_name`, `m_components`, and the children of its transform. -/
inductive GameObject where
  | mk (m_isPrefab m_isActive m_hierarchyVisibility : Bool) (m_ID : Nat) (m_name : String)
      (m_components : List Component) (children : ChildList)

/-- The vector `GetTransform()->GetChildren()`: per child transform its `g_ID`
and the game object its weak reference `g_gameObject` points to, or the fact
that the reference is expired. -/
inductive ChildList where
  | nil
  | live (g_ID : Nat) (g_gameObject : GameObject) (rest : ChildList)
  | expired (g_ID : Nat) (rest : ChildList)

end

/-- Number of child transforms, `children.size()`. -/
def ChildList.size : ChildList → Nat
  | ChildList.nil => 0
  | ChildList.live _ _ rest => rest.size + 1
  | ChildList.expired _ rest => rest.size + 1

/-- The `g_ID` of every child transform, in order. -/
def ChildList.ids : ChildList → List Nat
  | ChildList.nil => []
  | ChildList.live id _ rest => id :: rest.ids
  | ChildList.expired id rest => id :: rest.ids

/-- The children list whose entries all are live. -/
def ChildList.ofList : List (Nat × GameObject) → ChildList
  | [] => ChildList.nil
  | (id, g) :: rest => ChildList.live id g (ChildList.ofList rest)

/-- Field `m_components`. -/
def GameObject.m_components : GameObject → List Component
  | GameObject.mk _ _ _ _ _ comps _ => comps

/-- The children of the transform of the game object. -/
def GameObject.children : GameObject → ChildList
  | GameObject.mk _ _ _ _ _ _ children => children

/-- Modelled from the spec: `GameObject::GetTransform`, whose member
`m_transform` is bound outside the sources; the Transform component of the
entity ("exactly one of which is its Transform"), if it has one. -/
def GetTransform (components : List Component) : Option Component :=
  components.find? (fun c => decide (c.g_typeStr = "Transform"))

mutual

/-- Method `GameObject::Serialize`: the values it appends to the stream, or
`none` when it does not return. The children are read through
`GetTransform()->GetChildren()`, so on an entity without a transform the call
goes through the null pointer after the component section and does not
return; neither does it when the call on a child does not return. -/
def GameObject.Serialize (lib : ComponentLib) : GameObject → Option (List Token)
  | GameObject.mk isPrefab isActive hierarchyVisibility ID name components children =>
    match GetTransform components with
    | none => none
    | some _ =>
      match ChildList.SerializeEach lib children with
      | none => none
      | some records =>
        some ([Token.bool isPrefab, Token.bool isActive, Token.bool hierarchyVisibility,
            Token.uint ID, Token.str name]
          ++ [Token.int components.length]
          ++ (components.map (fun c => [Token.str c.g_typeStr, Token.uint c.g_ID])).flatten
          ++ (components.map lib.Serialize).flatten
          ++ [Token.int children.size]
          ++ children.ids.map Token.uint
          ++ records)

/-- The third children loop of `GameObject::Serialize`: every child game
object in turn, up to the first expired reference, where the loop breaks; the
values the calls on the children append, or `none` when one of them does not
return. -/
def ChildList.SerializeEach (lib : ComponentLib) : ChildList → Option (List Token)
  | ChildList.nil => some []
  | ChildList.live _ g rest =>
    match GameObject.Serialize lib g with
    | none => none
    | some record =>
      match ChildList.SerializeEach lib rest with
      | none => none
      | some records => some (record ++ records)
  | ChildList.expired _ _ => some []

end

/-- Modelled from the spec: typed read of a `bool` from a `StreamIO`, which is
not among the sources; values are read back in the order written, and a read
of another type or at the end of the stream fails. -/
def readBool : List Token → Option (Bool × List Token)
  | Token.bool b :: rest => some (b, rest)
  | _ => none

/-- Modelled from the spec: typed read of an `int` from a `StreamIO`. -/
def readInt : List Token → Option (Int × List Token)
  | Token.int i :: rest => some (i, rest)
  | _ => none

/-- Modelled from the spec: typed read of an `unsigned int` from a `StreamIO`. -/
def readUInt : List Token → Option (Nat × List Token)
  | Token.uint n :: rest => some (n, rest)
  | _ => none

/-- Modelled from the spec: typed read of a `string` from a `StreamIO`. -/
def readStr : List Token → Option (String × List Token)
  | Token.str s :: rest => some (s, rest)
  | _ => none

/-- Modelled from the spec: the template `GameObject::AddComponent<T>`, which
is not among the sources; it attaches one new component of the variant to the
entity and returns it, here as its index in `m_components`. -/
def AddComponent (lib : ComponentLib) (components : List Component) (variant : String) :
    List Component × Option Nat :=
  (components ++ [⟨variant, lib.GenerateID variant, lib.Construct variant⟩],
    some components.length)

/-- Method `GameObject::AddComponentBasedOnType`: the components afterwards and
the returned component, `none` for the null pointer. -/
def AddComponentBasedOnType (lib : ComponentLib) (components : List Component)
    (typeStr : String) : List Component × Option Nat :=
  let r : List Component × Option Nat := (components, none)
  let r := if typeStr = "Transform" then AddComponent lib r.1 "Transform" else r
  let r := if typeStr = "MeshFilter" then AddComponent lib r.1 "MeshFilter" else r
  let r := if typeStr = "MeshRenderer" then AddComponent lib r.1 "MeshRenderer" else r
  let r := if typeStr = "Light" then AddComponent lib r.1 "Light" else r
  let r := if typeStr = "Camera" then AddComponent lib r.1 "Camera" else r
  let r := if typeStr = "Skybox" then AddComponent lib r.1 "Skybox" else r
  let r := if typeStr = "RigidBody" then AddComponent lib r.1 "RigidBody" else r
  let r := if typeStr = "Collider" then AddComponent lib r.1 "Collider" else r
  let r := if typeStr = "Hinge" then AddComponent lib r.1 "Hinge" else r
  let r := if typeStr = "Script" then AddComponent lib r.1 "Script" else r
  let r := if typeStr = "LineRenderer" then AddComponent lib r.1 "LineRenderer" else r
  let r := if typeStr = "AudioSource" then AddComponent lib r.1 "AudioSource" else r
  let r := if typeStr = "AudioListener" then AddComponent lib r.1 "AudioListener" else r
  r

/-- The type tags `AddComponentBasedOnType` recognises. -/
def recognisedTags : List String :=
  ["Transform", "MeshFilter", "MeshRenderer", "Light", "Camera", "Skybox", "RigidBody",
    "Collider", "Hinge", "Script", "LineRenderer", "AudioSource", "AudioListener"]

/-- The first components loop of `GameObject::Deserialize`, with `count`
iterations left: read type and ID, attach a component of that type and store
the ID in it. Storing through the null pointer that an unrecognised type
yields is a failure. -/
def readComponentShells (lib : ComponentLib) :
    Nat → List Token → List Component → Option (List Component × List Token)
  | 0, stream, components => some (components, stream)
  | count + 1, stream, components =>
    match readStr stream with
    | none => none
    | some (type, s1) =>
      match readUInt s1 with
      | none => none
      | some (id, s2) =>
        match AddComponentBasedOnType lib components type with
        | (_, none) => none
        | (components1, some k) =>
          readComponentShells lib count s2
            (components1.modify (fun c => { c with g_ID := id }) k)

/-- The second components loop of `GameObject::Deserialize`: every component
of `m_components` reads its body. -/
def readComponentBodies (lib : ComponentLib) :
    List Component → List Token → Option (List Component × List Token)
  | [], stream => some ([], stream)
  | c :: rest, stream =>
    match lib.Deserialize c stream with
    | none => none
    | some (c1, s1) =>
      match readComponentBodies lib rest s1 with
      | none => none
      | some (rest1, s2) => some (c1 :: rest1, s2)

/-- The second children loop of `GameObject::Deserialize`, with `count`
iterations left: the IDs read for the created child game objects. -/
def readChildIDs : Nat → List Token → Option (List Nat × List Token)
  | 0, stream => some ([], stream)
  | count + 1, stream =>
    match readUInt stream with
    | none => none
    | some (id, s1) =>
      match readChildIDs count s1 with
      | none => none
      | some (ids, s2) => some (id :: ids, s2)

/-- The third children loop of `GameObject::Deserialize`: every created child
deserializes itself through `deserialize`, the recursive call. -/
def deserializeChildren (deserialize : List Token → Option (GameObject × List Token)) :
    List Nat → List Token → Option (List GameObject × List Token)
  | [], stream => some ([], stream)
  | _ :: ids, stream =>
    match deserialize stream with
    | none => none
    | some (child, s1) =>
      match deserializeChildren deserialize ids s1 with
      | none => none
      | some (children, s2) => some (child :: children, s2)

/-- Modelled from the spec: the effect of `m_transform->SetParent(parent)` in
every child and of the final `m_transform->ResolveChildrenRecursively()`,
neither of which is among the sources for this `Transform`; the children of
the transform of the entity become the deserialized children that have a
transform, in creation order, and an entity without transform has none. -/
def ResolveChildren (components : List Component) (children : List GameObject) : ChildList :=
  match GetTransform components with
  | none => ChildList.nil
  | some _ =>
    ChildList.ofList (children.filterMap (fun child =>
      (GetTransform child.m_components).map (fun t => (t.g_ID, child))))

/-- Method `GameObject::Deserialize` on an entity that has the components
`components`: the entity afterwards, with the game objects created below it,
and the rest of the stream. A child is created by `Scene::CreateGameObject`,
modelled from the spec as an entity without components. -/
def GameObject.Deserialize (lib : ComponentLib) :
    Nat → List Token → List Component → Option (GameObject × List Token)
  | 0, _, _ => none
  | fuel + 1, stream, components =>
    match readBool stream with
    | none => none
    | some (isPrefab, s1) =>
    match readBool s1 with
    | none => none
    | some (isActive, s2) =>
    match readBool s2 with
    | none => none
    | some (hierarchyVisibility, s3) =>
    match readUInt s3 with
    | none => none
    | some (ID, s4) =>
    match readStr s4 with
    | none => none
    | some (name, s5) =>
    match readInt s5 with
    | none => none
    | some (componentCount, s6) =>
    match readComponentShells lib componentCount.toNat s6 components with
    | none => none
    | some (components1, s7) =>
    match readComponentBodies lib components1 s7 with
    | none => none
    | some (components2, s8) =>
    match readInt s8 with
    | none => none
    | some (childrenCount, s9) =>
    match readChildIDs childrenCount.toNat s9 with
    | none => none
    | some (ids, s10) =>
    match deserializeChildren (fun s => GameObject.Deserialize lib fuel s []) ids s10 with
    | none => none
    | some (children, s11) =>
      some (GameObject.mk isPrefab isActive hierarchyVisibility ID name components2
        (ResolveChildren components2 children), s11)

/-- A component library in which every variant is like `Skybox`, the one
variant whose header is among the sources: `Serialize` writes nothing and
`Deserialize` reads nothing. -/
def skyboxLib : ComponentLib where
  Construct := fun _ => []
  GenerateID := fun _ => 0
  Serialize := fun _ => []
  Deserialize := fun c stream => some (c, stream)

/-- The type tag and the ID of every component, in attachment order. -/
def componentTags (components : List Component) : List (String × Nat) :=
  components.map (fun c => (c.g_typeStr, c.g_ID))

/-- The component as `GameObject::Deserialize` leaves it after the first
components loop: newly attached, with the ID that was read. -/
def Component.shell (lib : ComponentLib) (c : Component) : Component :=
  ⟨c.g_typeStr, c.g_ID, lib.Construct c.g_typeStr⟩

/-- Every variant reads back the body it wrote: `Deserialize` of a newly
attached component of the same variant consumes exactly what `Serialize`
wrote, and leaves type tag and ID alone. -/
def ComponentLib.RoundTrips (lib : ComponentLib) : Prop :=
  ∀ (c : Component) (rest : List Token),
    ∃ c1, lib.Deserialize (c.shell lib) (lib.Serialize c ++ rest) = some (c1, rest) ∧
      c1.g_typeStr = c.g_typeStr ∧ c1.g_ID = c.g_ID

mutual

/-- The entity subtree can be serialized and read back: every type tag is
recognised, every entity has a transform and every child reference is live. -/
def GameObject.serializable : GameObject → Bool
  | GameObject.mk _ _ _ _ _ components children =>
    components.all (fun c => decide (c.g_typeStr ∈ recognisedTags))
      && (GetTransform components).isSome && ChildList.serializable children

/-- Every child reference is live and every child subtree is serializable. -/
def ChildList.serializable : ChildList → Bool
  | ChildList.nil => true
  | ChildList.live _ g rest => GameObject.serializable g && ChildList.serializable rest
  | ChildList.expired _ _ => false

end

mutual

/-- Number of entities of the subtree. -/
def GameObject.count : GameObject → Nat
  | GameObject.mk _ _ _ _ _ _ children => ChildList.count children + 1

/-- Number of entities below the live children. -/
def ChildList.count : ChildList → Nat
  | ChildList.nil => 0
  | ChildList.live _ g rest => GameObject.count g + ChildList.count rest
  | ChildList.expired _ rest => ChildList.count rest

end

mutual

/-- Height of the subtree, a single entity having height one. -/
def GameObject.depth : GameObject → Nat
  | GameObject.mk _ _ _ _ _ _ children => ChildList.depth children + 1

/-- Largest height of a child subtree. -/
def ChildList.depth : ChildList → Nat
  | ChildList.nil => 0
  | ChildList.live _ g rest => max (GameObject.depth g) (ChildList.depth rest)
  | ChildList.expired _ rest => ChildList.depth rest

end

mutual

/-- Two entity subtrees have the same header fields, the same sequence of
component type tags and IDs, and the same children, recursively and in order. -/
def GameObject.sameShape : GameObject → GameObject → Bool
  | GameObject.mk p1 a1 h1 id1 n1 c1 ch1, GameObject.mk p2 a2 h2 id2 n2 c2 ch2 =>
    decide (p1 = p2) && decide (a1 = a2) && decide (h1 = h2) && decide (id1 = id2)
      && decide (n1 = n2) && decide (componentTags c1 = componentTags c2)
      && ChildList.sameShape ch1 ch2

/-- Two children lists have as many entries, entry by entry both live with
the same shape or both expired. -/
def ChildList.sameShape : ChildList → ChildList → Bool
  | ChildList.nil, ChildList.nil => true
  | ChildList.live _ g1 r1, ChildList.live _ g2 r2 =>
    GameObject.sameShape g1 g2 && ChildList.sameShape r1 r2
  | ChildList.expired _ r1, ChildList.expired _ r2 => ChildList.sameShape r1 r2
  | _, _ => false

end

/-- A list of game objects matches a children list entry by entry: every
entry is live and has the shape of the game object at its position. -/
def matchesChildren : List GameObject → ChildList → Bool
  | [], ChildList.nil => true
  | g1 :: gs, ChildList.live _ g rest => GameObject.sameShape g1 g && matchesChildren gs rest
  | _, _ => false

/-- Sample entity: a leaf with a transform and a light. -/
def sampleLeaf (id : Nat) (name : String) : GameObject :=
  GameObject.mk false true true id name
    [⟨"Transform", id + 100, []⟩, ⟨"Light", id + 200, []⟩] ChildList.nil

/-- Sample entity subtree: a prefab root with two children, the first of which
has a child of its own. -/
def sampleTree : GameObject :=
  GameObject.mk true true false 1 "root" [⟨"Transform", 101, []⟩]
    (ChildList.live 102
      (GameObject.mk false true true 2 "mid" [⟨"Transform", 102, []⟩]
        (ChildList.live 103 (sampleLeaf 3 "a") ChildList.nil))
      (ChildList.live 104 (sampleLeaf 4 "b") ChildList.nil))

/-- Sample entity without a transform: what `GameObject::Deserialize` leaves
of a fresh entity after reading a record whose one component is a light. -/
def sampleLightOnly : GameObject :=
  GameObject.mk false true true 1 "GameObject" [⟨"Light", 8, []⟩] ChildList.nil

/-! ## Entity record layout, component container and prefab files -/

/-- The part of the record of one entity that `GameObject::Serialize` writes
before the records of the children: header, component count, type tag and ID
of every component, body of every component, children count and the ID of
every child. -/
def GameObject.record (lib : ComponentLib) : GameObject → List Token
  | GameObject.mk isPrefab isActive hierarchyVisibility ID name components children =>
    [Token.bool isPrefab, Token.bool isActive, Token.bool hierarchyVisibility,
      Token.uint ID, Token.str name, Token.int components.length]
    ++ (components.map (fun c => [Token.str c.g_typeStr, Token.uint c.g_ID])).flatten
    ++ (components.map lib.Serialize).flatten
    ++ [Token.int children.size]
    ++ children.ids.map Token.uint

mutual

/-- The entities of the subtree in pre-order: the entity, then the subtree of
every live child in children order. -/
def GameObject.preorder : GameObject → List GameObject
  | GameObject.mk isPrefab isActive hierarchyVisibility ID name components children =>
    GameObject.mk isPrefab isActive hierarchyVisibility ID name components children
      :: ChildList.preorder children

/-- The entities below the live children, in pre-order. -/
def ChildList.preorder : ChildList → List GameObject
  | ChildList.nil => []
  | ChildList.live _ g rest => GameObject.preorder g ++ ChildList.preorder rest
  | ChildList.expired _ rest => ChildList.preorder rest

end

mutual

/-- Every child reference of the subtree is live. -/
def GameObject.allLive : GameObject → Bool
  | GameObject.mk _ _ _ _ _ _ children => ChildList.allLive children

/-- Every entry is live, and so is every child reference below it. -/
def ChildList.allLive : ChildList → Bool
  | ChildList.nil => true
  | ChildList.live _ g rest => GameObject.allLive g && ChildList.allLive rest
  | ChildList.expired _ _ => false

end

/-- The children list that starts with the live children `kids` and goes on
with `tail`. -/
def ChildList.prepend : List (Nat × GameObject) → ChildList → ChildList
  | [], tail => tail
  | (id, g) :: kids, tail => ChildList.live id g (ChildList.prepend kids tail)

/-- Field `m_isActive`. -/
def GameObject.m_isActive : GameObject → Bool
  | GameObject.mk _ isActive _ _ _ _ _ => isActive

/-- Field `m_isPrefab`. -/
def GameObject.m_isPrefab : GameObject → Bool
  | GameObject.mk isPrefab _ _ _ _ _ _ => isPrefab

/-- Assignment `m_isPrefab = value`. -/
def GameObject.setIsPrefab (value : Bool) : GameObject → GameObject
  | GameObject.mk _ isActive hierarchyVisibility ID name components children =>
    GameObject.mk value isActive hierarchyVisibility ID name components children

/-- A call of a lifecycle method of a component. -/
inductive LifecycleCall where
  | Start (component : Component)
  | OnDisable (component : Component)
  | Update (component : Component)
deriving DecidableEq, Repr

/-- Method `GameObject::Start`: the calls made so far, followed by the calls
the loop over `m_components` makes. -/
def GameObject.Start (g : GameObject) (calls : List LifecycleCall) : List LifecycleCall :=
  g.m_components.foldl (fun calls component => calls ++ [LifecycleCall.Start component]) calls

/-- Method `GameObject::OnDisable`. -/
def GameObject.OnDisable (g : GameObject) (calls : List LifecycleCall) : List LifecycleCall :=
  g.m_components.foldl (fun calls component => calls ++ [LifecycleCall.OnDisable component])
    calls

/-- Method `GameObject::Update`. -/
def GameObject.Update (g : GameObject) (calls : List LifecycleCall) : List LifecycleCall :=
  if g.m_isActive = false then calls
  else
    g.m_components.foldl (fun calls component => calls ++ [LifecycleCall.Update component])
      calls

/-- The loop of `GameObject::RemoveComponentByID` with the iterator standing
between the components `before` it and the components `after` it: a component
with the ID is erased and the iterator stays, any other component is stepped
over. -/
def removeComponentLoop (id : Nat) : List Component → List Component → List Component
  | before, [] => before
  | before, component :: after =>
    if id = component.g_ID then removeComponentLoop id before after
    else removeComponentLoop id (before ++ [component]) after

/-- Method `GameObject::RemoveComponentByID`: the components afterwards. -/
def RemoveComponentByID (components : List Component) (id : Nat) : List Component :=
  removeComponentLoop id [] components

/-- The file system and stream layer (`FileSystem`, `StreamIO`), which are not
among the sources. They are parameters of the model. -/
structure FileSystem where
  /-- Function `FileSystem::IsEnginePrefabFile`. -/
  IsEnginePrefabFile : String → Bool
  /-- Result of `StreamIO(path, Mode_Write).IsCreated()`. -/
  canCreate : String → Bool
  /-- The values of the stream `StreamIO(path, Mode_Read)`, or `none` when
  `IsCreated()` is false. -/
  openRead : String → Option (List Token)

/-- What a prefab operation did: the value it returned, the entity afterwards,
the paths on which a stream was requested, and the file written, if any. -/
structure PrefabResult where
  returned : Bool
  entity : GameObject
  streams : List String
  written : Option (String × List Token)

/-- Method `GameObject::SaveAsPrefab`; `extension` is the constant
`PREFAB_EXTENSION`, which is not among the sources; `none` when `Serialize`
does not return. -/
def SaveAsPrefab (fs : FileSystem) (lib : ComponentLib) (extension : String)
    (g : GameObject) (filePath : String) : Option PrefabResult :=
  if fs.canCreate (filePath ++ extension) = false then
    some ⟨false, g, [filePath ++ extension], none⟩
  else
    match (g.setIsPrefab true).Serialize lib with
    | none => none
    | some values =>
      some ⟨true, g.setIsPrefab true, [filePath ++ extension],
        some (filePath ++ extension, values)⟩

/-- Method `GameObject::LoadFromPrefab`; `none` when `Deserialize` does not
return. The children the entity had before the call are not tracked. -/
def LoadFromPrefab (fs : FileSystem) (lib : ComponentLib) (fuel : Nat)
    (g : GameObject) (filePath : String) : Option PrefabResult :=
  if fs.IsEnginePrefabFile filePath = false then some ⟨false, g, [], none⟩
  else
    match fs.openRead filePath with
    | none => some ⟨false, g, [filePath], none⟩
    | some stream =>
      match GameObject.Deserialize lib fuel stream g.m_components with
      | none => none
      | some (g1, _) => some ⟨true, g1, [filePath], none⟩

/-! ## Child lookup and the transform body as stream values -/

/-- Method `Transform::GetChildrenCount`, an `int`. -/
def GetChildrenCount (s : Pool) (self : Ptr) : Int := (GetChildren s self).length

/-- Method `Transform::HasChildren`. -/
def HasChildren (s : Pool) (self : Ptr) : Bool :=
  if GetChildrenCount s self > 0 then true else false

/-- Outcome of `Transform::GetChildByIndex`: the child returned, the null
pointer, or a read of `m_children` outside its bounds. -/
inductive ChildLookup where
  | child (p : Ptr)
  | null
  | outOfBounds
deriving DecidableEq, Repr

/-- Method `Transform::GetChildByIndex`. -/
def GetChildByIndex (s : Pool) (self : Ptr) (index : Int) : ChildLookup :=
  if HasChildren s self = false then ChildLookup.null
  else if index ≥ GetChildrenCount s self then ChildLookup.null
  else
    match index with
    | Int.ofNat i =>
      match (GetChildren s self)[i]? with
      | some c => ChildLookup.child c
      | none => ChildLookup.outOfBounds
    | Int.negSucc _ => ChildLookup.outOfBounds

/-- The values `Transform::Serialize` saves through `Serializer`, in the order
of the calls. -/
def TransformBody.write (b : TransformBody) : List Token :=
  [Token.vector3 b.positionLocal, Token.quaternion b.rotationLocal,
    Token.vector3 b.scaleLocal, Token.vector3 b.lookAt, Token.str b.parentGameObjectID]

/-- The values `Transform::Deserialize` loads through `Serializer`, in the
order of the calls, and the rest of the stream. -/
def TransformBody.read : List Token → Option (TransformBody × List Token)
  | Token.vector3 positionLocal :: Token.quaternion rotationLocal
      :: Token.vector3 scaleLocal :: Token.vector3 lookAt
      :: Token.str parentGameObjectID :: rest =>
    some (⟨positionLocal, rotationLocal, scaleLocal, lookAt, parentGameObjectID⟩, rest)
  | _ => none

/-- Sample stream: the record of an entity with one component whose type tag
is not recognised. -/
def unknownTagStream : List Token :=
  [Token.bool false, Token.bool true, Token.bool true, Token.uint 1, Token.str "GameObject",
    Token.int 1, Token.str "Unknown", Token.uint 5, Token.int 0]

/-- Sample stream: the record of an entity whose one component is a light. -/
def lightOnlyStream : List Token :=
  [Token.bool false, Token.bool true, Token.bool true, Token.uint 1, Token.str "GameObject",
    Token.int 1, Token.str "Light", Token.uint 8, Token.int 0]

/-- Sample file system: `hero.prefab` is a prefab file that holds the record of
`sampleTree`, `broken.prefab` is a prefab file that holds the record
`unknownTagStream`, `locked.prefab` is a prefab file that cannot be opened or
created, and nothing else is a prefab file. -/
def sampleFileSystem : FileSystem where
  IsEnginePrefabFile := fun path =>
    path = "hero.prefab" || path = "broken.prefab" || path = "locked.prefab"
  canCreate := fun path => path ≠ "locked.prefab"
  openRead := fun path =>
    if path = "hero.prefab" then sampleTree.Serialize skyboxLib
    else if path = "broken.prefab" then some unknownTagStream
    else none

/-! ## Root lookup, world position and further sample runs -/

/-- Method `Transform::GetRoot`. -/
def GetRoot : Nat → Pool → Ptr → Option Ptr
  | 0, _, _ => none
  | fuel + 1, s, self =>
    match GetParent s self with
    | some p => GetRoot fuel s p
    | none => some self

/-- Method `Transform::GetPosition`. -/
def GetPosition (s : Pool) (self : Ptr) : Vector3 := (s.get self).position

/-- The pool transforms whose parent has the ID of `x`, each once and in pool
order: what the children list of `x` is to hold after a rebuild. -/
def childrenByID (s : Pool) (x : Ptr) : List Ptr :=
  (List.range s.size).filter (fun c =>
    match GetParent s c with
    | some p => decide (GetID s p = GetID s x)
    | none => false)

/-- The pool `poolOXP` after `X.SetParent(P)`: `X` is a child of `P`, and the
cached children list of its former parent `O` still holds it. -/
def poolOXPStale : Pool :=
  ⟨[Transform.linked "O" none [1], Transform.linked "X" (some 2) [],
    Transform.linked "P" none [1]]⟩

/-- The calls of the failing run of the world position round trip: the run
`staleWorldOps`, which ends with `X` orphaned, then `X.SetPosition((0, 0, 0))`
and `X.Update()`. -/
def staleRootOps : List Op :=
  [Op.SetParent 1 (some 0), Op.SetPositionLocal 0 ⟨1, 0, 0⟩, Op.Update 0, Op.Update 1,
    Op.BecomeOrphan 1, Op.SetPosition 1 ⟨0, 0, 0⟩, Op.Update 1]

/-- The calls that lead to the pool `staleWorldPool4`, in which `P` and its
child `X` both are clean. -/
def cleanPairOps : List Op :=
  [Op.SetParent 1 (some 0), Op.SetPositionLocal 0 ⟨1, 0, 0⟩, Op.Update 0, Op.Update 1]

/-! ## Pool access lemmas -/

theorem Pool.size_put (s : Pool) (p : Ptr) (t : Transform) : (s.put p t).size = s.size := by
  simp [Pool.put, Pool.size]

theorem Pool.get_put_self (s : Pool) (p : Ptr) (t : Transform) (h : p < s.size) :
    (s.put p t).get p = t := by
  simp only [Pool.size] at h
  simp [Pool.put, Pool.get, List.getElem?_set, h]

theorem Pool.get_put_ne (s : Pool) (p q : Ptr) (t : Transform) (h : q ≠ p) :
    (s.put p t).get q = s.get q := by
  simp [Pool.put, Pool.get, List.getElem?_set, Ne.symm h]

theorem Pool.get_of_size_le (s : Pool) (p : Ptr) (h : s.size ≤ p) :
    s.get p = Transform.new "" := by
  simp only [Pool.size] at h
  simp [Pool.get, List.getElem?_eq_none h]

theorem Pool.put_of_size_le (s : Pool) (p : Ptr) (t : Transform) (h : s.size ≤ p) :
    s.put p t = s := by
  simp only [Pool.size] at h
  cases s with
  | mk ts =>
    simp only [Pool.put, Pool.mk.injEq]
    exact List.set_eq_of_length_le h

theorem GetParent_lt_size {s : Pool} {x p : Ptr} (h : GetParent s x = some p) : x < s.size := by
  by_contra hx
  rw [GetParent, Pool.get_of_size_le s x (Nat.le_of_not_lt hx)] at h
  simp [Transform.new] at h

theorem SameCore.refl (s : Pool) : SameCore s s := ⟨rfl, fun _ => rfl⟩

theorem SameCore.symm {s t : Pool} (h : SameCore s t) : SameCore t s :=
  ⟨h.1.symm, fun p => (h.2 p).symm⟩

theorem SameCore.trans {s t u : Pool} (h : SameCore s t) (h' : SameCore t u) : SameCore s u :=
  ⟨h.1.trans h'.1, fun p => (h.2 p).trans (h'.2 p)⟩

theorem SameCore.parent {s t : Pool} (h : SameCore s t) (p : Ptr) :
    GetParent t p = GetParent s p := by
  have := congrArg Transform.parent (h.2 p)
  simpa [Transform.core, GetParent] using this.symm

theorem SameCore.id {s t : Pool} (h : SameCore s t) (p : Ptr) :
    GetID t p = GetID s p := by
  have := congrArg Transform.id (h.2 p)
  simpa [Transform.core, GetID] using this.symm

theorem SameCore.dirty {s t : Pool} (h : SameCore s t) (p : Ptr) :
    (t.get p).isDirty = (s.get p).isDirty := by
  have := congrArg Transform.isDirty (h.2 p)
  simpa [Transform.core] using this.symm

theorem sameCore_setChildren (s : Pool) (p : Ptr) (cs : List Ptr) :
    SameCore s (s.setChildren p cs) := by
  refine ⟨(Pool.size_put _ _ _).symm, fun q => ?_⟩
  by_cases hp : p < s.size
  · by_cases hq : q = p
    · subst hq
      simp [Pool.setChildren, Pool.get_put_self _ _ _ hp, Transform.core]
    · simp [Pool.setChildren, Pool.get_put_ne _ _ _ _ hq]
  · simp [Pool.setChildren, Pool.put_of_size_le _ _ _ (Nat.le_of_not_lt hp)]

theorem sameCore_pushChild (s : Pool) (p c : Ptr) :
    SameCore s (s.pushChild p c) :=
  sameCore_setChildren s p _

theorem GetChildren_setChildren_self (s : Pool) (p : Ptr) (cs : List Ptr) (hp : p < s.size) :
    GetChildren (s.setChildren p cs) p = cs := by
  simp [GetChildren, Pool.setChildren, Pool.get_put_self _ _ _ hp]

theorem GetChildren_setChildren_ne (s : Pool) (p q : Ptr) (cs : List Ptr) (h : q ≠ p) :
    GetChildren (s.setChildren p cs) q = GetChildren s q := by
  simp [GetChildren, Pool.setChildren, Pool.get_put_ne _ _ _ _ h]

theorem GetChildren_pushChild_self (s : Pool) (p c : Ptr) (hp : p < s.size) :
    GetChildren (s.pushChild p c) p = GetChildren s p ++ [c] := by
  simp [GetChildren, Pool.pushChild, Pool.get_put_self _ _ _ hp]

theorem GetChildren_pushChild_ne (s : Pool) (p q c : Ptr) (h : q ≠ p) :
    GetChildren (s.pushChild p c) q = GetChildren s q := by
  simp [GetChildren, Pool.pushChild, Pool.get_put_ne _ _ _ _ h]

/-! ## Ancestors and ranks -/

theorem Anc.rank_le {s : Pool} {d : Ptr → Nat} (hr : Ranked s d) {a y : Ptr}
    (h : Anc s a y) : d a ≤ d y := by
  induction h with
  | refl => exact Nat.le_refl _
  | step hp _ ih => exact Nat.le_trans ih (Nat.le_of_lt (hr _ _ hp))

/-- Extend an ancestor chain at its top. -/
theorem Anc.up {s : Pool} {c x y : Ptr} (h : Anc s c y) (hp : GetParent s c = some x) :
    Anc s x y := by
  induction h with
  | refl => exact Anc.step hp Anc.refl
  | step hq _ ih => exact Anc.step hq ih

/-- A proper descendant of `x` lies below one of the children of `x`. -/
theorem Anc.child_of {s : Pool} {x y : Ptr} (h : Anc s x y) (hne : y ≠ x) :
    ∃ c, GetParent s c = some x ∧ Anc s c y := by
  induction h with
  | refl => exact absurd rfl hne
  | @step p y hp hap ih =>
    by_cases hpa : p = x
    · subst hpa
      exact ⟨y, hp, Anc.refl⟩
    · obtain ⟨c, hc, hcp⟩ := ih hpa
      exact ⟨c, hc, Anc.step hp hcp⟩

/-- A proper ancestor of `y` is an ancestor of the parent of `y`. -/
theorem Anc.of_parent {s : Pool} {a y p : Ptr} (h : Anc s a y) (hne : a ≠ y)
    (hp : GetParent s y = some p) : Anc s a p := by
  cases h with
  | refl => exact absurd rfl hne
  | step hq hap =>
    rw [hp] at hq
    cases hq
    exact hap

/-- Two ancestors of one transform are comparable. -/
theorem Anc.linear {s : Pool} {a b y : Ptr} (ha : Anc s a y) (hb : Anc s b y) :
    Anc s a b ∨ Anc s b a := by
  induction ha with
  | refl => exact Or.inr hb
  | @step p y hp hap ih =>
    cases hb with
    | refl => exact Or.inl (Anc.step hp hap)
    | step hq hbp =>
      rw [hp] at hq
      cases hq
      exact ih hbp

/-- In a ranked pool a transform is not below its own child. -/
theorem Anc.not_child {s : Pool} {d : Ptr → Nat} (hr : Ranked s d) {c x : Ptr}
    (hp : GetParent s c = some x) : ¬ Anc s c x := fun h =>
  absurd (hr _ _ hp) (Nat.not_lt.mpr (h.rank_le hr))

/-- In a ranked pool the subtrees of two different children of one transform
are disjoint. -/
theorem Anc.siblings {s : Pool} {d : Ptr → Nat} (hr : Ranked s d) {c i x y : Ptr}
    (hc : GetParent s c = some x) (hi : GetParent s i = some x) (hne : c ≠ i)
    (hcy : Anc s c y) (hiy : Anc s i y) : False := by
  rcases Anc.linear hcy hiy with h | h
  · exact Anc.not_child hr hc (h.of_parent hne hi)
  · exact Anc.not_child hr hi (h.of_parent (Ne.symm hne) hc)

theorem Anc.anc_sameCore {s t : Pool} (h : SameCore s t) {a y : Ptr} (ha : Anc s a y) :
    Anc t a y := by
  induction ha with
  | refl => exact Anc.refl
  | step hp _ ih => exact Anc.step (by rw [h.parent]; exact hp) ih

theorem Ranked.ranked_sameCore {s t : Pool} {d : Ptr → Nat} (h : SameCore s t) (hr : Ranked s d) :
    Ranked t d := fun x p hp => hr x p (by rw [← h.parent]; exact hp)

theorem WellFormed.wellFormed_sameCore {s t : Pool} (h : SameCore s t) (wf : WellFormed s) :
    WellFormed t where
  parent_lt := fun x p hp => by
    rw [← h.1]; exact wf.parent_lt x p (by rw [← h.parent]; exact hp)
  id_inj := fun x y hx hy hxy => by
    rw [← h.1] at hx hy
    exact wf.id_inj x y hx hy (by rw [← h.id, ← h.id]; exact hxy)

theorem childrenOf_sameCore {s t : Pool} (h : SameCore s t) (x : Ptr) :
    childrenOf t x = childrenOf s x := by
  simp only [childrenOf, h.1, h.parent]

theorem mem_childrenOf {s : Pool} {x c : Ptr} :
    c ∈ childrenOf s x ↔ GetParent s c = some x := by
  simp only [childrenOf, List.mem_filter, List.mem_range, decide_eq_true_eq]
  exact ⟨fun h => h.2, fun h => ⟨GetParent_lt_size h, h⟩⟩

/-- Reaching a root within `n` steps persists with more steps. -/
theorem reachesRoot_mono {s : Pool} : ∀ {n m : Nat} {x : Ptr}, n ≤ m →
    reachesRoot n s x = true → reachesRoot m s x = true
  | 0, _, _, _, h => by simp [reachesRoot] at h
  | n + 1, 0, _, hnm, _ => absurd hnm (by omega)
  | n + 1, m + 1, x, hnm, h => by
    simp only [reachesRoot] at h ⊢
    cases hp : GetParent s x with
    | none => simp
    | some p =>
      simp only [hp] at h ⊢
      exact reachesRoot_mono (Nat.le_of_succ_le_succ hnm) h

/-- An acyclic pool has a rank that decreases along parent pointers. -/
theorem Acyclic.ranked {s : Pool} (wf : WellFormed s) (h : Acyclic s) :
    ∃ d, Ranked s d := by
  classical
  refine ⟨fun x => if hx : ∃ n, reachesRoot n s x = true then Nat.find hx else 0, ?_⟩
  intro x p hp
  have hx : ∃ n, reachesRoot n s x = true := h x (GetParent_lt_size hp)
  have hxs := Nat.find_spec hx
  have hpe : ∃ n, reachesRoot n s p = true := h p (wf.parent_lt x p hp)
  simp only [dif_pos hx, dif_pos hpe]
  cases hk : Nat.find hx with
  | zero => rw [hk] at hxs; simp [reachesRoot] at hxs
  | succ k =>
    rw [hk] at hxs
    simp only [reachesRoot, hp] at hxs
    exact Nat.lt_succ_of_le (Nat.find_min' hpe hxs)

/-- A ranked pool is acyclic. -/
theorem Ranked.acyclic {s : Pool} {d : Ptr → Nat} (hr : Ranked s d) : Acyclic s := by
  intro x _
  refine ⟨d x + 1, ?_⟩
  have key : ∀ n x, d x ≤ n → reachesRoot (n + 1) s x = true := by
    intro n
    induction n with
    | zero =>
      intro x hx
      simp only [reachesRoot]
      cases hp : GetParent s x with
      | none => rfl
      | some p => exact absurd (hr x p hp) (by omega)
    | succ n ih =>
      intro x hx
      simp only [reachesRoot]
      cases hp : GetParent s x with
      | none => rfl
      | some p =>
        have hlt := hr x p hp
        exact ih p (by omega)
  exact key (d x) x (Nat.le_refl _)

/-- The ranks of the transforms of a pool are bounded. -/
theorem rank_bound (s : Pool) (d : Ptr → Nat) : ∃ B, ∀ x, x < s.size → d x ≤ B := by
  generalize s.size = n
  induction n with
  | zero => exact ⟨0, fun x hx => absurd hx (Nat.not_lt_zero x)⟩
  | succ n ih =>
    obtain ⟨B, hB⟩ := ih
    refine ⟨max B (d n), fun x hx => ?_⟩
    rcases Nat.lt_succ_iff_lt_or_eq.mp hx with h | h
    · exact Nat.le_trans (hB x h) (Nat.le_max_left _ _)
    · subst h; exact Nat.le_max_right _ _

/-! ## Rebuilding the children lists -/

/-- In a well-formed ranked pool `FindChildren` returns with enough fuel; it
touches cached children lists only, and only those of the transform and of its
descendants, each of which ends up as the list of the pool transforms whose
parent it is, in pool order. -/
theorem FindChildren_spec {s0 : Pool} {d : Ptr → Nat} {B : Nat} (wf : WellFormed s0)
    (hr : Ranked s0 d) (hB : ∀ x, x < s0.size → d x ≤ B) :
    ∀ (fuel : Nat) (s : Pool) (x : Ptr), SameCore s0 s → x < s0.size → B < fuel + d x →
      ∃ s', FindChildren fuel s x = some s' ∧ SameCore s0 s' ∧
        (∀ y, ¬ Anc s0 x y → GetChildren s' y = GetChildren s y) ∧
        (∀ y, Anc s0 x y → GetChildren s' y = childrenOf s0 y) := by
  intro fuel
  induction fuel with
  | zero =>
    intro s x _ hx hlt
    exact absurd (hB x hx) (by omega)
  | succ fuel ih =>
    intro s x hs hx hlt
    have loop : ∀ (l pre : List Ptr) (acc : Pool), (pre ++ l).Nodup →
        SameCore s0 acc →
        GetChildren acc x = pre.filter (fun c => decide (GetParent s0 c = some x)) →
        (∀ y, ¬ Anc s0 x y → GetChildren acc y = GetChildren s y) →
        (∀ y c, c ∈ pre → GetParent s0 c = some x → Anc s0 c y →
          GetChildren acc y = childrenOf s0 y) →
        ∃ acc', l.foldlM (findChildrenStep (FindChildren fuel) x) acc = some acc' ∧
          SameCore s0 acc' ∧
          GetChildren acc' x = (pre ++ l).filter (fun c => decide (GetParent s0 c = some x)) ∧
          (∀ y, ¬ Anc s0 x y → GetChildren acc' y = GetChildren s y) ∧
          (∀ y c, c ∈ pre ++ l → GetParent s0 c = some x → Anc s0 c y →
            GetChildren acc' y = childrenOf s0 y) := by
      intro l
      induction l with
      | nil =>
        intro pre acc _ h1 h2 h3 h4
        exact ⟨acc, rfl, h1, by simpa using h2, h3, by simpa using h4⟩
      | cons i l ihl =>
        intro pre acc hnd h1 h2 h3 h4
        have hnd' : ((pre ++ [i]) ++ l).Nodup := by simpa using hnd
        have hi_notin : i ∉ pre := by
          intro hmem
          have := (List.nodup_append.mp hnd).2.2
          exact this hmem (List.mem_cons_self i l)
        have hskip : findChildrenStep (FindChildren fuel) x acc i = some acc →
            GetParent s0 i ≠ some x →
            ∃ acc', (i :: l).foldlM (findChildrenStep (FindChildren fuel) x) acc = some acc' ∧
              SameCore s0 acc' ∧
              GetChildren acc' x =
                (pre ++ i :: l).filter (fun c => decide (GetParent s0 c = some x)) ∧
              (∀ y, ¬ Anc s0 x y → GetChildren acc' y = GetChildren s y) ∧
              (∀ y c, c ∈ pre ++ i :: l → GetParent s0 c = some x → Anc s0 c y →
                GetChildren acc' y = childrenOf s0 y) := by
          intro hstep hne
          obtain ⟨acc', e, r1, r2, r3, r4⟩ := ihl (pre ++ [i]) acc hnd' h1
            (by simp [List.filter_append, h2, hne]) h3
            (by
              intro y c hc hcx hcy
              rcases List.mem_append.mp hc with hc | hc
              · exact h4 y c hc hcx hcy
              · simp only [List.mem_singleton] at hc
                subst hc
                exact absurd hcx hne)
          refine ⟨acc', ?_, r1, by simpa using r2, r3, by simpa using r4⟩
          simp only [List.foldlM_cons, hstep]
          exact e
        cases hpi : GetParent s0 i with
        | none =>
          exact hskip (by simp [findChildrenStep, h1.parent, hpi]) (by simp [hpi])
        | some p =>
          have hp : p < s0.size := wf.parent_lt i p hpi
          by_cases hpx : p = x
          · subst hpx
            have hi : i < s0.size := GetParent_lt_size hpi
            have hstep : findChildrenStep (FindChildren fuel) p acc i =
                FindChildren fuel (acc.pushChild p i) i := by
              simp [findChildrenStep, h1.parent, hpi]
            have hlt' : B < fuel + d i := by
              have := hr i p hpi
              omega
            obtain ⟨acc2, e2, c1, c2, c3⟩ :=
              ih (acc.pushChild p i) i (h1.trans (sameCore_pushChild acc p i)) hi hlt'
            have hnix : ¬ Anc s0 i p := Anc.not_child hr hpi
            have hpacc : p < acc.size := h1.1 ▸ hp
            obtain ⟨acc', e, r1, r2, r3, r4⟩ := ihl (pre ++ [i]) acc2 hnd' c1
              (by
                rw [c2 p hnix, GetChildren_pushChild_self _ _ _ hpacc, h2]
                simp [List.filter_append, hpi])
              (by
                intro y hy
                have hiy : ¬ Anc s0 i y := fun h => hy (h.up hpi)
                have hyp : y ≠ p := fun h => hy (h ▸ Anc.refl)
                rw [c2 y hiy, GetChildren_pushChild_ne _ _ _ _ hyp]
                exact h3 y hy)
              (by
                intro y c hc hcx hcy
                rcases List.mem_append.mp hc with hc | hc
                · have hci : c ≠ i := fun h => hi_notin (h ▸ hc)
                  have hiy : ¬ Anc s0 i y := fun h => Anc.siblings hr hcx hpi hci hcy h
                  have hyp : y ≠ p := fun h => Anc.not_child hr hcx (h ▸ hcy)
                  rw [c2 y hiy, GetChildren_pushChild_ne _ _ _ _ hyp]
                  exact h4 y c hc hcx hcy
                · simp only [List.mem_singleton] at hc
                  subst hc
                  exact c3 y hcy)
            refine ⟨acc', ?_, r1, by simpa using r2, r3, by simpa using r4⟩
            simp only [List.foldlM_cons, hstep, e2]
            exact e
          · have hid : GetID s0 p ≠ GetID s0 x := fun h => hpx (wf.id_inj p x hp hx h)
            exact hskip (by simp [findChildrenStep, h1.parent, hpi, h1.id, hid])
              (by simp [hpi, hpx])
    have hxs : x < s.size := hs.1 ▸ hx
    obtain ⟨s', e, r1, r2, r3, r4⟩ := loop (List.range s.size) [] (s.setChildren x [])
      (by simpa using List.nodup_range s.size)
      (hs.trans (sameCore_setChildren s x []))
      (by simp [GetChildren_setChildren_self _ _ _ hxs])
      (by
        intro y hy
        have hyx : y ≠ x := fun h => hy (h ▸ Anc.refl)
        exact GetChildren_setChildren_ne _ _ _ _ hyx)
      (by intro y c hc; simp at hc)
    refine ⟨s', by simpa only [FindChildren] using e, r1, r3, ?_⟩
    intro y hy
    by_cases hyx : y = x
    · subst hyx
      rw [r2]
      simp [childrenOf, hs.1]
    · obtain ⟨c, hc, hcy⟩ := hy.child_of hyx
      refine r4 y c ?_ hc hcy
      have : c < s0.size := GetParent_lt_size hc
      simpa [← hs.1] using this

/-! ## Descendant queries -/

/-- A proper descendant is a transform of the pool. -/
theorem Anc.lt_size {s : Pool} {x y : Ptr} (h : Anc s x y) (hne : y ≠ x) : y < s.size := by
  cases h with
  | refl => exact absurd rfl hne
  | step hq _ => exact GetParent_lt_size hq

/-- In a consistent well-formed ranked pool `GetDescendants` returns with
enough fuel, and appends exactly the proper descendants of the transform. -/
theorem GetDescendantsInto_spec {s : Pool} {d : Ptr → Nat} {B : Nat}
    (hr : Ranked s d) (hB : ∀ x, x < s.size → d x ≤ B) (hc : Consistent s) :
    ∀ (fuel : Nat) (x : Ptr) (acc : List Ptr), x < s.size → B < fuel + d x →
      ∃ l, GetDescendantsInto fuel s x acc = some (acc ++ l) ∧
        ∀ y, y ∈ l ↔ (Anc s x y ∧ y ≠ x) := by
  intro fuel
  induction fuel with
  | zero =>
    intro x _ hx hlt
    exact absurd (hB x hx) (by omega)
  | succ fuel ih =>
    intro x acc hx hlt
    have loop : ∀ (cs : List Ptr) (acc : List Ptr), (∀ c ∈ cs, GetParent s c = some x) →
        ∃ l, cs.foldlM (fun acc child => GetDescendantsInto fuel s child (acc ++ [child])) acc
              = some (acc ++ l) ∧
          ∀ y, y ∈ l ↔ ∃ c ∈ cs, Anc s c y := by
      intro cs
      induction cs with
      | nil =>
        intro acc _
        exact ⟨[], by simp, by simp⟩
      | cons c cs ihc =>
        intro acc hcs
        have hcp : GetParent s c = some x := hcs c (List.mem_cons_self c cs)
        have hlt' : B < fuel + d c := by
          have := hr c x hcp
          omega
        obtain ⟨l1, e1, m1⟩ := ih c (acc ++ [c]) (GetParent_lt_size hcp) hlt'
        obtain ⟨l2, e2, m2⟩ := ihc (acc ++ [c] ++ l1)
          (fun c' hc' => hcs c' (List.mem_cons_of_mem c hc'))
        refine ⟨[c] ++ l1 ++ l2, ?_, ?_⟩
        · simp only [List.foldlM_cons, e1]
          simpa [List.append_assoc] using e2
        · intro y
          simp only [List.mem_append, List.mem_singleton, m1, m2, List.mem_cons,
            List.not_mem_nil, or_false]
          constructor
          · rintro ((h | h) | ⟨c', hc', h⟩)
            · exact ⟨c, Or.inl rfl, h ▸ Anc.refl⟩
            · exact ⟨c, Or.inl rfl, h.1⟩
            · exact ⟨c', Or.inr hc', h⟩
          · rintro ⟨c', hc' | hc', h⟩
            · subst hc'
              by_cases hy : y = c'
              · exact Or.inl (Or.inl hy)
              · exact Or.inl (Or.inr ⟨h, hy⟩)
            · exact Or.inr ⟨c', hc', h⟩
    obtain ⟨l, e, m⟩ := loop (GetChildren s x) acc
      (fun c hcm => ((hc x c hx).mp hcm).2)
    refine ⟨l, by simpa only [GetDescendantsInto] using e, ?_⟩
    intro y
    rw [m]
    constructor
    · rintro ⟨c, hcm, h⟩
      have hcp := ((hc x c hx).mp hcm).2
      exact ⟨h.up hcp, fun hyx => Anc.not_child hr hcp (hyx ▸ h)⟩
    · rintro ⟨h, hyx⟩
      obtain ⟨c, hcp, hcy⟩ := h.child_of hyx
      exact ⟨c, (hc x c hx).mpr ⟨GetParent_lt_size hcp, hcp⟩, hcy⟩

/-- In a consistent well-formed ranked pool `IsDescendantOf` returns with
enough fuel and tells whether the transform is a proper descendant. -/
theorem IsDescendantOf_spec {s : Pool} {d : Ptr → Nat} {B : Nat} (wf : WellFormed s)
    (hr : Ranked s d) (hB : ∀ x, x < s.size → d x ≤ B) (hc : Consistent s)
    (fuel : Nat) (p x : Ptr) (hp : p < s.size) (hx : x < s.size) (hlt : B < fuel + d x) :
    ∃ b, IsDescendantOf fuel s p x = some b ∧ (b = true ↔ (Anc s x p ∧ p ≠ x)) := by
  obtain ⟨l, e, m⟩ := GetDescendantsInto_spec hr hB hc fuel x [] hx hlt
  rw [List.nil_append] at e
  refine ⟨l.any (fun y => decide (GetID s p = GetID s y)),
    by simp only [IsDescendantOf, GetDescendants, e, Option.map_some'], ?_⟩
  rw [← m p]
  simp only [List.any_eq_true, decide_eq_true_eq]
  constructor
  · rintro ⟨y, hy, hid⟩
    have hyl : y < s.size := ((m y).mp hy).1.lt_size ((m y).mp hy).2
    exact (wf.id_inj p y hp hyl hid) ▸ hy
  · intro h
    exact ⟨p, h, rfl⟩

/-! ## Effect of the field assignments -/

theorem get_setParentPtr_self (s : Pool) (p : Ptr) (q : Option Ptr) (hp : p < s.size) :
    (s.setParentPtr p q).get p = { s.get p with parent := q } := by
  simp [Pool.setParentPtr, Pool.get_put_self _ _ _ hp]

theorem get_setParentPtr_ne (s : Pool) (p y : Ptr) (q : Option Ptr) (h : y ≠ p) :
    (s.setParentPtr p q).get y = s.get y := by
  simp [Pool.setParentPtr, Pool.get_put_ne _ _ _ _ h]

theorem get_MakeDirty_self (s : Pool) (p : Ptr) (hp : p < s.size) :
    (MakeDirty s p).get p = { s.get p with isDirty := true } := by
  simp [MakeDirty, Pool.get_put_self _ _ _ hp]

theorem get_MakeDirty_ne (s : Pool) (p y : Ptr) (h : y ≠ p) :
    (MakeDirty s p).get y = s.get y := by
  simp [MakeDirty, Pool.get_put_ne _ _ _ _ h]

theorem GetParent_MakeDirty (s : Pool) (p y : Ptr) :
    GetParent (MakeDirty s p) y = GetParent s y := by
  by_cases hp : p < s.size
  · by_cases hy : y = p
    · subst hy; simp [GetParent, get_MakeDirty_self _ _ hp]
    · simp [GetParent, get_MakeDirty_ne _ _ _ hy]
  · simp [MakeDirty, Pool.put_of_size_le _ _ _ (Nat.le_of_not_lt hp)]

theorem GetChildren_MakeDirty (s : Pool) (p y : Ptr) :
    GetChildren (MakeDirty s p) y = GetChildren s y := by
  by_cases hp : p < s.size
  · by_cases hy : y = p
    · subst hy; simp [GetChildren, get_MakeDirty_self _ _ hp]
    · simp [GetChildren, get_MakeDirty_ne _ _ _ hy]
  · simp [MakeDirty, Pool.put_of_size_le _ _ _ (Nat.le_of_not_lt hp)]

theorem size_setParentPtr (s : Pool) (p : Ptr) (q : Option Ptr) :
    (s.setParentPtr p q).size = s.size := Pool.size_put _ _ _

theorem GetParent_setParentPtr_self (s : Pool) (p : Ptr) (q : Option Ptr) (hp : p < s.size) :
    GetParent (s.setParentPtr p q) p = q := by
  simp [GetParent, get_setParentPtr_self _ _ _ hp]

theorem GetParent_setParentPtr_ne (s : Pool) (p y : Ptr) (q : Option Ptr) (h : y ≠ p) :
    GetParent (s.setParentPtr p q) y = GetParent s y := by
  simp [GetParent, get_setParentPtr_ne _ _ _ _ h]

theorem GetID_setParentPtr (s : Pool) (p y : Ptr) (q : Option Ptr) :
    GetID (s.setParentPtr p q) y = GetID s y := by
  by_cases hp : p < s.size
  · by_cases hy : y = p
    · subst hy; simp [GetID, get_setParentPtr_self _ _ _ hp]
    · simp [GetID, get_setParentPtr_ne _ _ _ _ hy]
  · simp [Pool.setParentPtr, Pool.put_of_size_le _ _ _ (Nat.le_of_not_lt hp)]

/-- Assigning a parent pointer keeps a pool well formed when the new parent is
a transform of the pool. -/
theorem WellFormed.setParentPtr {s : Pool} (wf : WellFormed s) (p : Ptr) (q : Option Ptr)
    (hp : p < s.size) (hq : ∀ r, q = some r → r < s.size) :
    WellFormed (s.setParentPtr p q) where
  parent_lt := fun x r hx => by
    rw [size_setParentPtr]
    by_cases hxp : x = p
    · subst hxp
      rw [GetParent_setParentPtr_self _ _ _ hp] at hx
      exact hq r hx
    · rw [GetParent_setParentPtr_ne _ _ _ _ hxp] at hx
      exact wf.parent_lt x r hx
  id_inj := fun x y hx hy hxy => by
    rw [size_setParentPtr] at hx hy
    rw [GetID_setParentPtr, GetID_setParentPtr] at hxy
    exact wf.id_inj x y hx hy hxy

theorem SameCore.locals {s t : Pool} (h : SameCore s t) (p : Ptr) :
    (t.get p).locals = (s.get p).locals := by
  have h1 := congrArg Transform.positionLocal (h.2 p)
  have h2 := congrArg Transform.rotationLocal (h.2 p)
  have h3 := congrArg Transform.scaleLocal (h.2 p)
  simp only [Transform.core] at h1 h2 h3
  simp [Transform.locals, h1, h2, h3]

theorem locals_setParentPtr (s : Pool) (p y : Ptr) (q : Option Ptr) :
    ((s.setParentPtr p q).get y).locals = (s.get y).locals := by
  by_cases hp : p < s.size
  · by_cases hy : y = p
    · subst hy; simp [Transform.locals, get_setParentPtr_self _ _ _ hp]
    · simp [get_setParentPtr_ne _ _ _ _ hy]
  · simp [Pool.setParentPtr, Pool.put_of_size_le _ _ _ (Nat.le_of_not_lt hp)]

theorem locals_MakeDirty (s : Pool) (p y : Ptr) :
    ((MakeDirty s p).get y).locals = (s.get y).locals := by
  by_cases hp : p < s.size
  · by_cases hy : y = p
    · subst hy; simp [Transform.locals, get_MakeDirty_self _ _ hp]
    · simp [get_MakeDirty_ne _ _ _ hy]
  · simp [MakeDirty, Pool.put_of_size_le _ _ _ (Nat.le_of_not_lt hp)]

/-- Clearing a parent pointer keeps a rank. -/
theorem Ranked.clearParent {s : Pool} {d : Ptr → Nat} (hr : Ranked s d) (p : Ptr) :
    Ranked (s.setParentPtr p none) d := by
  intro x r hx
  by_cases hp : p < s.size
  · by_cases hxp : x = p
    · subst hxp
      rw [GetParent_setParentPtr_self _ _ _ hp] at hx
      cases hx
    · rw [GetParent_setParentPtr_ne _ _ _ _ hxp] at hx
      exact hr x r hx
  · rw [Pool.setParentPtr, Pool.put_of_size_le _ _ _ (Nat.le_of_not_lt hp)] at hx
    exact hr x r hx

/-- Re-parenting `X` under a transform `P` that is not below `X` keeps the pool
ranked. -/
theorem Ranked.reparent {s : Pool} {d : Ptr → Nat} (hr : Ranked s d) {X P : Ptr}
    (hX : X < s.size) (hnd : ¬ Anc s X P) :
    ∃ d', Ranked (s.setParentPtr X (some P)) d' := by
  classical
  refine ⟨fun y => if Anc s X y then d y + d P + 1 else d y, ?_⟩
  intro y p hy
  by_cases hyX : y = X
  · subst hyX
    rw [GetParent_setParentPtr_self _ _ _ hX] at hy
    cases hy
    simp only [if_neg hnd, if_pos Anc.refl]
    omega
  · rw [GetParent_setParentPtr_ne _ _ _ _ hyX] at hy
    have hlt := hr y p hy
    by_cases hXy : Anc s X y
    · have hXp : Anc s X p := hXy.of_parent (Ne.symm hyX) hy
      simp only [if_pos hXy, if_pos hXp]
      omega
    · have hXp : ¬ Anc s X p := fun h => hXy (Anc.step hy h)
      simp only [if_neg hXy, if_neg hXp]
      exact hlt

/-! ## Fuel -/

/-- A fold in `Option` that succeeds still succeeds, with the same result,
when every step is replaced by one that succeeds wherever the old one did. -/
theorem foldlM_option_mono {α β : Type} (f g : β → α → Option β)
    (h : ∀ b a r, f b a = some r → g b a = some r) :
    ∀ (l : List α) (b r : β), l.foldlM f b = some r → l.foldlM g b = some r := by
  intro l
  induction l with
  | nil => intro b r hr; exact hr
  | cons a l ih =>
    intro b r hr
    simp only [List.foldlM_cons] at hr ⊢
    cases hf : f b a with
    | none => simp [hf] at hr
    | some b' =>
      rw [hf] at hr
      rw [h b a b' hf]
      exact ih b' r hr

/-- An invariant of every successful step holds after a successful fold. -/
theorem foldlM_option_inv {α β : Type} (f : β → α → Option β) (I : β → Prop)
    (h : ∀ b a r, I b → f b a = some r → I r) :
    ∀ (l : List α) (b r : β), I b → l.foldlM f b = some r → I r := by
  intro l
  induction l with
  | nil =>
    intro b r hb hr
    simp only [List.foldlM_nil, pure, Option.some.injEq] at hr
    exact hr ▸ hb
  | cons a l ih =>
    intro b r hb hr
    simp only [List.foldlM_cons] at hr
    cases hf : f b a with
    | none => simp [hf] at hr
    | some b' =>
      rw [hf] at hr
      exact ih b' r (h b a b' hb hf) hr

/-- A fold in `Option` fails when the step at one of its elements fails in
every state the fold can be in. -/
theorem foldlM_option_none {α β : Type} (f : β → α → Option β) (I : β → Prop)
    (h : ∀ b a r, I b → f b a = some r → I r) (a0 : α) (h0 : ∀ b, I b → f b a0 = none) :
    ∀ (l : List α) (b : β), I b → a0 ∈ l → l.foldlM f b = none := by
  intro l
  induction l with
  | nil => intro b _ hm; simp at hm
  | cons a l ih =>
    intro b hb hm
    simp only [List.foldlM_cons]
    cases hf : f b a with
    | none => rfl
    | some b' =>
      rcases List.mem_cons.mp hm with hm | hm
      · subst hm
        rw [h0 _ hb] at hf
        cases hf
      · exact ih b' (h b a b' hb hf) hm

theorem findChildrenStep_mono (r1 r2 : Pool → Ptr → Option Pool)
    (h : ∀ s y r, r1 s y = some r → r2 s y = some r) (x : Ptr) (acc : Pool) (i : Ptr)
    (r : Pool) (hr : findChildrenStep r1 x acc i = some r) :
    findChildrenStep r2 x acc i = some r := by
  unfold findChildrenStep at hr ⊢
  split at hr
  · exact hr
  · split at hr
    · rename_i hid
      rw [if_pos hid]
      exact h _ _ _ hr
    · rename_i hid
      rw [if_neg hid]
      exact hr

/-- More fuel does not change the result of `FindChildren`. -/
theorem FindChildren_mono : ∀ (f f' : Nat) (s : Pool) (x : Ptr) (r : Pool), f ≤ f' →
    FindChildren f s x = some r → FindChildren f' s x = some r
  | 0, _, _, _, _, _, h => by simp [FindChildren] at h
  | f + 1, 0, _, _, _, hle, _ => absurd hle (by omega)
  | f + 1, f' + 1, s, x, r, hle, h => by
    simp only [FindChildren] at h ⊢
    exact foldlM_option_mono _ _
      (findChildrenStep_mono _ _
        (fun s y r hr => FindChildren_mono f f' s y r (Nat.le_of_succ_le_succ hle) hr) x)
      _ _ _ h

/-- `FindChildren` changes cached children lists only. -/
theorem FindChildren_sameCore : ∀ (f : Nat) (s : Pool) (x : Ptr) (r : Pool),
    FindChildren f s x = some r → SameCore s r
  | 0, _, _, _, h => by simp [FindChildren] at h
  | f + 1, s, x, r, h => by
    simp only [FindChildren] at h
    refine foldlM_option_inv _ (fun acc => SameCore s acc) ?_ _ _ _
      (sameCore_setChildren s x []) h
    intro acc i r' hacc hstep
    unfold findChildrenStep at hstep
    split at hstep
    · cases hstep; exact hacc
    · split at hstep
      · exact (hacc.trans (sameCore_pushChild acc x i)).trans
          (FindChildren_sameCore f _ _ _ hstep)
      · cases hstep; exact hacc

/-- `FindChildren` never returns on a transform that is the parent of its own
parent. -/
theorem FindChildren_two_cycle : ∀ (f : Nat) (s : Pool) (a c : Ptr),
    GetParent s a = some c → GetParent s c = some a → FindChildren f s c = none
  | 0, _, _, _, _, _ => rfl
  | f + 1, s, a, c, hac, hca => by
    simp only [FindChildren]
    refine foldlM_option_none _ (fun acc => SameCore s acc) ?_ a ?_ _ _
      (sameCore_setChildren s c []) (List.mem_range.mpr (GetParent_lt_size hac))
    · intro acc i r' hacc hstep
      unfold findChildrenStep at hstep
      split at hstep
      · cases hstep; exact hacc
      · split at hstep
        · exact (hacc.trans (sameCore_pushChild acc c i)).trans
            (FindChildren_sameCore f _ _ _ hstep)
        · cases hstep; exact hacc
    · intro acc hacc
      have h1 : GetParent acc a = some c := by rw [hacc.parent]; exact hac
      have hpc : SameCore s (acc.pushChild c a) := hacc.trans (sameCore_pushChild acc c a)
      simp only [findChildrenStep, h1, if_true]
      exact FindChildren_two_cycle f _ c a (by rw [hpc.parent]; exact hca)
        (by rw [hpc.parent]; exact hac)

theorem BecomeOrphan_mono (f f' : Nat) (s : Pool) (x : Ptr) (r : Pool) (hle : f ≤ f')
    (h : BecomeOrphan f s x = some r) : BecomeOrphan f' s x = some r := by
  unfold BecomeOrphan at h ⊢
  split
  · rename_i hp; simpa [hp] using h
  · rename_i p hp
    simp only [hp] at h
    exact FindChildren_mono f f' _ _ _ hle h

/-- More fuel does not change the result of the orphaning loop. -/
theorem orphanChildren_mono : ∀ (f f' : Nat) (s : Pool) (x : Ptr) (i : Nat) (r : Pool),
    f ≤ f' → orphanChildren f s x i = some r → orphanChildren f' s x i = some r
  | 0, _, _, _, _, _, _, h => by simp [orphanChildren] at h
  | f + 1, 0, _, _, _, _, hle, _ => absurd hle (by omega)
  | f + 1, f' + 1, s, x, i, r, hle, h => by
    simp only [orphanChildren] at h ⊢
    cases hc : (GetChildren s x)[i]? with
    | none => simpa [hc] using h
    | some child =>
      simp only [hc] at h ⊢
      cases hb : BecomeOrphan f s child with
      | none => simp [hb] at h
      | some s1 =>
        simp only [hb] at h
        rw [BecomeOrphan_mono f f' s child s1 (Nat.le_of_succ_le_succ hle) hb]
        exact orphanChildren_mono f f' s1 x (i + 1) r (Nat.le_of_succ_le_succ hle) h

/-! ## Soundness of the executable checks -/

theorem Pool.wellFormedB_sound {s : Pool} (h : s.wellFormedB = true) : WellFormed s := by
  simp only [Pool.wellFormedB, List.all_eq_true, List.mem_range, Bool.and_eq_true,
    decide_eq_true_eq] at h
  constructor
  · intro x p hp
    have := (h x (GetParent_lt_size hp)).1
    simpa [hp] using this
  · intro x y hx hy hxy
    exact (h x hx).2 y hy hxy

theorem Pool.acyclicB_sound {s : Pool} (h : s.acyclicB = true) : Acyclic s := by
  simp only [Pool.acyclicB, List.all_eq_true, List.mem_range] at h
  exact fun x hx => ⟨s.size, h x hx⟩

theorem Pool.consistentB_sound {s : Pool} (h : s.consistentB = true) : Consistent s := by
  simp only [Pool.consistentB, List.all_eq_true, List.mem_range, Bool.and_eq_true,
    decide_eq_true_eq] at h
  intro t c ht
  constructor
  · intro hc
    exact (h t ht).1 c hc
  · rintro ⟨hc, hp⟩
    exact (h t ht).2 c hc hp

/-- No root is reached from a transform that is the parent of its own parent. -/
theorem reachesRoot_two_cycle {s : Pool} {a c : Ptr} (hac : GetParent s a = some c)
    (hca : GetParent s c = some a) :
    ∀ n, reachesRoot n s a = false ∧ reachesRoot n s c = false
  | 0 => ⟨rfl, rfl⟩
  | n + 1 => by
    have ih := reachesRoot_two_cycle hac hca n
    simp only [reachesRoot, hac, hca]
    exact ⟨ih.2, ih.1⟩

/-! ## Dirty flags -/

theorem size_MakeDirty (s : Pool) (p : Ptr) : (MakeDirty s p).size = s.size :=
  Pool.size_put _ _ _

theorem size_foldl_MakeDirty (cs : List Ptr) : ∀ s : Pool,
    (cs.foldl (fun acc child => MakeDirty acc child) s).size = s.size := by
  induction cs with
  | nil => intro s; rfl
  | cons c cs ih => intro s; rw [List.foldl_cons, ih, size_MakeDirty]

theorem get_foldl_MakeDirty_of_not_mem (cs : List Ptr) : ∀ (s : Pool) (y : Ptr), y ∉ cs →
    (cs.foldl (fun acc child => MakeDirty acc child) s).get y = s.get y := by
  induction cs with
  | nil => intro s y _; rfl
  | cons c cs ih =>
    intro s y hy
    rw [List.foldl_cons, ih _ y (fun h => hy (List.mem_cons_of_mem c h)),
      get_MakeDirty_ne _ _ _ (fun h : y = c => hy (h ▸ List.mem_cons_self y cs))]

theorem dirty_MakeDirty_of_dirty (s : Pool) (p y : Ptr) (h : (s.get y).isDirty = true) :
    ((MakeDirty s p).get y).isDirty = true := by
  by_cases hp : p < s.size
  · by_cases hy : y = p
    · subst hy; rw [get_MakeDirty_self _ _ hp]
    · rw [get_MakeDirty_ne _ _ _ hy]; exact h
  · rw [MakeDirty, Pool.put_of_size_le _ _ _ (Nat.le_of_not_lt hp)]; exact h

theorem dirty_foldl_MakeDirty_of_dirty (cs : List Ptr) : ∀ (s : Pool) (y : Ptr),
    (s.get y).isDirty = true →
    ((cs.foldl (fun acc child => MakeDirty acc child) s).get y).isDirty = true := by
  induction cs with
  | nil => intro s y h; exact h
  | cons c cs ih =>
    intro s y h
    rw [List.foldl_cons]
    exact ih _ y (dirty_MakeDirty_of_dirty s c y h)

theorem dirty_foldl_MakeDirty_of_mem (cs : List Ptr) : ∀ (s : Pool) (y : Ptr), y ∈ cs →
    y < s.size → ((cs.foldl (fun acc child => MakeDirty acc child) s).get y).isDirty = true := by
  induction cs with
  | nil => intro s y h; simp at h
  | cons c cs ih =>
    intro s y hy hlt
    rw [List.foldl_cons]
    by_cases hyc : y = c
    · subst hyc
      exact dirty_foldl_MakeDirty_of_dirty cs _ y (by rw [get_MakeDirty_self _ _ hlt])
    · rcases List.mem_cons.mp hy with h | h
      · exact absurd h hyc
      · exact ih _ y h (by rw [size_MakeDirty]; exact hlt)

/-- State of a dirty transform of the pool after `Update`: the flags. -/
theorem Update_flags (m : MathLib) (s : Pool) (X : Ptr) (hX : X < s.size)
    (hd : (s.get X).isDirty = true) :
    ((Update m s X).get X).isDirty = false ∧
    (∀ c, c ∈ GetChildren s X → c < s.size → c ≠ X →
      ((Update m s X).get c).isDirty = true) ∧
    (∀ y, y ≠ X → y ∉ GetChildren s X →
      ((Update m s X).get y).isDirty = (s.get y).isDirty) := by
  have hne : ¬ (s.get X).isDirty = false := by simp [hd]
  simp only [Update, if_neg hne]
  have hch : ∀ t, GetChildren (s.put X t) X = t.children := fun t => by
    simp [GetChildren, Pool.get_put_self _ _ _ hX]
  refine ⟨?_, ?_, ?_⟩
  · rw [Pool.get_put_self]
    rw [size_foldl_MakeDirty, Pool.size_put]
    exact hX
  · intro c hc hcl hcX
    rw [Pool.get_put_ne _ _ _ _ hcX]
    refine dirty_foldl_MakeDirty_of_mem _ _ c ?_ (by rw [Pool.size_put]; exact hcl)
    rw [hch]
    exact hc
  · intro y hyX hy
    rw [Pool.get_put_ne _ _ _ _ hyX, get_foldl_MakeDirty_of_not_mem _ _ y, Pool.get_put_ne _ _ _ _ hyX]
    rw [hch]
    exact hy

theorem get_SetPositionLocal_self (s : Pool) (X : Ptr) (v : Vector3) (hX : X < s.size)
    (hv : (s.get X).positionLocal ≠ v) :
    (SetPositionLocal s X v).get X = { s.get X with positionLocal := v, isDirty := true } := by
  have hX' : X < (s.put X { s.get X with positionLocal := v }).size := by
    rw [Pool.size_put]; exact hX
  simp only [SetPositionLocal, if_neg hv]
  rw [get_MakeDirty_self _ _ hX', Pool.get_put_self _ _ _ hX]

theorem get_SetPositionLocal_ne (s : Pool) (X y : Ptr) (v : Vector3) (hy : y ≠ X) :
    (SetPositionLocal s X v).get y = s.get y := by
  unfold SetPositionLocal
  split
  · rfl
  · rw [get_MakeDirty_ne _ _ _ hy, Pool.get_put_ne _ _ _ _ hy]

theorem get_SetRotationLocal_self (s : Pool) (X : Ptr) (q : Quaternion) (hX : X < s.size)
    (hv : (s.get X).rotationLocal ≠ q) :
    (SetRotationLocal s X q).get X = { s.get X with rotationLocal := q, isDirty := true } := by
  have hX' : X < (s.put X { s.get X with rotationLocal := q }).size := by
    rw [Pool.size_put]; exact hX
  simp only [SetRotationLocal, if_neg hv]
  rw [get_MakeDirty_self _ _ hX', Pool.get_put_self _ _ _ hX]

theorem get_SetRotationLocal_ne (s : Pool) (X y : Ptr) (q : Quaternion) (hy : y ≠ X) :
    (SetRotationLocal s X q).get y = s.get y := by
  unfold SetRotationLocal
  split
  · rfl
  · rw [get_MakeDirty_ne _ _ _ hy, Pool.get_put_ne _ _ _ _ hy]

theorem get_SetScaleLocal_self (s : Pool) (X : Ptr) (v : Vector3) (hX : X < s.size)
    (hv : (s.get X).scaleLocal ≠ v) :
    (SetScaleLocal s X v).get X = { s.get X with scaleLocal := v, isDirty := true } := by
  have hX' : X < (s.put X { s.get X with scaleLocal := v }).size := by
    rw [Pool.size_put]; exact hX
  simp only [SetScaleLocal, if_neg hv]
  rw [get_MakeDirty_self _ _ hX', Pool.get_put_self _ _ _ hX]

theorem get_SetScaleLocal_ne (s : Pool) (X y : Ptr) (v : Vector3) (hy : y ≠ X) :
    (SetScaleLocal s X v).get y = s.get y := by
  unfold SetScaleLocal
  split
  · rfl
  · rw [get_MakeDirty_ne _ _ _ hy, Pool.get_put_ne _ _ _ _ hy]

theorem size_SetPositionLocal (s : Pool) (X : Ptr) (v : Vector3) :
    (SetPositionLocal s X v).size = s.size := by
  unfold SetPositionLocal
  split
  · rfl
  · rw [size_MakeDirty, Pool.size_put]

/-! ## The failing run of the clean-implies-current property, step by step -/

theorem staleWorld_step1 :
    SetParent 3 (Pool.fresh ["P", "X"]) 1 (some 0) = some staleWorldPool1 := by decide

theorem staleWorld_step2 : SetPositionLocal staleWorldPool1 0 ⟨1, 0, 0⟩ = staleWorldPool2 := by
  decide

theorem staleWorld_step3 (m : MathLib) : Update m staleWorldPool2 0 = staleWorldPool3 m := rfl

theorem staleWorld_step4 (m : MathLib) : Update m (staleWorldPool3 m) 1 = staleWorldPool4 m :=
  rfl

theorem staleWorld_step5 (m : MathLib) :
    BecomeOrphan 3 (staleWorldPool4 m) 1 = some (staleWorldPool m) := rfl

theorem runOps_cons_of_apply {m : MathLib} {nullID : String} {fuel : Nat} {s s1 : Pool}
    {op : Op} (ops : List Op) (h : op.apply m nullID fuel s = some s1) :
    runOps m nullID fuel s (op :: ops) = runOps m nullID fuel s1 ops := by
  simp only [runOps, List.foldlM_cons, h]
  rfl

theorem staleWorld_run (m : MathLib) (nullID : String) :
    runOps m nullID 3 (Pool.fresh ["P", "X"]) staleWorldOps = some (staleWorldPool m) := by
  have h1 : (Op.SetParent 1 (some 0)).apply m nullID 3 (Pool.fresh ["P", "X"])
      = some staleWorldPool1 := staleWorld_step1
  have h2 : (Op.SetPositionLocal 0 ⟨1, 0, 0⟩).apply m nullID 3 staleWorldPool1
      = some staleWorldPool2 := congrArg some staleWorld_step2
  have h3 : (Op.Update 0).apply m nullID 3 staleWorldPool2 = some (staleWorldPool3 m) :=
    congrArg some (staleWorld_step3 m)
  have h4 : (Op.Update 1).apply m nullID 3 (staleWorldPool3 m) = some (staleWorldPool4 m) :=
    congrArg some (staleWorld_step4 m)
  have h5 : (Op.BecomeOrphan 1).apply m nullID 3 (staleWorldPool4 m)
      = some (staleWorldPool m) := staleWorld_step5 m
  unfold staleWorldOps
  rw [runOps_cons_of_apply _ h1, runOps_cons_of_apply _ h2, runOps_cons_of_apply _ h3,
    runOps_cons_of_apply _ h4, runOps_cons_of_apply _ h5]
  rfl

/-! ## Reading back what `GameObject::Serialize` wrote -/

theorem AddComponentBasedOnType_recognised (lib : ComponentLib) (components : List Component)
    (t : String) (ht : t ∈ recognisedTags) :
    AddComponentBasedOnType lib components t =
      (components ++ [⟨t, lib.GenerateID t, lib.Construct t⟩], some components.length) := by
  simp only [recognisedTags, List.mem_cons, List.mem_singleton, List.not_mem_nil, or_false] at ht
  rcases ht with h | h | h | h | h | h | h | h | h | h | h | h | h <;>
    subst h <;> simp [AddComponentBasedOnType, AddComponent]

theorem modify_append_singleton (acc : List Component) (c : Component)
    (f : Component → Component) :
    (acc ++ [c]).modify f acc.length = acc ++ [f c] := by
  induction acc with
  | nil => rfl
  | cons a acc ih =>
    simp only [List.modify] at ih
    simp [List.modify, List.modifyTailIdx, ih]

theorem readComponentShells_written (lib : ComponentLib) :
    ∀ (cs acc : List Component) (rest : List Token),
      (∀ c ∈ cs, c.g_typeStr ∈ recognisedTags) →
      readComponentShells lib cs.length
        ((cs.map (fun c => [Token.str c.g_typeStr, Token.uint c.g_ID])).flatten ++ rest) acc
        = some (acc ++ cs.map (Component.shell lib), rest) := by
  intro cs
  induction cs with
  | nil => intro acc rest _; simp [readComponentShells]
  | cons c cs ih =>
    intro acc rest hrec
    have hc := hrec c (List.mem_cons_self c cs)
    have ih' := ih (acc ++ [c.shell lib]) rest (fun c' hc' => hrec c' (List.mem_cons_of_mem c hc'))
    simp only [List.length_cons, List.map_cons, List.flatten_cons, List.cons_append,
      List.nil_append, readComponentShells, readStr, readUInt,
      AddComponentBasedOnType_recognised lib acc _ hc, modify_append_singleton]
    simpa [Component.shell, List.append_assoc] using ih'

theorem readComponentBodies_written (lib : ComponentLib) (hlib : lib.RoundTrips) :
    ∀ (cs : List Component) (rest : List Token),
      ∃ cs1, readComponentBodies lib (cs.map (Component.shell lib))
          ((cs.map lib.Serialize).flatten ++ rest) = some (cs1, rest) ∧
        componentTags cs1 = componentTags cs := by
  intro cs
  induction cs with
  | nil => intro rest; exact ⟨[], by simp [readComponentBodies], rfl⟩
  | cons c cs ih =>
    intro rest
    obtain ⟨cs1, e1, t1⟩ := ih rest
    obtain ⟨c1, e, ht, hi⟩ := hlib c ((cs.map lib.Serialize).flatten ++ rest)
    refine ⟨c1 :: cs1, ?_, ?_⟩
    · simp only [List.map_cons, List.flatten_cons, List.append_assoc, readComponentBodies, e, e1]
    · simp only [componentTags, List.map_cons, ht, hi] at t1 ⊢
      rw [t1]

theorem readChildIDs_written : ∀ (ids : List Nat) (rest : List Token),
    readChildIDs ids.length (ids.map Token.uint ++ rest) = some (ids, rest) := by
  intro ids
  induction ids with
  | nil => intro rest; rfl
  | cons id ids ih =>
    intro rest
    simp only [List.length_cons, List.map_cons, List.cons_append, readChildIDs, readUInt, ih]

theorem ChildList.length_ids : ∀ ch : ChildList, ch.ids.length = ch.size
  | ChildList.nil => rfl
  | ChildList.live _ _ rest => by simp [ChildList.ids, ChildList.size, ChildList.length_ids rest]
  | ChildList.expired _ rest => by simp [ChildList.ids, ChildList.size, ChildList.length_ids rest]

theorem GetTransform_isSome_of_tags {c1 c2 : List Component}
    (h : componentTags c1 = componentTags c2) :
    (GetTransform c1).isSome = (GetTransform c2).isSome := by
  induction c1 generalizing c2 with
  | nil =>
    cases c2 with
    | nil => rfl
    | cons b c2 => simp [componentTags] at h
  | cons a c1 ih =>
    cases c2 with
    | nil => simp [componentTags] at h
    | cons b c2 =>
      simp only [componentTags, List.map_cons, List.cons.injEq, Prod.mk.injEq] at h
      have ih1 := @ih c2 h.2
      simp only [GetTransform, List.find?_cons, h.1.1] at ih1 ⊢
      by_cases hb : b.g_typeStr = "Transform"
      · simp [hb]
      · simpa [hb] using ih1

mutual

theorem GameObject.count_of_sameShape : ∀ (g1 g2 : GameObject),
    GameObject.sameShape g1 g2 = true → g1.count = g2.count
  | GameObject.mk _ _ _ _ _ _ ch1, GameObject.mk _ _ _ _ _ _ ch2, h => by
    simp only [GameObject.sameShape, Bool.and_eq_true] at h
    simp only [GameObject.count, ChildList.childCount_of_sameShape ch1 ch2 h.2]

theorem ChildList.childCount_of_sameShape : ∀ (c1 c2 : ChildList),
    ChildList.sameShape c1 c2 = true → c1.count = c2.count
  | ChildList.nil, ChildList.nil, _ => rfl
  | ChildList.live _ g1 r1, ChildList.live _ g2 r2, h => by
    simp only [ChildList.sameShape, Bool.and_eq_true] at h
    simp only [ChildList.count, GameObject.count_of_sameShape g1 g2 h.1,
      ChildList.childCount_of_sameShape r1 r2 h.2]
  | ChildList.expired _ r1, ChildList.expired _ r2, h => by
    simp only [ChildList.sameShape] at h
    simp only [ChildList.count, ChildList.childCount_of_sameShape r1 r2 h]
  | ChildList.nil, ChildList.live _ _ _, h => by simp [ChildList.sameShape] at h
  | ChildList.nil, ChildList.expired _ _, h => by simp [ChildList.sameShape] at h
  | ChildList.live _ _ _, ChildList.nil, h => by simp [ChildList.sameShape] at h
  | ChildList.live _ _ _, ChildList.expired _ _, h => by simp [ChildList.sameShape] at h
  | ChildList.expired _ _, ChildList.nil, h => by simp [ChildList.sameShape] at h
  | ChildList.expired _ _, ChildList.live _ _ _, h => by simp [ChildList.sameShape] at h

end

theorem GameObject.tags_of_sameShape : ∀ (g1 g2 : GameObject),
    GameObject.sameShape g1 g2 = true →
    componentTags g1.m_components = componentTags g2.m_components
  | GameObject.mk _ _ _ _ _ _ _, GameObject.mk _ _ _ _ _ _ _, h => by
    simp only [GameObject.sameShape, Bool.and_eq_true, decide_eq_true_eq] at h
    exact h.1.2

theorem GameObject.transform_of_serializable : ∀ (g : GameObject),
    g.serializable = true → (GetTransform g.m_components).isSome = true
  | GameObject.mk _ _ _ _ _ _ _, h => by
    simp only [GameObject.serializable, Bool.and_eq_true] at h
    exact h.1.2

/-- The children that `ResolveChildren` attaches, when the deserialized game
objects match the children that were written. -/
theorem ofList_filterMap_matches : ∀ (gs : List GameObject) (ch : ChildList),
    matchesChildren gs ch = true → ch.serializable = true →
    ChildList.sameShape (ChildList.ofList (gs.filterMap (fun child =>
        (GetTransform child.m_components).map (fun t => (t.g_ID, child))))) ch = true
  | [], ChildList.nil, _, _ => rfl
  | g1 :: gs, ChildList.live _ g rest, h, hs => by
    simp only [matchesChildren, Bool.and_eq_true] at h
    simp only [ChildList.serializable, Bool.and_eq_true] at hs
    have ht : (GetTransform g1.m_components).isSome = true := by
      rw [GetTransform_isSome_of_tags (GameObject.tags_of_sameShape g1 g h.1)]
      exact GameObject.transform_of_serializable g hs.1
    obtain ⟨t, ht⟩ := Option.isSome_iff_exists.mp ht
    simp only [List.filterMap_cons, ht, Option.map_some', ChildList.ofList,
      ChildList.sameShape, h.1, Bool.true_and]
    exact ofList_filterMap_matches gs rest h.2 hs.2
  | [], ChildList.live _ _ _, h, _ => by simp [matchesChildren] at h
  | [], ChildList.expired _ _, h, _ => by simp [matchesChildren] at h
  | _ :: _, ChildList.nil, h, _ => by simp [matchesChildren] at h
  | _ :: _, ChildList.expired _ _, h, _ => by simp [matchesChildren] at h

mutual

/-- Reading back one serialized entity subtree. -/
theorem GameObject.Deserialize_written (lib : ComponentLib) (hlib : lib.RoundTrips) :
    ∀ (g : GameObject), g.serializable = true → ∀ (fuel : Nat), g.depth ≤ fuel →
      ∃ values, g.Serialize lib = some values ∧
        ∀ (rest : List Token), ∃ g1,
          GameObject.Deserialize lib fuel (values ++ rest) [] = some (g1, rest) ∧
          GameObject.sameShape g1 g = true
  | GameObject.mk p a h id name comps ch, hg, fuel, hf => by
    simp only [GameObject.serializable, Bool.and_eq_true, List.all_eq_true,
      decide_eq_true_eq] at hg
    obtain ⟨⟨hrec, htr⟩, hch⟩ := hg
    obtain ⟨fuel, rfl⟩ : ∃ k, fuel = k + 1 := ⟨fuel - 1, by
      simp only [GameObject.depth] at hf; omega⟩
    have hf' : ch.depth ≤ fuel := by simp only [GameObject.depth] at hf; omega
    obtain ⟨records, erec, hread⟩ :=
      ChildList.deserializeChildren_written lib hlib ch hch fuel hf'
    obtain ⟨tr, htr0⟩ := Option.isSome_iff_exists.mp htr
    refine ⟨_, by simp only [GameObject.Serialize, htr0, erec]; rfl, fun rest => ?_⟩
    obtain ⟨gs, egs, hm⟩ := hread rest
    obtain ⟨cs1, ecs, htags⟩ := readComponentBodies_written lib hlib comps
      ([Token.int ch.size] ++ ch.ids.map Token.uint ++ records ++ rest)
    have eshell := readComponentShells_written lib comps [] ((comps.map lib.Serialize).flatten ++
      ([Token.int ch.size] ++ ch.ids.map Token.uint ++ records ++ rest))
      hrec
    have eids := readChildIDs_written ch.ids (records ++ rest)
    rw [ChildList.length_ids] at eids
    refine ⟨GameObject.mk p a h id name cs1 (ResolveChildren cs1 gs), ?_, ?_⟩
    · simp only [List.append_assoc, List.cons_append, List.nil_append,
        GameObject.Deserialize, readBool, readUInt, readStr, readInt, Int.toNat_ofNat]
      simp only [List.append_assoc, List.cons_append, List.nil_append, List.nil_append] at eshell ecs
      rw [eshell]
      simp only [ecs, readInt, Int.toNat_ofNat, eids, egs]
    · have htr1 : (GetTransform cs1).isSome = true := by
        rw [GetTransform_isSome_of_tags htags]; exact htr
      obtain ⟨t, ht⟩ := Option.isSome_iff_exists.mp htr1
      simp only [GameObject.sameShape, ResolveChildren, ht, htags, decide_True, Bool.true_and,
        Bool.and_true]
      exact ofList_filterMap_matches gs ch hm hch

/-- Reading back the serialized children of one entity. -/
theorem ChildList.deserializeChildren_written (lib : ComponentLib) (hlib : lib.RoundTrips) :
    ∀ (ch : ChildList), ch.serializable = true → ∀ (fuel : Nat), ch.depth ≤ fuel →
      ∃ records, ChildList.SerializeEach lib ch = some records ∧
        ∀ (rest : List Token), ∃ gs,
          deserializeChildren (fun s => GameObject.Deserialize lib fuel s []) ch.ids
            (records ++ rest) = some (gs, rest) ∧
          matchesChildren gs ch = true
  | ChildList.nil, _, _, _ => ⟨[], rfl, fun _ => ⟨[], rfl, rfl⟩⟩
  | ChildList.live _ g r, hs, fuel, hf => by
    simp only [ChildList.serializable, Bool.and_eq_true] at hs
    simp only [ChildList.depth] at hf
    obtain ⟨values, ev, hg⟩ := GameObject.Deserialize_written lib hlib g hs.1 fuel (by omega)
    obtain ⟨records, er, hr⟩ :=
      ChildList.deserializeChildren_written lib hlib r hs.2 fuel (by omega)
    refine ⟨values ++ records, by simp only [ChildList.SerializeEach, ev, er], fun rest => ?_⟩
    obtain ⟨g1, e1, s1⟩ := hg (records ++ rest)
    obtain ⟨gs, e2, m2⟩ := hr rest
    refine ⟨g1 :: gs, ?_, by simp [matchesChildren, s1, m2]⟩
    simp only [ChildList.ids, List.append_assoc, deserializeChildren, e1, e2]
  | ChildList.expired _ _, hs, _, _ => by simp [ChildList.serializable] at hs

end

/-! ## Layout of the entity record -/

theorem ChildList.SerializeEach_prepend (lib : ComponentLib) :
    ∀ (kids : List (Nat × GameObject)) (records : List (List Token)) (tail : ChildList),
      kids.map (fun k => GameObject.Serialize lib k.2) = records.map some →
      ChildList.SerializeEach lib (ChildList.prepend kids tail) =
        (ChildList.SerializeEach lib tail).map (fun later => records.flatten ++ later)
  | [], [], tail, _ => by simp [ChildList.prepend]
  | [], _ :: _, _, h => by simp at h
  | _ :: _, [], _, h => by simp at h
  | (id, g) :: kids, r :: records, tail, h => by
    simp only [List.map_cons, List.cons.injEq] at h
    simp only [ChildList.prepend, ChildList.SerializeEach, h.1,
      ChildList.SerializeEach_prepend lib kids records tail h.2, List.flatten_cons]
    cases ChildList.SerializeEach lib tail <;> simp

/-- The third children loop writes nothing for an expired child or the
children after it. -/
theorem ChildList.SerializeEach_prepend_expired (lib : ComponentLib) (expiredID : Nat)
    (later : ChildList) : ∀ (kids : List (Nat × GameObject)),
      ChildList.SerializeEach lib (ChildList.prepend kids (ChildList.expired expiredID later))
        = ChildList.SerializeEach lib (ChildList.ofList kids)
  | [] => rfl
  | (id, g) :: kids => by
    simp only [ChildList.prepend, ChildList.ofList, ChildList.SerializeEach,
      ChildList.SerializeEach_prepend_expired lib expiredID later kids]

theorem ChildList.size_prepend : ∀ (kids : List (Nat × GameObject)) (tail : ChildList),
    (ChildList.prepend kids tail).size = kids.length + tail.size
  | [], tail => by simp [ChildList.prepend]
  | (id, g) :: kids, tail => by
    simp only [ChildList.prepend, ChildList.size, ChildList.size_prepend kids tail,
      List.length_cons]
    omega

theorem ChildList.ids_prepend : ∀ (kids : List (Nat × GameObject)) (tail : ChildList),
    (ChildList.prepend kids tail).ids = kids.map (fun k => k.1) ++ tail.ids
  | [], tail => by simp [ChildList.prepend]
  | (id, g) :: kids, tail => by
    simp [ChildList.prepend, ChildList.ids, ChildList.ids_prepend kids tail]

theorem ChildList.ofList_eq_prepend : ∀ (kids : List (Nat × GameObject)),
    ChildList.ofList kids = ChildList.prepend kids ChildList.nil
  | [] => rfl
  | (id, g) :: kids => by
    simp [ChildList.ofList, ChildList.prepend, ChildList.ofList_eq_prepend kids]

theorem GameObject.Serialize_eq_record (lib : ComponentLib) : ∀ (g : GameObject),
    (GetTransform g.m_components).isSome = true →
    g.Serialize lib =
      (ChildList.SerializeEach lib g.children).map (fun records => g.record lib ++ records)
  | GameObject.mk _ _ _ _ _ comps ch, h => by
    obtain ⟨tr, htr⟩ := Option.isSome_iff_exists.mp h
    simp only [GameObject.m_components] at htr
    simp only [GameObject.Serialize, htr, GameObject.record, GameObject.children]
    cases ChildList.SerializeEach lib ch <;> simp

theorem GameObject.Serialize_without_transform (lib : ComponentLib) : ∀ (g : GameObject),
    GetTransform g.m_components = none → g.Serialize lib = none
  | GameObject.mk _ _ _ _ _ _ _, h => by
    simp only [GameObject.m_components] at h
    simp only [GameObject.Serialize, h]

theorem GameObject.mem_preorder_self : ∀ (g : GameObject), g ∈ g.preorder
  | GameObject.mk _ _ _ _ _ _ _ => by simp [GameObject.preorder]

mutual

theorem GameObject.Serialize_preorder (lib : ComponentLib) : ∀ (g : GameObject),
    g.allLive = true → (∀ e ∈ g.preorder, (GetTransform e.m_components).isSome = true) →
    g.Serialize lib = some (g.preorder.map (GameObject.record lib)).flatten
  | GameObject.mk p a h id name comps ch, hl, ht => by
    simp only [GameObject.allLive] at hl
    have hch : ∀ e ∈ ch.preorder, (GetTransform e.m_components).isSome = true :=
      fun e he => ht e (by simp [GameObject.preorder, he])
    rw [GameObject.Serialize_eq_record lib _ (ht _ (GameObject.mem_preorder_self _))]
    simp only [GameObject.children, GameObject.preorder, List.map_cons, List.flatten_cons,
      ChildList.SerializeEach_preorder lib ch hl hch, Option.map_some']

theorem ChildList.SerializeEach_preorder (lib : ComponentLib) : ∀ (ch : ChildList),
    ch.allLive = true → (∀ e ∈ ch.preorder, (GetTransform e.m_components).isSome = true) →
      ChildList.SerializeEach lib ch = some (ch.preorder.map (GameObject.record lib)).flatten
  | ChildList.nil, _, _ => rfl
  | ChildList.live _ g rest, hl, ht => by
    simp only [ChildList.allLive, Bool.and_eq_true] at hl
    have hg : ∀ e ∈ g.preorder, (GetTransform e.m_components).isSome = true :=
      fun e he => ht e (by simp [ChildList.preorder, he])
    have hr : ∀ e ∈ rest.preorder, (GetTransform e.m_components).isSome = true :=
      fun e he => ht e (by simp [ChildList.preorder, he])
    simp only [ChildList.SerializeEach, ChildList.preorder, List.map_append,
      List.flatten_append, GameObject.Serialize_preorder lib g hl.1 hg,
      ChildList.SerializeEach_preorder lib rest hl.2 hr]
  | ChildList.expired _ _, hl, _ => by simp [ChildList.allLive] at hl

end

mutual

theorem GameObject.length_preorder : ∀ (g : GameObject), g.preorder.length = g.count
  | GameObject.mk _ _ _ _ _ _ ch => by
    simp only [GameObject.preorder, GameObject.count, List.length_cons,
      ChildList.length_childPreorder ch]

theorem ChildList.length_childPreorder : ∀ (ch : ChildList), ch.preorder.length = ch.count
  | ChildList.nil => rfl
  | ChildList.live _ g rest => by
    simp only [ChildList.preorder, ChildList.count, List.length_append,
      GameObject.length_preorder g, ChildList.length_childPreorder rest]
  | ChildList.expired _ rest => by
    simp only [ChildList.preorder, ChildList.count, ChildList.length_childPreorder rest]

end

/-! ## The transform body -/

theorem GetParent_put_locals (s : Pool) (x y : Ptr) (b : TransformBody) :
    GetParent (s.put x { s.get x with
      positionLocal := b.positionLocal, rotationLocal := b.rotationLocal,
      scaleLocal := b.scaleLocal, lookAt := b.lookAt }) y = GetParent s y := by
  by_cases hx : x < s.size
  · by_cases hy : y = x
    · subst hy; simp [GetParent, Pool.get_put_self _ _ _ hx]
    · simp [GetParent, Pool.get_put_ne _ _ _ _ hy]
  · rw [Pool.put_of_size_le _ _ _ (Nat.le_of_not_lt hx)]

theorem GetID_put_locals (s : Pool) (x y : Ptr) (b : TransformBody) :
    GetID (s.put x { s.get x with
      positionLocal := b.positionLocal, rotationLocal := b.rotationLocal,
      scaleLocal := b.scaleLocal, lookAt := b.lookAt }) y = GetID s y := by
  by_cases hx : x < s.size
  · by_cases hy : y = x
    · subst hy; simp [GetID, Pool.get_put_self _ _ _ hx]
    · simp [GetID, Pool.get_put_ne _ _ _ _ hy]
  · rw [Pool.put_of_size_le _ _ _ (Nat.le_of_not_lt hx)]

theorem GetGameObjectByID_put_locals (s : Pool) (x : Ptr) (b : TransformBody) (id : String) :
    GetGameObjectByID (s.put x { s.get x with
      positionLocal := b.positionLocal, rotationLocal := b.rotationLocal,
      scaleLocal := b.scaleLocal, lookAt := b.lookAt }) id = GetGameObjectByID s id := by
  simp only [GetGameObjectByID, Pool.size_put, GetID_put_locals]

/-- A game object that is in the pool is found by its ID: the lookup returns a
game object of the pool with that ID. -/
theorem GetGameObjectByID_present (s : Pool) (id : String) (q : Ptr) (hq : q < s.size)
    (hid : GetID s q = id) :
    ∃ r, GetGameObjectByID s id = some r ∧ r < s.size ∧ GetID s r = id := by
  cases h : GetGameObjectByID s id with
  | none =>
    simp only [GetGameObjectByID, List.find?_eq_none, List.mem_range, decide_eq_true_eq] at h
    exact absurd hid (h q hq)
  | some r =>
    refine ⟨r, rfl, ?_, ?_⟩
    · have := List.mem_of_find?_eq_some h
      exact List.mem_range.mp this
    · have := List.find?_some h
      simpa using this

/-- The transform after `Deserialize`, up to its parent pointer. -/
theorem get_Deserialize (nullID : String) (s : Pool) (y : Ptr) (b : TransformBody)
    (hy : y < s.size) :
    ((Deserialize nullID s y b).get y).locals
        = (b.positionLocal, b.rotationLocal, b.scaleLocal) ∧
    ((Deserialize nullID s y b).get y).lookAt = b.lookAt ∧
    ((Deserialize nullID s y b).get y).isDirty = true := by
  have h1 : y < (s.put y { s.get y with
      positionLocal := b.positionLocal, rotationLocal := b.rotationLocal,
      scaleLocal := b.scaleLocal, lookAt := b.lookAt }).size := by
    rw [Pool.size_put]; exact hy
  simp only [Deserialize]
  split
  · split
    · rw [get_MakeDirty_self _ _ (by rw [size_setParentPtr]; exact h1),
        get_setParentPtr_self _ _ _ h1, Pool.get_put_self _ _ _ hy]
      exact ⟨rfl, rfl, rfl⟩
    · rw [get_MakeDirty_self _ _ h1, Pool.get_put_self _ _ _ hy]
      exact ⟨rfl, rfl, rfl⟩
  · rw [get_MakeDirty_self _ _ h1, Pool.get_put_self _ _ _ hy]
    exact ⟨rfl, rfl, rfl⟩

/-- The parent after `Deserialize` of a body whose parent field is the
sentinel: the parent before. -/
theorem GetParent_Deserialize_sentinel (nullID : String) (s : Pool) (x : Ptr)
    (b : TransformBody) (hb : b.parentGameObjectID = nullID) :
    GetParent (Deserialize nullID s x b) x = GetParent s x := by
  simp only [Deserialize, hb, ne_eq, not_true_eq_false, if_false]
  rw [GetParent_MakeDirty, GetParent_put_locals]

/-- The parent after `Deserialize` of a body whose parent field is the ID of a
game object the lookup finds: that game object. -/
theorem GetParent_Deserialize_found (nullID : String) (s : Pool) (y : Ptr)
    (b : TransformBody) (hy : y < s.size) (hb : b.parentGameObjectID ≠ nullID) (r : Ptr)
    (hr : GetGameObjectByID s b.parentGameObjectID = some r) :
    GetParent (Deserialize nullID s y b) y = some r := by
  have h1 : y < (s.put y { s.get y with
      positionLocal := b.positionLocal, rotationLocal := b.rotationLocal,
      scaleLocal := b.scaleLocal, lookAt := b.lookAt }).size := by
    rw [Pool.size_put]; exact hy
  simp only [Deserialize, hb, ne_eq, not_false_eq_true, if_true, GetGameObjectByID_put_locals, hr]
  rw [GetParent_MakeDirty, GetParent_setParentPtr_self _ _ _ h1]

/-! ## Component container -/

theorem AddComponentBasedOnType_unrecognised (lib : ComponentLib)
    (components : List Component) (t : String) (ht : t ∉ recognisedTags) :
    AddComponentBasedOnType lib components t = (components, none) := by
  simp only [recognisedTags, List.mem_cons, List.mem_singleton, List.not_mem_nil, or_false,
    not_or] at ht
  obtain ⟨h1, h2, h3, h4, h5, h6, h7, h8, h9, h10, h11, h12, h13⟩ := ht
  simp [AddComponentBasedOnType, h1, h2, h3, h4, h5, h6, h7, h8, h9, h10, h11, h12, h13]

theorem removeComponentLoop_eq (id : Nat) : ∀ (after before : List Component),
    removeComponentLoop id before after
      = before ++ after.filter (fun c => decide (c.g_ID ≠ id)) := by
  intro after
  induction after with
  | nil => intro before; simp [removeComponentLoop]
  | cons c after ih =>
    intro before
    by_cases h : id = c.g_ID
    · have h' : ¬ c.g_ID ≠ id := fun e => e h.symm
      rw [removeComponentLoop, if_pos h, ih, List.filter_cons_of_neg (by simpa using h')]
    · have h' : c.g_ID ≠ id := fun e => h e.symm
      rw [removeComponentLoop, if_neg h, ih, List.filter_cons_of_pos (by simpa using h'),
        List.append_assoc]
      rfl

theorem foldl_append_singleton {α β : Type} (f : α → β) : ∀ (l : List α) (init : List β),
    l.foldl (fun acc a => acc ++ [f a]) init = init ++ l.map f := by
  intro l
  induction l with
  | nil => intro init; simp
  | cons a l ih => intro init; simp [ih]

/-! ## Rebuild of the children lists, postcondition -/

theorem Pool.ext_get {s t : Pool} (hsize : s.size = t.size) (h : ∀ p, s.get p = t.get p) :
    s = t := by
  cases s with
  | mk ss =>
    cases t with
    | mk ts =>
      simp only [Pool.size] at hsize
      congr 1
      apply List.ext_getElem? 
      intro p
      by_cases hp : p < ss.length
      · have hp' : p < ts.length := hsize ▸ hp
        have := h p
        simp only [Pool.get, List.getElem?_eq_getElem hp, List.getElem?_eq_getElem hp',
          Option.getD_some] at this
        rw [List.getElem?_eq_getElem hp, List.getElem?_eq_getElem hp', this]
      · have hp' : ¬ p < ts.length := hsize ▸ hp
        rw [List.getElem?_eq_none (Nat.le_of_not_lt hp),
          List.getElem?_eq_none (Nat.le_of_not_lt hp')]

theorem Transform.eq_of_core_children {a b : Transform} (hc : a.core = b.core)
    (hch : a.children = b.children) : a = b := by
  cases a
  cases b
  simp only [Transform.core, Transform.mk.injEq] at hc
  simp only [Transform.mk.injEq]
  simp only at hch
  simp [hc, hch]

theorem childrenByID_eq_childrenOf {s : Pool} (wf : WellFormed s) {x : Ptr}
    (hx : x < s.size) : childrenByID s x = childrenOf s x := by
  simp only [childrenByID, childrenOf]
  apply List.filter_congr
  intro c _
  cases hp : GetParent s c with
  | none => simp
  | some p =>
    have hpl : p < s.size := wf.parent_lt c p hp
    by_cases hpx : p = x
    · subst hpx; simp
    · have : GetID s p ≠ GetID s x := fun h => hpx (wf.id_inj p x hpl hx h)
      simp [this, hpx]

theorem childrenOf_nodup (s : Pool) (x : Ptr) : (childrenOf s x).Nodup :=
  (List.nodup_range s.size).filter _

/-- Ancestors-or-self of a pool transform are pool transforms. -/
theorem Anc.lt_size_of_lt {s : Pool} {x y : Ptr} (h : Anc s x y) (hx : x < s.size) :
    y < s.size := by
  by_cases hyx : y = x
  · exact hyx ▸ hx
  · exact h.lt_size hyx

/-! ## Root lookup -/

/-- Following parent pointers to a root is what `GetRoot` does: when a root is
reached within the fuel, `GetRoot` returns it. -/
theorem GetRoot_of_reachesRoot {s : Pool} : ∀ (n : Nat) (x : Ptr),
    reachesRoot n s x = true →
      ∃ R, GetRoot n s x = some R ∧ GetParent s R = none ∧ Anc s R x
  | 0, _, h => by simp [reachesRoot] at h
  | n + 1, x, h => by
    simp only [reachesRoot] at h
    cases hp : GetParent s x with
    | none => exact ⟨x, by simp [GetRoot, hp], hp, Anc.refl⟩
    | some p =>
      simp only [hp] at h
      obtain ⟨R, e, hr, ha⟩ := GetRoot_of_reachesRoot n p h
      exact ⟨R, by simp [GetRoot, hp, e], hr, Anc.step hp ha⟩

/-- More fuel does not change the result of `GetRoot`. -/
theorem GetRoot_mono {s : Pool} : ∀ (n m : Nat) (x R : Ptr), n ≤ m →
    GetRoot n s x = some R → GetRoot m s x = some R
  | 0, _, _, _, _, h => by simp [GetRoot] at h
  | n + 1, 0, _, _, hle, _ => absurd hle (by omega)
  | n + 1, m + 1, x, R, hle, h => by
    simp only [GetRoot] at h ⊢
    cases hp : GetParent s x with
    | none => simpa [hp] using h
    | some p =>
      simp only [hp] at h ⊢
      exact GetRoot_mono n m p R (Nat.le_of_succ_le_succ hle) h

/-- A transform without parent has no ancestor but itself. -/
theorem Anc.eq_of_root {s : Pool} {a r : Ptr} (h : Anc s a r) (hr : GetParent s r = none) :
    a = r := by
  cases h with
  | refl => rfl
  | step hp _ => rw [hr] at hp; cases hp

/-! ## Sample runs -/

/-- In `poolFork` the call `A.SetParent(C)` returns for no fuel. -/
theorem SetParent_poolFork_none : ∀ fuel, SetParent fuel poolFork 0 (some 2) = none := by
  have h4 : orphanChildren 4 poolFork 0 0 = some poolForkRescued := by decide
  intro fuel
  cases fuel with
  | zero => rfl
  | succ fuel =>
    have hid : GetID poolFork 2 ≠ GetID poolFork 0 := by decide
    have hpar : GetParent poolFork 0 = none := by decide
    have hhas : HasParent poolFork 0 = false := by decide
    have hparR : GetParent poolForkRescued 0 = none := by decide
    have hcyc1 : FindChildren fuel (poolFork.setParentPtr 0 (some 2)) 2 = none :=
      FindChildren_two_cycle fuel _ 0 2 (by decide) (by decide)
    have hcyc2 : FindChildren fuel (poolForkRescued.setParentPtr 0 (some 2)) 2 = none :=
      FindChildren_two_cycle fuel _ 0 2 (by decide) (by decide)
    simp only [SetParent, hid, if_false, hpar, hhas]
    cases hd : IsDescendantOf fuel poolFork 2 0 with
    | none => rfl
    | some b =>
      cases b with
      | false => simp [hpar, hcyc1]
      | true =>
        simp only [if_true]
        cases ho : orphanChildren fuel poolFork 0 0 with
        | none => rfl
        | some s1 =>
          have hs1 : s1 = poolForkRescued := by
            rcases Nat.le_total fuel 4 with hle | hle
            · have := orphanChildren_mono fuel 4 _ _ _ _ hle ho
              rw [h4] at this
              exact (Option.some.inj this).symm
            · have := orphanChildren_mono 4 fuel _ _ _ _ hle h4
              rw [ho] at this
              exact Option.some.inj this
          subst hs1
          simp [hparR, hcyc2]

theorem staleRoot_step6 (m : MathLib) :
    SetPosition m (staleWorldPool m) 1 ⟨0, 0, 0⟩ = staleWorldPool m := rfl

theorem staleRoot_step7 (m : MathLib) : Update m (staleWorldPool m) 1 = staleWorldPool m := rfl

theorem staleRoot_run (m : MathLib) (nullID : String) :
    runOps m nullID 3 (Pool.fresh ["P", "X"]) staleRootOps = some (staleWorldPool m) := by
  have h1 : (Op.SetParent 1 (some 0)).apply m nullID 3 (Pool.fresh ["P", "X"])
      = some staleWorldPool1 := staleWorld_step1
  have h2 : (Op.SetPositionLocal 0 ⟨1, 0, 0⟩).apply m nullID 3 staleWorldPool1
      = some staleWorldPool2 := congrArg some staleWorld_step2
  have h3 : (Op.Update 0).apply m nullID 3 staleWorldPool2 = some (staleWorldPool3 m) :=
    congrArg some (staleWorld_step3 m)
  have h4 : (Op.Update 1).apply m nullID 3 (staleWorldPool3 m) = some (staleWorldPool4 m) :=
    congrArg some (staleWorld_step4 m)
  have h5 : (Op.BecomeOrphan 1).apply m nullID 3 (staleWorldPool4 m)
      = some (staleWorldPool m) := staleWorld_step5 m
  have h6 : (Op.SetPosition 1 ⟨0, 0, 0⟩).apply m nullID 3 (staleWorldPool m)
      = some (staleWorldPool m) := congrArg some (staleRoot_step6 m)
  have h7 : (Op.Update 1).apply m nullID 3 (staleWorldPool m) = some (staleWorldPool m) :=
    congrArg some (staleRoot_step7 m)
  unfold staleRootOps
  rw [runOps_cons_of_apply _ h1, runOps_cons_of_apply _ h2, runOps_cons_of_apply _ h3,
    runOps_cons_of_apply _ h4, runOps_cons_of_apply _ h5, runOps_cons_of_apply _ h6,
    runOps_cons_of_apply _ h7]
  rfl

theorem cleanPair_run (m : MathLib) (nullID : String) :
    runOps m nullID 3 (Pool.fresh ["P", "X"]) cleanPairOps = some (staleWorldPool4 m) := by
  have h1 : (Op.SetParent 1 (some 0)).apply m nullID 3 (Pool.fresh ["P", "X"])
      = some staleWorldPool1 := staleWorld_step1
  have h2 : (Op.SetPositionLocal 0 ⟨1, 0, 0⟩).apply m nullID 3 staleWorldPool1
      = some staleWorldPool2 := congrArg some staleWorld_step2
  have h3 : (Op.Update 0).apply m nullID 3 staleWorldPool2 = some (staleWorldPool3 m) :=
    congrArg some (staleWorld_step3 m)
  have h4 : (Op.Update 1).apply m nullID 3 (staleWorldPool3 m) = some (staleWorldPool4 m) :=
    congrArg some (staleWorld_step4 m)
  unfold cleanPairOps
  rw [runOps_cons_of_apply _ h1, runOps_cons_of_apply _ h2, runOps_cons_of_apply _ h3,
    runOps_cons_of_apply _ h4]
  rfl

/-! ## Dirty flags and the world position of a root -/

/-- The dirty flags after `MakeDirty`: set for the transform itself, as before
for every other one. -/
theorem dirty_MakeDirty (s : Pool) (X y : Ptr) :
    ((MakeDirty s X).get y).isDirty
      = if y = X ∧ X < s.size then true else (s.get y).isDirty := by
  by_cases hy : y = X
  · subst hy
    by_cases hX : y < s.size
    · rw [get_MakeDirty_self _ _ hX, if_pos ⟨rfl, hX⟩]
    · rw [if_neg (fun h => hX h.2)]
      unfold MakeDirty
      rw [Pool.put_of_size_le _ _ _ (Nat.le_of_not_lt hX)]
  · rw [get_MakeDirty_ne _ _ _ hy, if_neg (fun h => hy h.1)]

theorem position_MakeDirty (s : Pool) (c y : Ptr) :
    ((MakeDirty s c).get y).position = (s.get y).position ∧
    ((MakeDirty s c).get y).positionLocal = (s.get y).positionLocal := by
  by_cases hy : y = c
  · subst hy
    by_cases hX : y < s.size
    · rw [get_MakeDirty_self _ _ hX]
      exact ⟨rfl, rfl⟩
    · unfold MakeDirty
      rw [Pool.put_of_size_le _ _ _ (Nat.le_of_not_lt hX)]
      exact ⟨rfl, rfl⟩
  · rw [get_MakeDirty_ne _ _ _ hy]
    exact ⟨rfl, rfl⟩

theorem position_foldl_MakeDirty (cs : List Ptr) : ∀ (s : Pool) (y : Ptr),
    ((cs.foldl (fun acc child => MakeDirty acc child) s).get y).position
      = (s.get y).position ∧
    ((cs.foldl (fun acc child => MakeDirty acc child) s).get y).positionLocal
      = (s.get y).positionLocal := by
  induction cs with
  | nil => intro s y; exact ⟨rfl, rfl⟩
  | cons c cs ih =>
    intro s y
    rw [List.foldl_cons, (ih _ y).1, (ih _ y).2]
    exact position_MakeDirty s c y

/-- The last row of the local matrix of a transform holds its local position. -/
theorem localMatrix_mul_Identity_r3 (t : Transform) :
    (t.localMatrix.mul Matrix.Identity).r3
      = (t.positionLocal.x, t.positionLocal.y, t.positionLocal.z, 1) := by
  simp [Transform.localMatrix, Matrix.mul, Matrix.rowMul, Matrix.dot, Matrix.Identity,
    Matrix.CreateTranslation, Matrix.CreateScale, Quaternion.RotationMatrix]

/-- World position round trip of a root whose dirty flag is set after
`SetPosition`: with a `Decompose` that reads the position from the last row,
`GetPosition` after `Update` is the position set. -/
theorem SetPosition_root_round_trip_of_dirty (m : MathLib)
    (hdec : ∀ a, (m.decompose a).2.2 = ⟨a.r3.1, a.r3.2.1, a.r3.2.2.1⟩)
    (s : Pool) (X : Ptr) (p : Vector3) (hX : X < s.size) (hroot : GetParent s X = none)
    (hd : ((SetPosition m s X p).get X).isDirty = true) :
    GetPosition (Update m (SetPosition m s X p) X) X = p ∧
    ((Update m (SetPosition m s X p) X).get X).positionLocal = p := by
  have hs1 : SetPosition m s X p = SetPositionLocal s X p := by
    simp [SetPosition, hroot]
  rw [hs1] at hd ⊢
  have hsz : X < (SetPositionLocal s X p).size := by rw [size_SetPositionLocal]; exact hX
  have hloc : ((SetPositionLocal s X p).get X).positionLocal = p := by
    by_cases hv : (s.get X).positionLocal = p
    · simp [SetPositionLocal, hv]
    · rw [get_SetPositionLocal_self _ _ _ hX hv]
  have hpar : GetParent (SetPositionLocal s X p) X = none := by
    by_cases hv : (s.get X).positionLocal = p
    · simp [SetPositionLocal, hv, hroot]
    · unfold GetParent at hroot ⊢
      rw [get_SetPositionLocal_self _ _ _ hX hv]
      exact hroot
  generalize SetPositionLocal s X p = s1 at hd hsz hloc hpar
  have hne : ¬ (s1.get X).isDirty = false := by simp [hd]
  have hpm : GetParentMatrix s1 X = Matrix.Identity := by simp [GetParentMatrix, hpar]
  simp only [Update, if_neg hne, GetPosition, hpm]
  rw [Pool.get_put_self _ _ _ (by rw [size_foldl_MakeDirty, Pool.size_put]; exact hsz)]
  refine ⟨?_, ?_⟩
  · dsimp only
    rw [(position_foldl_MakeDirty _ _ X).1, Pool.get_put_self _ _ _ hsz]
    dsimp only
    rw [hdec, localMatrix_mul_Identity_r3, hloc]
  · dsimp only
    rw [(position_foldl_MakeDirty _ _ X).2, Pool.get_put_self _ _ _ hsz]
    exact hloc

/-! ## Prefab files -/

/-- On the record with the unrecognised type tag `GameObject::Deserialize`
returns for no fuel, whatever components the entity has. -/
theorem Deserialize_unknownTagStream (lib : ComponentLib) (components : List Component) :
    ∀ fuel, GameObject.Deserialize lib fuel unknownTagStream components = none
  | 0 => rfl
  | fuel + 1 => by
    have h1 := AddComponentBasedOnType_unrecognised lib components "Unknown" (by decide)
    have h2 : readComponentShells lib 1 [Token.str "Unknown", Token.uint 5, Token.int 0]
        components = none := by
      simp [readComponentShells, readStr, readUInt, h1]
    simp [GameObject.Deserialize, unknownTagStream, readBool, readUInt, readStr, readInt, h2]

/-- The paths of `LoadFromPrefab` and `SaveAsPrefab` that report an I/O
failure, and the paths on which the nested call has returned. -/
theorem prefab_paths (fs : FileSystem) (lib : ComponentLib) (extension : String)
    (fuel : Nat) (g : GameObject) (filePath : String) :
    (fs.IsEnginePrefabFile filePath = false →
      LoadFromPrefab fs lib fuel g filePath = some ⟨false, g, [], none⟩) ∧
    (fs.IsEnginePrefabFile filePath = true → fs.openRead filePath = none →
      LoadFromPrefab fs lib fuel g filePath = some ⟨false, g, [filePath], none⟩) ∧
    (∀ stream g1 rest, fs.IsEnginePrefabFile filePath = true →
      fs.openRead filePath = some stream →
      GameObject.Deserialize lib fuel stream g.m_components = some (g1, rest) →
      LoadFromPrefab fs lib fuel g filePath = some ⟨true, g1, [filePath], none⟩) ∧
    (fs.canCreate (filePath ++ extension) = false →
      SaveAsPrefab fs lib extension g filePath
        = some ⟨false, g, [filePath ++ extension], none⟩) ∧
    (∀ values, fs.canCreate (filePath ++ extension) = true →
      (g.setIsPrefab true).Serialize lib = some values →
      SaveAsPrefab fs lib extension g filePath =
        some ⟨true, g.setIsPrefab true, [filePath ++ extension],
          some (filePath ++ extension, values)⟩) := by
  refine ⟨fun h => by simp [LoadFromPrefab, h], fun h ho => by simp [LoadFromPrefab, h, ho],
    fun stream g1 rest h ho hd => by simp [LoadFromPrefab, h, ho, hd],
    fun h => by simp [SaveAsPrefab, h], fun values h hs => by simp [SaveAsPrefab, h, hs]⟩

/-! ## One level of dirty propagation -/

/-- `MakeDirty` changes nothing but dirty flags. -/
theorem get_MakeDirty_eq (s : Pool) (c y : Ptr) :
    (MakeDirty s c).get y = { s.get y with isDirty := ((MakeDirty s c).get y).isDirty } := by
  by_cases hy : y = c
  · subst hy
    by_cases hX : y < s.size
    · rw [get_MakeDirty_self _ _ hX]
    · unfold MakeDirty
      rw [Pool.put_of_size_le _ _ _ (Nat.le_of_not_lt hX)]
  · rw [get_MakeDirty_ne _ _ _ hy]

theorem get_foldl_MakeDirty_eq (cs : List Ptr) : ∀ (s : Pool) (y : Ptr),
    (cs.foldl (fun acc child => MakeDirty acc child) s).get y
      = { s.get y with
          isDirty := ((cs.foldl (fun acc child => MakeDirty acc child) s).get y).isDirty } := by
  induction cs with
  | nil => intro s y; rfl
  | cons c cs ih =>
    intro s y
    rw [List.foldl_cons]
    conv_lhs => rw [ih, get_MakeDirty_eq]

/-- A dirty transform of the pool recomputes its world matrix in `Update`. -/
theorem Update_worldMatrix (m : MathLib) (s : Pool) (X : Ptr) (hX : X < s.size)
    (hd : (s.get X).isDirty = true) :
    ((Update m s X).get X).worldMatrix = (s.get X).localMatrix.mul (GetParentMatrix s X) := by
  have hne : ¬ (s.get X).isDirty = false := by simp [hd]
  simp only [Update, if_neg hne]
  rw [Pool.get_put_self _ _ _ (by rw [size_foldl_MakeDirty, Pool.size_put]; exact hX)]
  dsimp only
  rw [get_foldl_MakeDirty_eq, Pool.get_put_self _ _ _ hX]

theorem size_Update (m : MathLib) (s : Pool) (X : Ptr) : (Update m s X).size = s.size := by
  unfold Update
  split
  · rfl
  · simp only [Pool.size_put, size_foldl_MakeDirty]

theorem GetParentMatrix_MakeDirty (s : Pool) (c y : Ptr) :
    GetParentMatrix (MakeDirty s c) y = GetParentMatrix s y := by
  simp only [GetParentMatrix, GetParent_MakeDirty]
  cases GetParent s y with
  | none => rfl
  | some p =>
    simp only [GetWorldMatrix]
    rw [get_MakeDirty_eq]

/-! ## The claims -/

/-- C1, evaluated at the failing input: in the consistent forest `poolFork`
(root `A` with children `B` and `C`) the call `A.SetParent(C)` orphans `B`
only, because the orphaning loop indexes a children list that shrinks under
it; it then assigns `A.parent = C` while `C.parent` is still `A`, so the
parent relation is cyclic, and the call never returns. -/
theorem SetParent_fork_cycle :
    WellFormed poolFork ∧ Acyclic poolFork ∧ Consistent poolFork ∧
    IsDescendantOf 3 poolFork 2 0 = some true ∧
    orphanChildren 4 poolFork 0 0 = some poolForkRescued ∧
    GetParent poolForkRescued 2 = some 0 ∧
    ¬ Acyclic (poolForkRescued.setParentPtr 0 (some 2)) ∧
    ∀ fuel, SetParent fuel poolFork 0 (some 2) = none := by
  have h4 : orphanChildren 4 poolFork 0 0 = some poolForkRescued := by decide
  refine ⟨Pool.wellFormedB_sound (by decide), Pool.acyclicB_sound (by decide),
    Pool.consistentB_sound (by decide), by decide, h4, by decide, ?_, ?_⟩
  · intro hac
    obtain ⟨n, hn⟩ := hac 0 (by decide)
    have := (reachesRoot_two_cycle (s := poolForkRescued.setParentPtr 0 (some 2))
      (a := 0) (c := 2) (by decide) (by decide) n).1
    rw [this] at hn
    cases hn
  · intro fuel
    cases fuel with
    | zero => rfl
    | succ fuel =>
      have hid : GetID poolFork 2 ≠ GetID poolFork 0 := by decide
      have hpar : GetParent poolFork 0 = none := by decide
      have hhas : HasParent poolFork 0 = false := by decide
      have hparR : GetParent poolForkRescued 0 = none := by decide
      have hcyc1 : FindChildren fuel (poolFork.setParentPtr 0 (some 2)) 2 = none :=
        FindChildren_two_cycle fuel _ 0 2 (by decide) (by decide)
      have hcyc2 : FindChildren fuel (poolForkRescued.setParentPtr 0 (some 2)) 2 = none :=
        FindChildren_two_cycle fuel _ 0 2 (by decide) (by decide)
      simp only [SetParent, hid, if_false, hpar, hhas]
      cases hd : IsDescendantOf fuel poolFork 2 0 with
      | none => rfl
      | some b =>
        cases b with
        | false => simp [hpar, hcyc1]
        | true =>
          simp only [if_true]
          cases ho : orphanChildren fuel poolFork 0 0 with
          | none => rfl
          | some s1 =>
            have hs1 : s1 = poolForkRescued := by
              rcases Nat.le_total fuel 4 with hle | hle
              · have := orphanChildren_mono fuel 4 _ _ _ _ hle ho
                rw [h4] at this
                exact (Option.some.inj this).symm
              · have := orphanChildren_mono 4 fuel _ _ _ _ hle h4
                rw [ho] at this
                exact Option.some.inj this
            subst hs1
            simp [hparR, hcyc2]

/-- C2, evaluated at the failing input: in the consistent forest
`poolForkDeep` (root `A` with children `B` and `C`, `D` a child of `B`) the
call `A.SetParent(D)` returns with `A.parent = D` and `B` a root, but the
direct child `C` of the former root `A` still has `A` as its parent. In the
chain `poolChain` of the spec, where `A` has one child, `A.SetParent(C)` ends
with `A.parent = C`, `B` a root and `C.parent = B`. -/
theorem SetParent_rescue_skips_child :
    WellFormed poolForkDeep ∧ Acyclic poolForkDeep ∧ Consistent poolForkDeep ∧
    GetDescendants 3 poolForkDeep 0 = some [1, 3, 2] ∧
    GetChildren poolForkDeep 0 = [1, 2] ∧ GetParent poolForkDeep 0 = none ∧
    (∃ s', SetParent 6 poolForkDeep 0 (some 3) = some s' ∧
      GetParent s' 0 = some 3 ∧ GetParent s' 1 = none ∧ GetParent s' 2 = some 0) ∧
    (∃ s', SetParent 6 poolChain 0 (some 2) = some s' ∧
      GetParent s' 0 = some 2 ∧ GetParent s' 1 = none ∧ GetParent s' 2 = some 1) := by
  refine ⟨Pool.wellFormedB_sound (by decide), Pool.acyclicB_sound (by decide),
    Pool.consistentB_sound (by decide), by decide, by decide, by decide, ?_, ?_⟩
  · exact ⟨(SetParent 6 poolForkDeep 0 (some 3)).getD poolForkDeep, by decide, by decide,
      by decide, by decide⟩
  · exact ⟨(SetParent 6 poolChain 0 (some 2)).getD poolChain, by decide, by decide,
      by decide, by decide⟩

/-- C3, evaluated at the failing input: in the consistent forest `poolOXP`
(root `O` with child `X`, second root `P`) the call `X.SetParent(P)` returns
with `X.parent = P` and `X` in `P.GetChildren()`, but `X` is still in
`O.GetChildren()`: the old parent rebuilt its children list before the parent
pointer of `X` was changed, so the cached lists are no longer consistent. -/
theorem SetParent_leaves_stale_child :
    WellFormed poolOXP ∧ Acyclic poolOXP ∧ Consistent poolOXP ∧
    ∃ s', SetParent 3 poolOXP 1 (some 2) = some s' ∧
      GetParent s' 1 = some 2 ∧ GetChildren s' 2 = [1] ∧ GetChildren s' 0 = [1] ∧
      ¬ Consistent s' := by
  refine ⟨Pool.wellFormedB_sound (by decide), Pool.acyclicB_sound (by decide),
    Pool.consistentB_sound (by decide),
    (SetParent 3 poolOXP 1 (some 2)).getD poolOXP, by decide, by decide, by decide,
    by decide, ?_⟩
  intro hc
  have h1 : (1 : Ptr) ∈ GetChildren ((SetParent 3 poolOXP 1 (some 2)).getD poolOXP) 0 := by
    decide
  have := ((hc 0 1 (by decide)).mp h1).2
  revert this
  decide

/-- C4: `SetParent` in the ordinary case. In a consistent well-formed acyclic
pool, for a transform `X` and a candidate parent `P` of the pool whose ID
differs from that of `X`, that is not the current parent of `X` and is not a
descendant of `X`, `X.SetParent(P)` returns with enough fuel; afterwards
`X.GetParent()` is `P`, `X` occurs in `P.GetChildren()`, `X` is dirty, the
parent of every other transform is unchanged, and the local position, rotation
and scale of every transform are unchanged. -/
theorem SetParent_ordinary (s : Pool) (X P : Ptr) (wf : WellFormed s) (hac : Acyclic s)
    (hc : Consistent s) (hX : X < s.size) (hP : P < s.size)
    (hid : GetID s P ≠ GetID s X) (hpar : GetParent s X ≠ some P)
    (hdesc : ¬ (Anc s X P ∧ P ≠ X)) :
    ∃ fuel0, ∀ fuel, fuel0 ≤ fuel →
      ∃ s', SetParent fuel s X (some P) = some s' ∧
        GetParent s' X = some P ∧ X ∈ GetChildren s' P ∧ (s'.get X).isDirty = true ∧
        (∀ y, y ≠ X → GetParent s' y = GetParent s y) ∧
        (∀ y, (s'.get y).locals = (s.get y).locals) := by
  obtain ⟨d, hr⟩ := hac.ranked wf
  obtain ⟨B, hB⟩ := rank_bound s d
  have hPX : P ≠ X := fun h => hid (h ▸ rfl)
  have hnd : ¬ Anc s X P := fun h => hdesc ⟨h, hPX⟩
  obtain ⟨d', hr'⟩ := hr.reparent hX hnd
  obtain ⟨B', hB'⟩ := rank_bound (s.setParentPtr X (some P)) d'
  refine ⟨B + B' + 2, fun fuel hf => ?_⟩
  obtain ⟨fuel, rfl⟩ : ∃ k, fuel = k + 1 := ⟨fuel - 1, by omega⟩
  -- the two rejection tests fail
  have hsame : ∀ p, GetParent s X = some p → GetID s p ≠ GetID s P := by
    intro p hp h
    exact hpar (by rw [hp, wf.id_inj p P (wf.parent_lt X p hp) hP h])
  -- the descendant test fails
  obtain ⟨b, hb, hbiff⟩ := IsDescendantOf_spec wf hr hB hc fuel P X hP hX (by omega)
  have hbf : b = false := by
    cases b with
    | false => rfl
    | true => exact absurd (hbiff.mp rfl) hdesc
  subst hbf
  -- the old parent rebuilds its children list
  have h2 : ∃ s2, SameCore s s2 ∧ (GetParent s X = none → s2 = s) ∧
      ∀ p, GetParent s X = some p → FindChildren fuel s p = some s2 := by
    cases hp : GetParent s X with
    | none =>
      refine ⟨s, SameCore.refl s, fun _ => rfl, ?_⟩
      intro p h
      cases h
    | some p =>
      obtain ⟨s2, e, c1, -, -⟩ := FindChildren_spec wf hr hB fuel s p (SameCore.refl s)
        (wf.parent_lt X p hp) (by omega)
      refine ⟨s2, c1, ?_, ?_⟩
      · intro h
        cases h
      · intro q h
        cases h
        exact e
  obtain ⟨s2, c2, e2n, e2⟩ := h2
  -- the new parent rebuilds its children list
  have hX2 : X < s2.size := c2.1 ▸ hX
  have c3 : SameCore (s.setParentPtr X (some P)) (s2.setParentPtr X (some P)) := by
    refine ⟨by rw [size_setParentPtr, size_setParentPtr, c2.1], fun y => ?_⟩
    by_cases hy : y = X
    · subst hy
      rw [get_setParentPtr_self _ _ _ hX, get_setParentPtr_self _ _ _ hX2]
      have := c2.2 y
      simp only [Transform.core, Transform.mk.injEq] at this ⊢
      simp [this]
    · rw [get_setParentPtr_ne _ _ _ _ hy, get_setParentPtr_ne _ _ _ _ hy]
      exact c2.2 y
  have wf3 : WellFormed (s.setParentPtr X (some P)) :=
    wf.setParentPtr X (some P) hX (fun r hr => by cases hr; exact hP)
  obtain ⟨s4, e4, c4, -, k4⟩ := FindChildren_spec wf3 hr' hB' fuel
    (s2.setParentPtr X (some P)) P c3 (by rwa [size_setParentPtr]) (by omega)
  have hX4 : X < s4.size := by rw [← c4.1, size_setParentPtr]; exact hX
  refine ⟨MakeDirty s4 X, ?_, ?_, ?_, ?_, ?_, ?_⟩
  · cases hp : GetParent s X with
    | none =>
      have := e2n hp
      subst this
      simp [SetParent, hid, hp, hb, e4]
    | some p =>
      simp [SetParent, hid, hp, hsame p hp, hb, e2 p hp, e4]
  · rw [GetParent_MakeDirty, c4.parent, GetParent_setParentPtr_self _ _ _ hX]
  · rw [GetChildren_MakeDirty, k4 P Anc.refl, mem_childrenOf,
      GetParent_setParentPtr_self _ _ _ hX]
  · rw [get_MakeDirty_self _ _ hX4]
  · intro y hy
    rw [GetParent_MakeDirty, c4.parent, GetParent_setParentPtr_ne _ _ _ _ hy]
  · intro y
    rw [locals_MakeDirty, c4.locals, locals_setParentPtr]

/-- Witness of `SetParent_ordinary`: in `poolOXP`, `X.SetParent(P)`. -/
theorem SetParent_ordinary_witness :
    ∃ fuel0, ∀ fuel, fuel0 ≤ fuel →
      ∃ s', SetParent fuel poolOXP 1 (some 2) = some s' ∧
        GetParent s' 1 = some 2 ∧ 1 ∈ GetChildren s' 2 ∧ (s'.get 1).isDirty = true ∧
        (∀ y, y ≠ 1 → GetParent s' y = GetParent poolOXP y) ∧
        (∀ y, (s'.get y).locals = (poolOXP.get y).locals) :=
  SetParent_ordinary poolOXP 1 2 (Pool.wellFormedB_sound (by decide))
    (Pool.acyclicB_sound (by decide)) (Pool.consistentB_sound (by decide))
    (by decide) (by decide) (by decide) (by decide)
    (fun h => by
      have hroot : GetParent poolOXP 2 = none := by decide
      rcases h.1 with _ | ⟨hp, -⟩
      rw [hroot] at hp
      cases hp)

/-- C5: `SetParent` rejects a no-op without touching anything. When the
candidate parent has the ID of the transform itself, or the ID of its current
parent, `X.SetParent(P)` returns the pool unchanged: every parent pointer,
children list, dirty flag and local value is as before. -/
theorem SetParent_rejects_noop (s : Pool) (X P : Ptr) (fuel : Nat)
    (h : GetID s P = GetID s X ∨
      ∃ O, GetParent s X = some O ∧ GetID s O = GetID s P) :
    SetParent (fuel + 1) s X (some P) = some s := by
  rcases h with h | ⟨O, hO, h⟩
  · simp [SetParent, h]
  · simp [SetParent, hO, h]

/-- Witness of `SetParent_rejects_noop`: in `poolOXP`, `X.SetParent(O)` with `O`
already the parent of `X`. -/
theorem SetParent_rejects_noop_witness :
    SetParent (0 + 1) poolOXP 1 (some 0) = some poolOXP :=
  SetParent_rejects_noop poolOXP 1 0 0 (Or.inr ⟨0, by decide, by decide⟩)

/-- C6: orphaning. In a well-formed acyclic pool, for a transform `X` with
parent `O`, `X.BecomeOrphan()` and equally `X.SetParent(none)` return with
enough fuel; afterwards `X` has no parent, `X` is not in `O.GetChildren()`,
and the parent of every other transform is unchanged. On a transform that is
already a root, both return the pool unchanged. -/
theorem BecomeOrphan_detaches (s : Pool) (X : Ptr) (wf : WellFormed s) (hac : Acyclic s) :
    (∀ O, GetParent s X = some O →
      ∃ fuel0, ∀ fuel, fuel0 ≤ fuel →
        ∃ s', BecomeOrphan fuel s X = some s' ∧ SetParent (fuel + 1) s X none = some s' ∧
          GetParent s' X = none ∧ X ∉ GetChildren s' O ∧
          ∀ y, y ≠ X → GetParent s' y = GetParent s y) ∧
    (GetParent s X = none →
      ∀ fuel, BecomeOrphan fuel s X = some s ∧ SetParent (fuel + 1) s X none = some s) := by
  constructor
  · intro O hO
    obtain ⟨d, hr⟩ := hac.ranked wf
    obtain ⟨B, hB⟩ := rank_bound s d
    have hX : X < s.size := GetParent_lt_size hO
    have hOl : O < s.size := wf.parent_lt X O hO
    have wf1 : WellFormed (s.setParentPtr X none) :=
      wf.setParentPtr X none hX (fun r hr => by cases hr)
    have hr1 : Ranked (s.setParentPtr X none) d := hr.clearParent X
    refine ⟨B + 1, fun fuel hf => ?_⟩
    obtain ⟨s', e, c1, -, c3⟩ := FindChildren_spec wf1 hr1
      (fun x hx => hB x (by rwa [size_setParentPtr] at hx)) fuel (s.setParentPtr X none) O
      (SameCore.refl _) (by rwa [size_setParentPtr]) (by omega)
    have hb : BecomeOrphan fuel s X = some s' := by simp [BecomeOrphan, hO, e]
    refine ⟨s', hb, by simpa [SetParent] using hb, ?_, ?_, ?_⟩
    · rw [c1.parent, GetParent_setParentPtr_self _ _ _ hX]
    · rw [c3 O Anc.refl, mem_childrenOf, GetParent_setParentPtr_self _ _ _ hX]
      simp
    · intro y hy
      rw [c1.parent, GetParent_setParentPtr_ne _ _ _ _ hy]
  · intro hroot fuel
    have hb : BecomeOrphan fuel s X = some s := by simp [BecomeOrphan, hroot]
    exact ⟨hb, by simpa [SetParent] using hb⟩

/-- Witness of `BecomeOrphan_detaches`: in `poolOXP`, orphaning `X`. -/
theorem BecomeOrphan_detaches_witness :
    (∀ O, GetParent poolOXP 1 = some O →
      ∃ fuel0, ∀ fuel, fuel0 ≤ fuel →
        ∃ s', BecomeOrphan fuel poolOXP 1 = some s' ∧
          SetParent (fuel + 1) poolOXP 1 none = some s' ∧
          GetParent s' 1 = none ∧ 1 ∉ GetChildren s' O ∧
          ∀ y, y ≠ 1 → GetParent s' y = GetParent poolOXP y) ∧
    (GetParent poolOXP 1 = none →
      ∀ fuel, BecomeOrphan fuel poolOXP 1 = some poolOXP ∧
        SetParent (fuel + 1) poolOXP 1 none = some poolOXP) :=
  BecomeOrphan_detaches poolOXP 1 (Pool.wellFormedB_sound (by decide))
    (Pool.acyclicB_sound (by decide))

/-- C7: dirty propagation by `Update`. For a dirty transform `X` of the pool,
`X.Update()` clears the dirty flag of `X`, sets the dirty flag of every pool
transform in the cached children list of `X` (a transform is never its own
cached child, and the flag of `X` itself ends cleared), and changes the dirty
flag of no other transform. For a transform that is not dirty `X.Update()`
returns the pool unchanged. After a change of the local position of `X`, `X`
is dirty, and after the following `X.Update()` it is clean and all its cached
children are dirty. -/
theorem Update_dirty_propagation (m : MathLib) (s : Pool) (X : Ptr) (hX : X < s.size) :
    ((s.get X).isDirty = true →
      ((Update m s X).get X).isDirty = false ∧
      (∀ c, c ∈ GetChildren s X → c < s.size → c ≠ X →
        ((Update m s X).get c).isDirty = true) ∧
      (∀ y, y ≠ X → y ∉ GetChildren s X →
        ((Update m s X).get y).isDirty = (s.get y).isDirty)) ∧
    ((s.get X).isDirty = false → Update m s X = s) ∧
    (∀ v, (s.get X).positionLocal ≠ v →
      ((SetPositionLocal s X v).get X).isDirty = true ∧
      ((Update m (SetPositionLocal s X v) X).get X).isDirty = false ∧
      ∀ c, c ∈ GetChildren s X → c < s.size → c ≠ X →
        ((Update m (SetPositionLocal s X v) X).get c).isDirty = true) := by
  refine ⟨Update_flags m s X hX, fun h => by simp [Update, h], fun v hv => ?_⟩
  have hg := get_SetPositionLocal_self s X v hX hv
  have hd : ((SetPositionLocal s X v).get X).isDirty = true := by rw [hg]
  have hX' : X < (SetPositionLocal s X v).size := by rw [size_SetPositionLocal]; exact hX
  obtain ⟨h1, h2, -⟩ := Update_flags m (SetPositionLocal s X v) X hX' hd
  refine ⟨hd, h1, fun c hc hcl hcX => h2 c ?_ (by rw [size_SetPositionLocal]; exact hcl) hcX⟩
  rw [GetChildren, hg]
  exact hc

/-- Witness of `Update_dirty_propagation`: in `poolOXP`, updating `O`. -/
theorem Update_dirty_propagation_witness :
    ((poolOXP.get 0).isDirty = true →
      ((Update sampleMath poolOXP 0).get 0).isDirty = false ∧
      (∀ c, c ∈ GetChildren poolOXP 0 → c < poolOXP.size → c ≠ 0 →
        ((Update sampleMath poolOXP 0).get c).isDirty = true) ∧
      (∀ y, y ≠ 0 → y ∉ GetChildren poolOXP 0 →
        ((Update sampleMath poolOXP 0).get y).isDirty = (poolOXP.get y).isDirty)) ∧
    ((poolOXP.get 0).isDirty = false → Update sampleMath poolOXP 0 = poolOXP) ∧
    (∀ v, (poolOXP.get 0).positionLocal ≠ v →
      ((SetPositionLocal poolOXP 0 v).get 0).isDirty = true ∧
      ((Update sampleMath (SetPositionLocal poolOXP 0 v) 0).get 0).isDirty = false ∧
      ∀ c, c ∈ GetChildren poolOXP 0 → c < poolOXP.size → c ≠ 0 →
        ((Update sampleMath (SetPositionLocal poolOXP 0 v) 0).get c).isDirty = true) :=
  Update_dirty_propagation sampleMath poolOXP 0 (by decide)

/-- C8: the local setters compare and skip. For each of `SetPositionLocal`,
`SetRotationLocal` and `SetScaleLocal`: when the value equals the stored local
value the call returns the pool unchanged; otherwise the transform afterwards
is the old one with the new local value stored and the dirty flag set (so the
other two local values, the parent and the children list are as before), and
every other transform is unchanged. -/
theorem local_setters_compare_and_skip (s : Pool) (X : Ptr) (hX : X < s.size) :
    (∀ v : Vector3,
      ((s.get X).positionLocal = v → SetPositionLocal s X v = s) ∧
      ((s.get X).positionLocal ≠ v →
        (SetPositionLocal s X v).get X = { s.get X with positionLocal := v, isDirty := true } ∧
        ∀ y, y ≠ X → (SetPositionLocal s X v).get y = s.get y)) ∧
    (∀ q : Quaternion,
      ((s.get X).rotationLocal = q → SetRotationLocal s X q = s) ∧
      ((s.get X).rotationLocal ≠ q →
        (SetRotationLocal s X q).get X = { s.get X with rotationLocal := q, isDirty := true } ∧
        ∀ y, y ≠ X → (SetRotationLocal s X q).get y = s.get y)) ∧
    (∀ v : Vector3,
      ((s.get X).scaleLocal = v → SetScaleLocal s X v = s) ∧
      ((s.get X).scaleLocal ≠ v →
        (SetScaleLocal s X v).get X = { s.get X with scaleLocal := v, isDirty := true } ∧
        ∀ y, y ≠ X → (SetScaleLocal s X v).get y = s.get y)) := by
  refine ⟨fun v => ⟨fun h => by simp [SetPositionLocal, h], fun h =>
      ⟨get_SetPositionLocal_self s X v hX h, fun y hy => get_SetPositionLocal_ne s X y v hy⟩⟩,
    fun q => ⟨fun h => by simp [SetRotationLocal, h], fun h =>
      ⟨get_SetRotationLocal_self s X q hX h, fun y hy => get_SetRotationLocal_ne s X y q hy⟩⟩,
    fun v => ⟨fun h => by simp [SetScaleLocal, h], fun h =>
      ⟨get_SetScaleLocal_self s X v hX h, fun y hy => get_SetScaleLocal_ne s X y v hy⟩⟩⟩

/-- Witness of `local_setters_compare_and_skip`: in `poolOXP`, the setters of
`X`. -/
theorem local_setters_compare_and_skip_witness :
    (∀ v : Vector3,
      ((poolOXP.get 1).positionLocal = v → SetPositionLocal poolOXP 1 v = poolOXP) ∧
      ((poolOXP.get 1).positionLocal ≠ v →
        (SetPositionLocal poolOXP 1 v).get 1 =
          { poolOXP.get 1 with positionLocal := v, isDirty := true } ∧
        ∀ y, y ≠ 1 → (SetPositionLocal poolOXP 1 v).get y = poolOXP.get y)) ∧
    (∀ q : Quaternion,
      ((poolOXP.get 1).rotationLocal = q → SetRotationLocal poolOXP 1 q = poolOXP) ∧
      ((poolOXP.get 1).rotationLocal ≠ q →
        (SetRotationLocal poolOXP 1 q).get 1 =
          { poolOXP.get 1 with rotationLocal := q, isDirty := true } ∧
        ∀ y, y ≠ 1 → (SetRotationLocal poolOXP 1 q).get y = poolOXP.get y)) ∧
    (∀ v : Vector3,
      ((poolOXP.get 1).scaleLocal = v → SetScaleLocal poolOXP 1 v = poolOXP) ∧
      ((poolOXP.get 1).scaleLocal ≠ v →
        (SetScaleLocal poolOXP 1 v).get 1 =
          { poolOXP.get 1 with scaleLocal := v, isDirty := true } ∧
        ∀ y, y ≠ 1 → (SetScaleLocal poolOXP 1 v).get y = poolOXP.get y)) :=
  local_setters_compare_and_skip poolOXP 1 (by decide)

/-- C9, evaluated at the failing input: from the freshly constructed
transforms `P` and `X`, the run `X.SetParent(P)`, `P.SetPositionLocal((1,0,0))`,
`P.Update()`, `X.Update()`, `X.BecomeOrphan()` returns, for every math
library, a pool in which `X` is clean and has no parent while its cached world
matrix is still the translation by `(1, 0, 0)` it had under `P`, not its local
matrix times the identity: `BecomeOrphan` clears the parent without marking the
transform dirty. -/
theorem BecomeOrphan_keeps_stale_world_matrix :
    ∀ (m : MathLib) (nullID : String),
      runOps m nullID 3 (Pool.fresh ["P", "X"]) staleWorldOps = some (staleWorldPool m) ∧
      Reachable m nullID (staleWorldPool m) ∧
      ((staleWorldPool m).get 1).isDirty = false ∧
      GetParent (staleWorldPool m) 1 = none ∧
      ((staleWorldPool m).get 1).worldMatrix = Matrix.CreateTranslation ⟨1, 0, 0⟩ ∧
      ((staleWorldPool m).get 1).localMatrix.mul (GetParentMatrix (staleWorldPool m) 1)
        = Matrix.Identity ∧
      ¬ CleanIsCurrent (staleWorldPool m) 1 := by
  intro m nullID
  have hw : ((staleWorldPool m).get 1).worldMatrix = Matrix.CreateTranslation ⟨1, 0, 0⟩ := rfl
  have hl : ((staleWorldPool m).get 1).localMatrix.mul (GetParentMatrix (staleWorldPool m) 1)
      = Matrix.Identity := rfl
  refine ⟨staleWorld_run m nullID, ⟨["P", "X"], staleWorldOps, 3, staleWorld_run m nullID⟩,
    rfl, rfl, hw, hl, fun h => ?_⟩
  have h1 := h rfl
  rw [hw, hl] at h1
  revert h1
  decide

/-- C10: entity serialization round trip. For every entity subtree in which
every child reference is live, every component type tag is recognised and
every entity has its transform, and for component variants that read back the
body they wrote, `GameObject::Serialize` returns, and `GameObject::Deserialize`
on a fresh entity, run on the values it wrote (followed by any further values
`rest`), returns with enough fuel, consumes exactly the values written, and
yields a subtree with the same number of entities and the same shape: per
entity the same header fields and the same sequence of component type tags and
IDs, and the same children in the same order. -/
theorem GameObject.serialization_round_trip (lib : ComponentLib) (hlib : lib.RoundTrips)
    (g : GameObject) (hg : g.serializable = true) (fuel : Nat) (hf : g.depth ≤ fuel)
    (rest : List Token) :
    ∃ values g1, g.Serialize lib = some values ∧
      GameObject.Deserialize lib fuel (values ++ rest) [] = some (g1, rest) ∧
      g1.count = g.count ∧ GameObject.sameShape g1 g = true := by
  obtain ⟨values, ev, hread⟩ := GameObject.Deserialize_written lib hlib g hg fuel hf
  obtain ⟨g1, e, hs⟩ := hread rest
  exact ⟨values, g1, ev, e, GameObject.count_of_sameShape g1 g hs, hs⟩

/-- Witness of `GameObject.serialization_round_trip`: the sample subtree of
four entities with `Skybox`-like components, read back from exactly the values
written. -/
theorem GameObject.serialization_round_trip_witness :
    ∃ values g1, sampleTree.Serialize skyboxLib = some values ∧
      GameObject.Deserialize skyboxLib 3 (values ++ []) [] = some (g1, []) ∧
      g1.count = sampleTree.count ∧ GameObject.sameShape g1 sampleTree = true :=
  GameObject.serialization_round_trip skyboxLib
    (fun c rest => ⟨c.shell skyboxLib, rfl, rfl, rfl⟩) sampleTree (by decide) 3 (by decide) []

/-- C11: entity record layout. For an entity that has its transform and whose
children `kids` are all live, when `GameObject::Serialize` on the children
returns the records `records`, one per child, `GameObject::Serialize` on the
entity returns, and it writes, in this order, `is_prefab`, `is_active`,
`hierarchy_visible`, the ID, the name, the component count, type tag and ID of
every component in attachment order, the body of every component in the same
order, the number of children, one ID per child, and then the complete record
of every child in children order. When all child references below the
children are live as well and every entity of the subtree has its transform,
the output is the concatenation of the records of the entities of the subtree
in pre-order, one record per entity. On an entity without a transform the call
reads the children through the null pointer and does not return. -/
theorem GameObject.Serialize_record_layout (lib : ComponentLib)
    (isPrefab isActive hierarchyVisibility : Bool) (ID : Nat) (name : String)
    (components : List Component) (kids : List (Nat × GameObject)) :
    (∀ records : List (List Token), (GetTransform components).isSome = true →
      kids.map (fun k => GameObject.Serialize lib k.2) = records.map some →
      (GameObject.mk isPrefab isActive hierarchyVisibility ID name components
          (ChildList.ofList kids)).Serialize lib =
        some ([Token.bool isPrefab, Token.bool isActive, Token.bool hierarchyVisibility,
            Token.uint ID, Token.str name, Token.int components.length]
          ++ (components.map (fun c => [Token.str c.g_typeStr, Token.uint c.g_ID])).flatten
          ++ (components.map lib.Serialize).flatten
          ++ [Token.int kids.length]
          ++ kids.map (fun k => Token.uint k.1)
          ++ records.flatten)) ∧
    ((ChildList.ofList kids).allLive = true →
      (∀ e ∈ (GameObject.mk isPrefab isActive hierarchyVisibility ID name components
          (ChildList.ofList kids)).preorder, (GetTransform e.m_components).isSome = true) →
      (GameObject.mk isPrefab isActive hierarchyVisibility ID name components
          (ChildList.ofList kids)).Serialize lib =
        some ((GameObject.mk isPrefab isActive hierarchyVisibility ID name components
          (ChildList.ofList kids)).preorder.map (GameObject.record lib)).flatten ∧
      (GameObject.mk isPrefab isActive hierarchyVisibility ID name components
          (ChildList.ofList kids)).preorder.length =
        (GameObject.mk isPrefab isActive hierarchyVisibility ID name components
          (ChildList.ofList kids)).count) ∧
    (GetTransform components = none →
      (GameObject.mk isPrefab isActive hierarchyVisibility ID name components
          (ChildList.ofList kids)).Serialize lib = none) := by
  refine ⟨fun records ht hk => ?_,
    fun hl ht => ⟨GameObject.Serialize_preorder lib _ hl ht, GameObject.length_preorder _⟩,
    fun ht => GameObject.Serialize_without_transform lib _ ht⟩
  rw [GameObject.Serialize_eq_record lib (GameObject.mk isPrefab isActive hierarchyVisibility
    ID name components (ChildList.ofList kids)) ht, ChildList.ofList_eq_prepend]
  simp only [GameObject.record, GameObject.children,
    ChildList.SerializeEach_prepend lib kids records ChildList.nil hk,
    ChildList.size_prepend, ChildList.ids_prepend, ChildList.size, ChildList.ids,
    ChildList.SerializeEach, List.append_nil, Nat.add_zero, List.map_map, Option.map_some']
  rfl

/-- Witness of `GameObject.Serialize_record_layout`: a root with two leaf
children whose components are `Skybox`-like. -/
theorem GameObject.Serialize_record_layout_witness :
    ((GetTransform [⟨"Transform", 101, []⟩]).isSome = true ∧
      [(103, sampleLeaf 3 "a"), (104, sampleLeaf 4 "b")].map
          (fun k => GameObject.Serialize skyboxLib k.2)
        = [(sampleLeaf 3 "a").record skyboxLib, (sampleLeaf 4 "b").record skyboxLib].map some ∧
      (GameObject.mk true true false 1 "root" [⟨"Transform", 101, []⟩]
          (ChildList.ofList [(103, sampleLeaf 3 "a"), (104, sampleLeaf 4 "b")])).Serialize
          skyboxLib =
        some ([Token.bool true, Token.bool true, Token.bool false, Token.uint 1,
            Token.str "root", Token.int 1]
          ++ [Token.str "Transform", Token.uint 101]
          ++ [Token.int 2]
          ++ [Token.uint 103, Token.uint 104]
          ++ ((sampleLeaf 3 "a").record skyboxLib ++ (sampleLeaf 4 "b").record skyboxLib))) ∧
    ((ChildList.ofList [(103, sampleLeaf 3 "a"), (104, sampleLeaf 4 "b")]).allLive = true ∧
      (GameObject.mk true true false 1 "root" [⟨"Transform", 101, []⟩]
          (ChildList.ofList [(103, sampleLeaf 3 "a"), (104, sampleLeaf 4 "b")])).Serialize
          skyboxLib =
        some ((GameObject.mk true true false 1 "root" [⟨"Transform", 101, []⟩]
          (ChildList.ofList [(103, sampleLeaf 3 "a"), (104, sampleLeaf 4 "b")])).preorder.map
          (GameObject.record skyboxLib)).flatten) :=
  ⟨⟨by decide, by decide,
      (by simpa using ((GameObject.Serialize_record_layout skyboxLib true true false 1 "root"
        [⟨"Transform", 101, []⟩] [(103, sampleLeaf 3 "a"), (104, sampleLeaf 4 "b")]).1
        [(sampleLeaf 3 "a").record skyboxLib, (sampleLeaf 4 "b").record skyboxLib]
        (by decide) (by decide)))⟩,
    ⟨by decide,
      ((GameObject.Serialize_record_layout skyboxLib true true false 1 "root"
        [⟨"Transform", 101, []⟩] [(103, sampleLeaf 3 "a"), (104, sampleLeaf 4 "b")]).2.1
        (by decide) (by decide)).1⟩⟩

/-- C12: transform body round trip. `Transform::Serialize` writes the local
position, the local rotation, the local scale, the look-at vector and then the
ID of the parent entity, or the reserved null ID when there is no parent, in
that order, and these values are read back in the same order. For a transform
whose parent entity, if it has one, is in the registry under an ID other than
the reserved one, `Transform::Deserialize` of that output on a transform
without parent (a fresh one) restores the local position, rotation and scale
and the look-at vector, leaves the transform dirty, leaves a root a root, and
sets the parent to a game object of the registry with the ID of the parent;
in a well-formed registry that holds the parent under its ID this is the
parent itself. -/
theorem Transform_body_round_trip (nullID : String) (s t : Pool) (x y : Ptr)
    (rest : List Token) (hy : y < t.size) (hfresh : GetParent t y = none)
    (hpresent : ∀ p, GetParent s x = some p →
      GetID s p ≠ nullID ∧ ∃ q, q < t.size ∧ GetID t q = GetID s p) :
    (Serialize nullID s x).write =
      [Token.vector3 (s.get x).positionLocal, Token.quaternion (s.get x).rotationLocal,
        Token.vector3 (s.get x).scaleLocal, Token.vector3 (s.get x).lookAt,
        Token.str ((GetParent s x).elim nullID (GetID s))] ∧
    TransformBody.read ((Serialize nullID s x).write ++ rest)
      = some (Serialize nullID s x, rest) ∧
    ((Deserialize nullID t y (Serialize nullID s x)).get y).locals = (s.get x).locals ∧
    ((Deserialize nullID t y (Serialize nullID s x)).get y).lookAt = (s.get x).lookAt ∧
    ((Deserialize nullID t y (Serialize nullID s x)).get y).isDirty = true ∧
    (GetParent s x = none → GetParent (Deserialize nullID t y (Serialize nullID s x)) y = none) ∧
    (∀ p, GetParent s x = some p →
      ∃ q, GetParent (Deserialize nullID t y (Serialize nullID s x)) y = some q ∧
        q < t.size ∧ GetID t q = GetID s p) ∧
    (∀ p, GetParent s x = some p → WellFormed t → p < t.size → GetID t p = GetID s p →
      GetParent (Deserialize nullID t y (Serialize nullID s x)) y = some p) := by
  obtain ⟨g1, g2, g3⟩ := get_Deserialize nullID t y (Serialize nullID s x) hy
  have hfound : ∀ p, GetParent s x = some p →
      ∃ q, GetParent (Deserialize nullID t y (Serialize nullID s x)) y = some q ∧
        q < t.size ∧ GetID t q = GetID s p := by
    intro p hp
    obtain ⟨hne, q, hq, hid⟩ := hpresent p hp
    have hbody : (Serialize nullID s x).parentGameObjectID = GetID s p := by
      simp [Serialize, hp]
    obtain ⟨r, hr, hrl, hrid⟩ := GetGameObjectByID_present t (GetID s p) q hq hid
    exact ⟨r, GetParent_Deserialize_found nullID t y _ hy (by rw [hbody]; exact hne) r
      (by rw [hbody]; exact hr), hrl, hrid⟩
  refine ⟨?_, rfl, g1, g2, g3, ?_, hfound, ?_⟩
  · cases hp : GetParent s x <;> simp [TransformBody.write, Serialize, hp]
  · intro hroot
    rw [GetParent_Deserialize_sentinel nullID t y _ (by simp [Serialize, hroot])]
    exact hfresh
  · intro p hp wf hpl hid
    obtain ⟨q, hq, hql, hqid⟩ := hfound p hp
    rw [hq, wf.id_inj q p hql hpl (hqid.trans hid.symm)]

/-- Witness of `Transform_body_round_trip`: the body of `X` of `poolOXP`, whose
parent is `O`, read into the root `P` of the same pool. -/
theorem Transform_body_round_trip_witness :
    (Serialize "null" poolOXP 1).write =
      [Token.vector3 (poolOXP.get 1).positionLocal,
        Token.quaternion (poolOXP.get 1).rotationLocal,
        Token.vector3 (poolOXP.get 1).scaleLocal, Token.vector3 (poolOXP.get 1).lookAt,
        Token.str ((GetParent poolOXP 1).elim "null" (GetID poolOXP))] ∧
    TransformBody.read ((Serialize "null" poolOXP 1).write ++ [])
      = some (Serialize "null" poolOXP 1, []) ∧
    ((Deserialize "null" poolOXP 2 (Serialize "null" poolOXP 1)).get 2).locals
      = (poolOXP.get 1).locals ∧
    ((Deserialize "null" poolOXP 2 (Serialize "null" poolOXP 1)).get 2).lookAt
      = (poolOXP.get 1).lookAt ∧
    ((Deserialize "null" poolOXP 2 (Serialize "null" poolOXP 1)).get 2).isDirty = true ∧
    (GetParent poolOXP 1 = none →
      GetParent (Deserialize "null" poolOXP 2 (Serialize "null" poolOXP 1)) 2 = none) ∧
    (∀ p, GetParent poolOXP 1 = some p →
      ∃ q, GetParent (Deserialize "null" poolOXP 2 (Serialize "null" poolOXP 1)) 2 = some q ∧
        q < poolOXP.size ∧ GetID poolOXP q = GetID poolOXP p) ∧
    (∀ p, GetParent poolOXP 1 = some p → WellFormed poolOXP → p < poolOXP.size →
      GetID poolOXP p = GetID poolOXP p →
      GetParent (Deserialize "null" poolOXP 2 (Serialize "null" poolOXP 1)) 2 = some p) :=
  Transform_body_round_trip "null" poolOXP poolOXP 1 2 [] (by decide) (by decide)
    (fun p hp => by
      have h0 : GetParent poolOXP 1 = some 0 := by decide
      rw [h0] at hp
      cases hp
      exact ⟨by decide, 0, by decide, rfl⟩)

/-- C13, the claim as stated fails: in `poolOXP` the transform `X` has the
parent `O`, and after `Transform::Deserialize` of a body whose parent field is
the reserved ID it still has the parent `O`. -/
theorem Deserialize_sentinel_keeps_parent :
    ¬ ∀ (nullID : String) (s : Pool) (x : Ptr) (b : TransformBody), x < s.size →
      b.parentGameObjectID = nullID →
      HasParent (Deserialize nullID s x b) x = false ∧
        IsRoot (Deserialize nullID s x b) x = true := by
  intro h
  have h1 := (h "null" poolOXP 1
    ⟨Vector3.Zero, Quaternion.Identity, Vector3.One, Vector3.Zero, "null"⟩ (by decide) rfl).1
  revert h1
  decide

/-- C13, amended: `Transform::Deserialize` of a body whose parent field is the
reserved ID leaves the parent of the transform as it was before the call; so a
transform that had no parent before, such as a freshly constructed one, has
none afterwards (`HasParent()` is false, `IsRoot()` is true). -/
theorem Deserialize_sentinel_parent_unchanged (nullID : String) (s : Pool) (x : Ptr)
    (b : TransformBody) (hb : b.parentGameObjectID = nullID) :
    GetParent (Deserialize nullID s x b) x = GetParent s x ∧
    (GetParent s x = none →
      HasParent (Deserialize nullID s x b) x = false ∧
        IsRoot (Deserialize nullID s x b) x = true) := by
  have h := GetParent_Deserialize_sentinel nullID s x b hb
  refine ⟨h, fun hroot => ?_⟩
  simp [HasParent, IsRoot, h, hroot]

/-- Witness of `Deserialize_sentinel_parent_unchanged`: the root `P` of
`poolOXP` stays a root. -/
theorem Deserialize_sentinel_parent_unchanged_witness :
    GetParent (Deserialize "null" poolOXP 2
        ⟨Vector3.Zero, Quaternion.Identity, Vector3.One, Vector3.Zero, "null"⟩) 2
      = GetParent poolOXP 2 ∧
    (GetParent poolOXP 2 = none →
      HasParent (Deserialize "null" poolOXP 2
          ⟨Vector3.Zero, Quaternion.Identity, Vector3.One, Vector3.Zero, "null"⟩) 2 = false ∧
        IsRoot (Deserialize "null" poolOXP 2
          ⟨Vector3.Zero, Quaternion.Identity, Vector3.One, Vector3.Zero, "null"⟩) 2 = true) :=
  Deserialize_sentinel_parent_unchanged "null" poolOXP 2
    ⟨Vector3.Zero, Quaternion.Identity, Vector3.One, Vector3.Zero, "null"⟩ rfl

/-- C14: closed component dispatch. `AddComponentBasedOnType(typeStr)` returns
a component exactly when `typeStr` is, character for character, one of the
thirteen tags `Transform`, `MeshFilter`, `MeshRenderer`, `Light`, `Camera`,
`Skybox`, `RigidBody`, `Collider`, `Hinge`, `Script`, `LineRenderer`,
`AudioSource`, `AudioListener`. In that case it is the one call of
`AddComponent` for that variant, which attaches exactly one component, of that
variant, and returns it; for every other string it returns the null pointer
and leaves the components of the entity unchanged. -/
theorem AddComponentBasedOnType_closed_dispatch (lib : ComponentLib)
    (components : List Component) (typeStr : String) :
    ((AddComponentBasedOnType lib components typeStr).2.isSome = true ↔
      typeStr ∈ ["Transform", "MeshFilter", "MeshRenderer", "Light", "Camera", "Skybox",
        "RigidBody", "Collider", "Hinge", "Script", "LineRenderer", "AudioSource",
        "AudioListener"]) ∧
    (typeStr ∈ recognisedTags →
      AddComponentBasedOnType lib components typeStr = AddComponent lib components typeStr ∧
      ∃ c, c.g_typeStr = typeStr ∧
        (AddComponentBasedOnType lib components typeStr).1 = components ++ [c] ∧
        (AddComponentBasedOnType lib components typeStr).2 = some components.length) ∧
    (typeStr ∉ recognisedTags →
      AddComponentBasedOnType lib components typeStr = (components, none)) := by
  have hrec : typeStr ∈ recognisedTags →
      AddComponentBasedOnType lib components typeStr =
        (components ++ [⟨typeStr, lib.GenerateID typeStr, lib.Construct typeStr⟩],
          some components.length) :=
    AddComponentBasedOnType_recognised lib components typeStr
  have hun := AddComponentBasedOnType_unrecognised lib components typeStr
  refine ⟨?_, fun h => ?_, hun⟩
  · constructor
    · intro hsome
      by_contra hn
      rw [hun hn] at hsome
      cases hsome
    · intro h
      rw [hrec h]
      rfl
  · rw [hrec h]
    exact ⟨rfl, ⟨typeStr, lib.GenerateID typeStr, lib.Construct typeStr⟩, rfl, rfl, rfl⟩

/-- Witness of `AddComponentBasedOnType_closed_dispatch`: `Light` attaches a
light, and `light` attaches nothing. -/
theorem AddComponentBasedOnType_closed_dispatch_witness :
    (AddComponentBasedOnType skyboxLib [⟨"Transform", 7, []⟩] "Light"
      = ([⟨"Transform", 7, []⟩, ⟨"Light", 0, []⟩], some 1)) ∧
    (AddComponentBasedOnType skyboxLib [⟨"Transform", 7, []⟩] "light"
      = ([⟨"Transform", 7, []⟩], none)) :=
  ⟨((AddComponentBasedOnType_closed_dispatch skyboxLib [⟨"Transform", 7, []⟩] "Light").2.1
      (by decide)).1,
    (AddComponentBasedOnType_closed_dispatch skyboxLib [⟨"Transform", 7, []⟩] "light").2.2
      (by decide)⟩

/-- C15, evaluated at the failing input: on a stream whose component list
holds the type tag `Unknown`, `AddComponentBasedOnType` returns the null
pointer and the first components loop of `GameObject::Deserialize` stores the
ID through it, so `Deserialize` does not complete, whatever the component
variants are; with the recognised tag `Skybox` in its place it completes. -/
theorem Deserialize_unknown_tag_null_store :
    ∀ lib : ComponentLib,
      AddComponentBasedOnType lib [] "Unknown" = ([], none) ∧
      readComponentShells lib 1 [Token.str "Unknown", Token.uint 5, Token.int 0] [] = none ∧
      (∀ fuel, GameObject.Deserialize lib fuel unknownTagStream [] = none) ∧
      (GameObject.Deserialize skyboxLib 1
          [Token.bool false, Token.bool true, Token.bool true, Token.uint 1,
            Token.str "GameObject", Token.int 1, Token.str "Skybox", Token.uint 5,
            Token.int 0] []).isSome = true := by
  intro lib
  have h1 : AddComponentBasedOnType lib [] "Unknown" = ([], none) :=
    AddComponentBasedOnType_unrecognised lib [] "Unknown" (by decide)
  have h2 : readComponentShells lib 1 [Token.str "Unknown", Token.uint 5, Token.int 0] []
      = none := by
    simp [readComponentShells, readStr, readUInt, h1]
  refine ⟨h1, h2, ?_, by decide⟩
  intro fuel
  cases fuel with
  | zero => rfl
  | succ fuel =>
    simp [GameObject.Deserialize, unknownTagStream, readBool, readUInt, readStr, readInt, h2]

/-- C16: component removal preserves order. After `RemoveComponentByID(id)` the
components are the original ones without every component whose ID is `id`, the
others in their original order; when no component has that ID the components
are unchanged. -/
theorem RemoveComponentByID_keeps_order (components : List Component) (id : Nat) :
    RemoveComponentByID components id = components.filter (fun c => decide (c.g_ID ≠ id)) ∧
    (RemoveComponentByID components id).Sublist components ∧
    (∀ c, c ∈ RemoveComponentByID components id ↔ c ∈ components ∧ c.g_ID ≠ id) ∧
    ((∀ c ∈ components, c.g_ID ≠ id) → RemoveComponentByID components id = components) := by
  have h : RemoveComponentByID components id
      = components.filter (fun c => decide (c.g_ID ≠ id)) := by
    simp [RemoveComponentByID, removeComponentLoop_eq]
  refine ⟨h, ?_, ?_, ?_⟩
  · rw [h]; exact List.filter_sublist _
  · intro c
    rw [h]
    simp [List.mem_filter]
  · intro hall
    rw [h, List.filter_eq_self]
    intro c hc
    simpa using hall c hc

/-- Witness of `RemoveComponentByID_keeps_order`: removing an ID that no
component has. -/
theorem RemoveComponentByID_keeps_order_witness :
    RemoveComponentByID [⟨"Transform", 7, []⟩, ⟨"Light", 8, []⟩] 9
      = [⟨"Transform", 7, []⟩, ⟨"Light", 8, []⟩] :=
  (RemoveComponentByID_keeps_order [⟨"Transform", 7, []⟩, ⟨"Light", 8, []⟩] 9).2.2.2
    (by decide)

/-- C17: lifecycle dispatch. `GameObject::Update` on an inactive entity calls
`Update` on no component; on an active entity it calls `Update` on every
component exactly once, in attachment order. `GameObject::Start` and
`GameObject::OnDisable` call `Start`, respectively `OnDisable`, on every
component exactly once, in attachment order, whether or not the entity is
active. -/
theorem GameObject.lifecycle_dispatch (g : GameObject) (calls : List LifecycleCall) :
    (g.m_isActive = false → g.Update calls = calls) ∧
    (g.m_isActive = true →
      g.Update calls = calls ++ g.m_components.map LifecycleCall.Update) ∧
    g.Start calls = calls ++ g.m_components.map LifecycleCall.Start ∧
    g.OnDisable calls = calls ++ g.m_components.map LifecycleCall.OnDisable := by
  refine ⟨fun h => by simp [GameObject.Update, h], fun h => ?_, ?_, ?_⟩
  · simp only [GameObject.Update, h, Bool.true_eq_false, if_false]
    exact foldl_append_singleton _ _ _
  · exact foldl_append_singleton _ _ _
  · exact foldl_append_singleton _ _ _

/-- Witness of `GameObject.lifecycle_dispatch`: the active sample leaf. -/
theorem GameObject.lifecycle_dispatch_witness :
    (sampleLeaf 3 "a").Update []
      = [] ++ (sampleLeaf 3 "a").m_components.map LifecycleCall.Update :=
  (GameObject.lifecycle_dispatch (sampleLeaf 3 "a") []).2.1 (by decide)

/-- C18, evaluated at the failing input: `GetChildByIndex` returns the child at
an index from zero up to the children count and the null pointer at an index
from the count on or on a transform without children, but on a transform that
has children a negative index passes the only test, `index >= count`, and
`m_children` is read outside its bounds; so it is for `O.GetChildByIndex(-1)`
in `poolOXP`. -/
theorem GetChildByIndex_negative_index :
    GetChildren poolOXP 0 = [1] ∧
    GetChildByIndex poolOXP 0 0 = ChildLookup.child 1 ∧
    GetChildByIndex poolOXP 0 1 = ChildLookup.null ∧
    GetChildByIndex poolOXP 0 (-1) = ChildLookup.outOfBounds ∧
    (∀ (s : Pool) (self : Ptr) (index : Int), index < 0 → GetChildren s self ≠ [] →
      GetChildByIndex s self index = ChildLookup.outOfBounds) ∧
    (∀ (s : Pool) (self : Ptr) (index : Int), GetChildrenCount s self ≤ index →
      GetChildByIndex s self index = ChildLookup.null) ∧
    (∀ (s : Pool) (self : Ptr) (i : Nat) (h : i < (GetChildren s self).length),
      GetChildByIndex s self i = ChildLookup.child ((GetChildren s self).get ⟨i, h⟩)) := by
  refine ⟨by decide, by decide, by decide, by decide, ?_, ?_, ?_⟩
  · intro s self index hneg hne
    have hpos : 0 < (GetChildren s self).length := List.length_pos.mpr hne
    have hcount : (0 : Int) < GetChildrenCount s self := by
      simp only [GetChildrenCount]; exact_mod_cast hpos
    have hnot : ¬ index ≥ GetChildrenCount s self := by omega
    cases index with
    | ofNat i => exact absurd hneg (by simp)
    | negSucc i => simp [GetChildByIndex, HasChildren, hcount, hnot]
  · intro s self index hge
    by_cases hc : HasChildren s self = false
    · simp [GetChildByIndex, hc]
    · simp [GetChildByIndex, hc, hge]
  · intro s self i h
    have hcount : (i : Int) < GetChildrenCount s self := by
      simp only [GetChildrenCount]; exact_mod_cast h
    have hpos : (0 : Int) < GetChildrenCount s self := by omega
    have hnot : ¬ (i : Int) ≥ GetChildrenCount s self := by omega
    have hget : (GetChildren s self)[i]? = some ((GetChildren s self).get ⟨i, h⟩) := by
      simp [List.getElem?_eq_getElem h]
    have hcast : ((i : Nat) : Int) = Int.ofNat i := rfl
    simp only [GetChildByIndex, HasChildren, hpos, if_true, hnot, if_false, hcast]
    simp [hget]
    exact hcount

/-- C19: partial serialization failure. When the children list of an entity
holds the live children `kids`, then a child whose game-object reference is
expired, then the children `later`, `GameObject::Serialize` returns exactly
when the entity has the transform that owns the children list and the third
children loop returns on `kids` alone, and then it has written the header and
component section, the count and the IDs of all children, and what the loop
writes for `kids`. When `GameObject::Serialize` on the children `kids` returns
the records `records`, one per child, that is the complete records of `kids`:
no record is written for the expired child or for any child after it, and
everything written before stays in the stream. -/
theorem GameObject.Serialize_stops_at_expired_child (lib : ComponentLib)
    (isPrefab isActive hierarchyVisibility : Bool) (ID : Nat) (name : String)
    (components : List Component) (kids : List (Nat × GameObject)) (expiredID : Nat)
    (later : ChildList) :
    (GameObject.mk isPrefab isActive hierarchyVisibility ID name components
        (ChildList.prepend kids (ChildList.expired expiredID later))).Serialize lib =
      (GetTransform components).bind (fun _ =>
        (ChildList.SerializeEach lib (ChildList.ofList kids)).map (fun records =>
          [Token.bool isPrefab, Token.bool isActive, Token.bool hierarchyVisibility,
            Token.uint ID, Token.str name, Token.int components.length]
          ++ (components.map (fun c => [Token.str c.g_typeStr, Token.uint c.g_ID])).flatten
          ++ (components.map lib.Serialize).flatten
          ++ [Token.int (kids.length + (later.size + 1))]
          ++ (kids.map (fun k => k.1) ++ expiredID :: later.ids).map Token.uint
          ++ records)) ∧
    (∀ records : List (List Token), (GetTransform components).isSome = true →
      kids.map (fun k => GameObject.Serialize lib k.2) = records.map some →
      (GameObject.mk isPrefab isActive hierarchyVisibility ID name components
          (ChildList.prepend kids (ChildList.expired expiredID later))).Serialize lib =
        some ([Token.bool isPrefab, Token.bool isActive, Token.bool hierarchyVisibility,
            Token.uint ID, Token.str name, Token.int components.length]
          ++ (components.map (fun c => [Token.str c.g_typeStr, Token.uint c.g_ID])).flatten
          ++ (components.map lib.Serialize).flatten
          ++ [Token.int (kids.length + (later.size + 1))]
          ++ (kids.map (fun k => k.1) ++ expiredID :: later.ids).map Token.uint
          ++ records.flatten)) := by
  refine ⟨?_, fun records ht hk => ?_⟩
  · cases ht : GetTransform components with
    | none =>
      rw [GameObject.Serialize_without_transform lib (GameObject.mk isPrefab isActive
        hierarchyVisibility ID name components
        (ChildList.prepend kids (ChildList.expired expiredID later))) ht]
      rfl
    | some tr =>
      rw [GameObject.Serialize_eq_record lib (GameObject.mk isPrefab isActive
        hierarchyVisibility ID name components
        (ChildList.prepend kids (ChildList.expired expiredID later))) (by
          simp [GameObject.m_components, ht])]
      simp only [GameObject.record, GameObject.children,
        ChildList.SerializeEach_prepend_expired, ChildList.size_prepend,
        ChildList.ids_prepend, ChildList.size, ChildList.ids, Nat.cast_add, Nat.cast_one,
        Option.some_bind]
  · rw [GameObject.Serialize_eq_record lib (GameObject.mk isPrefab isActive hierarchyVisibility
      ID name components (ChildList.prepend kids (ChildList.expired expiredID later))) ht]
    simp only [GameObject.record, GameObject.children,
      ChildList.SerializeEach_prepend lib kids records _ hk,
      ChildList.size_prepend, ChildList.ids_prepend, ChildList.size, ChildList.ids,
      ChildList.SerializeEach, List.append_nil, Nat.cast_add, Nat.cast_one, Option.map_some']

/-- Witness of `GameObject.Serialize_stops_at_expired_child`: a root whose
children are the live leaf `a`, an expired reference and the live leaf `b`;
the record of `a` is written, the record of `b` is not. -/
theorem GameObject.Serialize_stops_at_expired_child_witness :
    (GetTransform [⟨"Transform", 101, []⟩]).isSome = true ∧
    [(103, sampleLeaf 3 "a")].map (fun k => GameObject.Serialize skyboxLib k.2)
      = [(sampleLeaf 3 "a").record skyboxLib].map some ∧
    (GameObject.mk true true false 1 "root" [⟨"Transform", 101, []⟩]
        (ChildList.prepend [(103, sampleLeaf 3 "a")]
          (ChildList.expired 105 (ChildList.live 104 (sampleLeaf 4 "b") ChildList.nil)))).Serialize
        skyboxLib =
      some ([Token.bool true, Token.bool true, Token.bool false, Token.uint 1,
          Token.str "root", Token.int 1]
        ++ [Token.str "Transform", Token.uint 101]
        ++ [Token.int 3]
        ++ [Token.uint 103, Token.uint 105, Token.uint 104]
        ++ (sampleLeaf 3 "a").record skyboxLib) :=
  ⟨by decide, by decide,
    (by simpa using ((GameObject.Serialize_stops_at_expired_child skyboxLib true true false 1
      "root" [⟨"Transform", 101, []⟩] [(103, sampleLeaf 3 "a")] 105
      (ChildList.live 104 (sampleLeaf 4 "b") ChildList.nil)).2
      [(sampleLeaf 3 "a").record skyboxLib] (by decide) (by decide)))⟩

/-- C20, evaluated at the failing input: `LoadFromPrefab` does not return true
in every case other than the I/O failures. In the sample file system
`broken.prefab` is a prefab file that can be opened and holds a record with
the unrecognised type tag `Unknown`; `LoadFromPrefab` on it returns for no
fuel, whatever the component variants and the entity are, because
`Deserialize` stores the component ID through the null pointer. On
`hero.prefab`, a prefab file with recognised tags, it returns true. Likewise
`SaveAsPrefab` on a file that can be created does not return on the entity
without a transform that `Deserialize` leaves of a fresh entity after reading
a record whose one component is a light: `Serialize` reads the children
through the null pointer. -/
theorem LoadFromPrefab_unknown_tag_never_returns :
    sampleFileSystem.IsEnginePrefabFile "broken.prefab" = true ∧
    sampleFileSystem.openRead "broken.prefab" = some unknownTagStream ∧
    (∀ (lib : ComponentLib) (fuel : Nat) (g : GameObject),
      LoadFromPrefab sampleFileSystem lib fuel g "broken.prefab" = none) ∧
    (LoadFromPrefab sampleFileSystem skyboxLib 3
        (GameObject.mk false true true 0 "GameObject" [] ChildList.nil) "hero.prefab").map
      PrefabResult.returned = some true ∧
    GameObject.Deserialize skyboxLib 1 lightOnlyStream [] = some (sampleLightOnly, []) ∧
    sampleFileSystem.canCreate ("light" ++ ".prefab") = true ∧
    GameObject.Serialize skyboxLib (sampleLightOnly.setIsPrefab true) = none ∧
    (SaveAsPrefab sampleFileSystem skyboxLib ".prefab" sampleLightOnly "light").isNone = true ∧
    (SaveAsPrefab sampleFileSystem skyboxLib ".prefab" sampleTree "tree").map
      PrefabResult.returned = some true := by
  refine ⟨by decide, by decide, fun lib fuel g => ?_, by decide, rfl, by decide,
    by decide, by decide, by decide⟩
  have h1 : sampleFileSystem.IsEnginePrefabFile "broken.prefab" = true := by decide
  have h2 : sampleFileSystem.openRead "broken.prefab" = some unknownTagStream := by decide
  simp only [LoadFromPrefab, h1, h2, Deserialize_unknownTagStream lib g.m_components fuel]
  rfl

/-- C21, evaluated at the failing input: the root part of the world position
round trip does not hold in a state the calls of the class reach. After
`X.SetParent(P)`, `P.SetPositionLocal((1, 0, 0))`, `P.Update()`, `X.Update()`
and `X.BecomeOrphan()` the transform `X` is a root with local position
`(0, 0, 0)`, clean, with the world matrix it had below `P`. Then
`X.SetPosition((0, 0, 0))` changes nothing, because the local position already
has that value, `X.Update()` changes nothing, because `X` is clean, and
`X.GetPosition()` is the translation decomposed from the translation matrix by
`(1, 0, 0)`: with the sample math library that is `(1, 0, 0)`, not the
`(0, 0, 0)` that was set. -/
theorem SetPosition_root_round_trip_stale :
    (∀ (m : MathLib) (nullID : String),
      runOps m nullID 3 (Pool.fresh ["P", "X"]) staleRootOps = some (staleWorldPool m) ∧
      SetPosition m (staleWorldPool m) 1 ⟨0, 0, 0⟩ = staleWorldPool m ∧
      Update m (staleWorldPool m) 1 = staleWorldPool m ∧
      GetParent (staleWorldPool m) 1 = none ∧
      ((staleWorldPool m).get 1).positionLocal = ⟨0, 0, 0⟩ ∧
      GetPosition (staleWorldPool m) 1
        = (m.decompose (Matrix.CreateTranslation ⟨1, 0, 0⟩)).2.2) ∧
    GetPosition (staleWorldPool sampleMath) 1 = ⟨1, 0, 0⟩ ∧
    GetPosition (staleWorldPool sampleMath) 1 ≠ ⟨0, 0, 0⟩ :=
  ⟨fun m nullID => ⟨staleRoot_run m nullID, rfl, rfl, rfl, rfl, rfl⟩, by decide, by decide⟩

/-- C22, evaluated at the failing input: `SetParent` does not run to completion
in every consistent forest. The pool `poolFork` (root `A` with children `B` and
`C`) is well formed, acyclic and consistent, `A` and `C` are transforms of it,
and the call `A.SetParent(C)` returns for no amount of fuel: after the
orphaning loop has skipped `C`, the call makes `C` the parent of `A` while `A`
still is the parent of `C`, and the recursive `FindChildren` of `C` on that
state returns for no amount of fuel. -/
theorem SetParent_does_not_terminate :
    WellFormed poolFork ∧ Acyclic poolFork ∧ Consistent poolFork ∧
    (0 < poolFork.size ∧ 2 < poolFork.size) ∧
    (∀ fuel, SetParent fuel poolFork 0 (some 2) = none) ∧
    GetParent (poolForkRescued.setParentPtr 0 (some 2)) 0 = some 2 ∧
    GetParent (poolForkRescued.setParentPtr 0 (some 2)) 2 = some 0 ∧
    (∀ fuel, FindChildren fuel (poolForkRescued.setParentPtr 0 (some 2)) 2 = none) :=
  ⟨Pool.wellFormedB_sound (by decide), Pool.acyclicB_sound (by decide),
    Pool.consistentB_sound (by decide), ⟨by decide, by decide⟩, SetParent_poolFork_none,
    by decide, by decide,
    fun fuel => FindChildren_two_cycle fuel _ 0 2 (by decide) (by decide)⟩

/-- C23: children-list rebuild postcondition. In a pool with valid parent
pointers and unique IDs whose parent relation is acyclic, for every transform
`X` of the pool, `X.FindChildren()` returns with enough fuel. Afterwards the
cached children list of `X`, and of every descendant of `X`, is exactly the
pool transforms whose parent has the ID of that transform, each once and in
pool order; no parent pointer, local value or dirty flag has changed; and a
second `X.FindChildren()` returns the same pool. -/
theorem FindChildren_rebuilds (s : Pool) (X : Ptr) (wf : WellFormed s) (hac : Acyclic s)
    (hX : X < s.size) :
    ∃ fuel0, ∀ fuel, fuel0 ≤ fuel →
      ∃ s', FindChildren fuel s X = some s' ∧
        (∀ y, Anc s X y →
          GetChildren s' y = childrenByID s y ∧ (GetChildren s' y).Nodup) ∧
        (∀ y, GetParent s' y = GetParent s y ∧ (s'.get y).locals = (s.get y).locals ∧
          (s'.get y).isDirty = (s.get y).isDirty) ∧
        FindChildren fuel s' X = some s' := by
  obtain ⟨d, hr⟩ := hac.ranked wf
  obtain ⟨B, hB⟩ := rank_bound s d
  refine ⟨B + 1, fun fuel hf => ?_⟩
  obtain ⟨s', e, c1, c2, c3⟩ := FindChildren_spec wf hr hB fuel s X (SameCore.refl s) hX
    (by omega)
  obtain ⟨s'', e', d1, d2, d3⟩ := FindChildren_spec wf hr hB fuel s' X c1 hX (by omega)
  have hsame : s'' = s' := by
    refine Pool.ext_get (d1.1.symm.trans c1.1) (fun p => ?_)
    refine Transform.eq_of_core_children ((d1.2 p).symm.trans (c1.2 p)) ?_
    by_cases hp : Anc s X p
    · exact (d3 p hp).trans (c3 p hp).symm
    · exact d2 p hp
  refine ⟨s', e, fun y hy => ?_, fun y => ⟨c1.parent y, c1.locals y, c1.dirty y⟩,
    hsame ▸ e'⟩
  rw [c3 y hy, childrenByID_eq_childrenOf wf (hy.lt_size_of_lt hX)]
  exact ⟨rfl, childrenOf_nodup s y⟩

/-- Witness of `FindChildren_rebuilds`: rebuilding from the root `A` of
`poolForkDeep`. -/
theorem FindChildren_rebuilds_witness :
    ∃ fuel0, ∀ fuel, fuel0 ≤ fuel →
      ∃ s', FindChildren fuel poolForkDeep 0 = some s' ∧
        (∀ y, Anc poolForkDeep 0 y →
          GetChildren s' y = childrenByID poolForkDeep y ∧ (GetChildren s' y).Nodup) ∧
        (∀ y, GetParent s' y = GetParent poolForkDeep y ∧
          (s'.get y).locals = (poolForkDeep.get y).locals ∧
          (s'.get y).isDirty = (poolForkDeep.get y).isDirty) ∧
        FindChildren fuel s' 0 = some s' :=
  FindChildren_rebuilds poolForkDeep 0 (Pool.wellFormedB_sound (by decide))
    (Pool.acyclicB_sound (by decide)) (by decide)

/-- C24, evaluated at the failing input: in a state reached by one `SetParent`
call from a consistent forest the descendant queries do not follow the parent
chains. From `poolOXP` (root `O` with child `X`, second root `P`) the call
`X.SetParent(P)` leads to `poolOXPStale`, where the parent of `X` is the root
`P` but `X` is still in the children list of `O`. There `O.GetDescendants()`
is `[X]` and `X.IsDescendantOf(O)` is true although `O` is not an ancestor of
`X`. -/
theorem GetDescendants_follows_stale_children :
    WellFormed poolOXP ∧ Acyclic poolOXP ∧ Consistent poolOXP ∧
    SetParent 3 poolOXP 1 (some 2) = some poolOXPStale ∧
    GetParent poolOXPStale 1 = some 2 ∧ GetParent poolOXPStale 2 = none ∧
    (∀ fuel, GetDescendants (fuel + 2) poolOXPStale 0 = some [1]) ∧
    (∀ fuel, IsDescendantOf (fuel + 2) poolOXPStale 1 0 = some true) ∧
    ¬ Anc poolOXPStale 0 1 := by
  refine ⟨Pool.wellFormedB_sound (by decide), Pool.acyclicB_sound (by decide),
    Pool.consistentB_sound (by decide), by decide, by decide, by decide,
    fun fuel => rfl, fun fuel => rfl, ?_⟩
  intro h
  cases h with
  | step hp h1 =>
    have e1 : GetParent poolOXPStale 1 = some 2 := by decide
    rw [e1] at hp
    cases hp
    cases h1 with
    | step hp2 _ =>
      have e2 : GetParent poolOXPStale 2 = none := by decide
      rw [e2] at hp2
      cases hp2

/-- C25: root lookup. In a pool whose parent relation is acyclic, for every
transform `X` of the pool, `X.GetRoot()` returns with enough fuel; what it
returns is the one transform `R` that has no parent and is `X` itself or an
ancestor of `X`. A root returns itself, `X.GetRoot()` is
`X.GetParent().GetRoot()` for every non-root `X`, and `GetRoot` of the result
is the result. -/
theorem GetRoot_returns_the_root (s : Pool) (X : Ptr) (hac : Acyclic s) (hX : X < s.size) :
    ∃ R fuel0,
      (∀ fuel, fuel0 ≤ fuel → GetRoot fuel s X = some R) ∧
      GetParent s R = none ∧ Anc s R X ∧
      (∀ R', GetParent s R' = none → Anc s R' X → R' = R) ∧
      (GetParent s X = none → R = X) ∧
      (∀ p, GetParent s X = some p →
        (∀ fuel, GetRoot (fuel + 1) s X = GetRoot fuel s p) ∧
        ∀ fuel, fuel0 ≤ fuel → GetRoot fuel s p = some R) ∧
      (∀ fuel, GetRoot (fuel + 1) s R = some R) := by
  obtain ⟨n, hn⟩ := hac X hX
  obtain ⟨R, e, hr, ha⟩ := GetRoot_of_reachesRoot n X hn
  refine ⟨R, n, fun fuel hf => GetRoot_mono n fuel X R hf e, hr, ha, ?_, ?_, ?_, ?_⟩
  · intro R' hr' ha'
    rcases Anc.linear ha ha' with h | h
    · exact (h.eq_of_root hr').symm
    · exact h.eq_of_root hr
  · intro hroot
    exact ha.eq_of_root hroot
  · intro p hp
    refine ⟨fun fuel => by simp [GetRoot, hp], fun fuel hf => ?_⟩
    have h1 := GetRoot_mono n (fuel + 1) X R (by omega) e
    simpa [GetRoot, hp] using h1
  · intro fuel
    simp [GetRoot, hr]

/-- Witness of `GetRoot_returns_the_root`: the root of `C` in the chain
`poolChain`. -/
theorem GetRoot_returns_the_root_witness :
    ∃ R fuel0,
      (∀ fuel, fuel0 ≤ fuel → GetRoot fuel poolChain 2 = some R) ∧
      GetParent poolChain R = none ∧ Anc poolChain R 2 ∧
      (∀ R', GetParent poolChain R' = none → Anc poolChain R' 2 → R' = R) ∧
      (GetParent poolChain 2 = none → R = 2) ∧
      (∀ p, GetParent poolChain 2 = some p →
        (∀ fuel, GetRoot (fuel + 1) poolChain 2 = GetRoot fuel poolChain p) ∧
        ∀ fuel, fuel0 ≤ fuel → GetRoot fuel poolChain p = some R) ∧
      (∀ fuel, GetRoot (fuel + 1) poolChain R = some R) :=
  GetRoot_returns_the_root poolChain 2 (Pool.acyclicB_sound (by decide)) (by decide)

/-- C26, the claim as stated fails: the pool in which `P` and its child `X`
both are clean is reached from freshly constructed transforms and is a
consistent forest, `X` is a descendant of `P`, and after `P.MakeDirty()` the
dirty flag of `X` is still clear. -/
theorem MakeDirty_leaves_descendant_clean :
    ¬ ∀ (m : MathLib) (nullID : String) (s : Pool) (X y : Ptr), Reachable m nullID s →
      WellFormed s → Acyclic s → Consistent s → X < s.size → Anc s X y →
      ((MakeDirty s X).get y).isDirty = true := by
  intro h
  have h1 := h sampleMath "null" (staleWorldPool4 sampleMath) 0 1
    ⟨["P", "X"], cleanPairOps, 3, cleanPair_run sampleMath "null"⟩
    (Pool.wellFormedB_sound (by decide)) (Pool.acyclicB_sound (by decide))
    (Pool.consistentB_sound (by decide)) (by decide) (Anc.step (by decide) Anc.refl)
  revert h1
  decide

/-- C26, amended: `MakeDirty` sets the dirty flag of its own transform only.
After `X.MakeDirty()` the dirty flag of `X` is true and every other transform,
the descendants of `X` included, is as before, so `Update()` of a transform
other than `X` that was clean does nothing. The flag is passed down one level
by `Update()`: the next `X.Update()` recomputes the world matrix of `X`,
clears the flag of `X`, sets the flag of every direct child of `X` and changes
no other flag, so that each direct child recomputes on its own next
`Update()`. -/
theorem MakeDirty_one_level_propagation (m : MathLib) (s : Pool) (X : Ptr)
    (hX : X < s.size) :
    ((MakeDirty s X).get X).isDirty = true ∧
    (∀ y, y ≠ X → (MakeDirty s X).get y = s.get y) ∧
    (∀ y, y ≠ X → (s.get y).isDirty = false →
      Update m (MakeDirty s X) y = MakeDirty s X) ∧
    ((Update m (MakeDirty s X) X).get X).worldMatrix
      = (s.get X).localMatrix.mul (GetParentMatrix s X) ∧
    ((Update m (MakeDirty s X) X).get X).isDirty = false ∧
    (∀ c, c ∈ GetChildren s X → c < s.size → c ≠ X →
      ((Update m (MakeDirty s X) X).get c).isDirty = true ∧
      ((Update m (Update m (MakeDirty s X) X) c).get c).worldMatrix
        = ((Update m (MakeDirty s X) X).get c).localMatrix.mul
            (GetParentMatrix (Update m (MakeDirty s X) X) c) ∧
      ((Update m (Update m (MakeDirty s X) X) c).get c).isDirty = false) ∧
    (∀ y, y ≠ X → y ∉ GetChildren s X →
      ((Update m (MakeDirty s X) X).get y).isDirty = (s.get y).isDirty) := by
  have hX' : X < (MakeDirty s X).size := by rw [size_MakeDirty]; exact hX
  have hself := get_MakeDirty_self s X hX
  have hd : ((MakeDirty s X).get X).isDirty = true := by rw [hself]
  have hch : GetChildren (MakeDirty s X) X = GetChildren s X := GetChildren_MakeDirty s X X
  obtain ⟨f1, f2, f3⟩ := Update_flags m (MakeDirty s X) X hX' hd
  have hw := Update_worldMatrix m (MakeDirty s X) X hX' hd
  refine ⟨hd, fun y hy => get_MakeDirty_ne s X y hy, fun y hy hcl => ?_, ?_, f1,
    fun c hc hcl hcX => ?_, fun y hy hnc => ?_⟩
  · have : ((MakeDirty s X).get y).isDirty = false := by
      rw [get_MakeDirty_ne s X y hy]; exact hcl
    simp [Update, this]
  · rw [hw, hself]
    rw [GetParentMatrix_MakeDirty]
    rfl
  · have hcd := f2 c (by rw [hch]; exact hc) (by rw [size_MakeDirty]; exact hcl) hcX
    have hsz : c < (Update m (MakeDirty s X) X).size := by
      rw [size_Update, size_MakeDirty]; exact hcl
    exact ⟨hcd, Update_worldMatrix m _ c hsz hcd, (Update_flags m _ c hsz hcd).1⟩
  · rw [f3 y hy (by rw [hch]; exact hnc), get_MakeDirty_ne s X y hy]

/-- Witness of `MakeDirty_one_level_propagation`: `P.MakeDirty()` in the pool
in which `P` and its child `X` both are clean. -/
theorem MakeDirty_one_level_propagation_witness :
    (0 < (staleWorldPool4 sampleMath).size ∧ 1 ∈ GetChildren (staleWorldPool4 sampleMath) 0) ∧
    ((MakeDirty (staleWorldPool4 sampleMath) 0).get 1).isDirty = false ∧
    ((Update sampleMath (MakeDirty (staleWorldPool4 sampleMath) 0) 0).get 0).isDirty = false ∧
    ((Update sampleMath (MakeDirty (staleWorldPool4 sampleMath) 0) 0).get 1).isDirty = true :=
  ⟨⟨by decide, by decide⟩, by decide,
    (MakeDirty_one_level_propagation sampleMath (staleWorldPool4 sampleMath) 0
      (by decide)).2.2.2.2.1,
    ((MakeDirty_one_level_propagation sampleMath (staleWorldPool4 sampleMath) 0
      (by decide)).2.2.2.2.2.1 1 (by decide) (by decide) (by decide)).1⟩

end Directus
